import Mathlib

/-!
# MAGE execution engine: a shallow embedding of `engine/engine.cpp`

The engine (`mage::engine::Engine<Protocol>`) interprets packed physical
instructions over a flat wire memory, emitting a fixed sequence of backend
gate calls per opcode.  This file embeds the handlers `execute_*` as Lean
functions, generic in the backend, and studies them on the plaintext backend.

Modelling conventions.

* A wire address is a natural number; `output[i]` in the source is the wire at
  address `output + i`.  Wire memory is a total function from addresses to
  wires: the source performs no bounds check.
* A backend gate `op(out, a, b)` reads its inputs by value and then assigns
  `out`; it may also change the backend's own state (channel, counters).  A gate
  is therefore a function from the input wires and the backend state to the
  produced wire and the new backend state.
* `BitWidth` is an unsigned machine integer.  A loop
  `for (BitWidth i = lo; i != hi; i++)` with `lo ≤ hi` runs its body for
  `i = lo, lo + 1, ..., hi - 1`, that is `hi - lo` times, and the counter never
  wraps; the handlers are modelled on that domain (`1 ≤ width` for the loops that
  start at `1`).
* The tail of a packed instruction is a union of views (`one_arg`, `two_args`,
  `three_args`, `constant`).  Each view is kept as a field of its own, so every
  statement below holds for whatever the overlay of the views makes them hold.
  `decodeInstruction` builds the views from the bytes of one tail, laid out as
  section 3 of the specification describes them.
* `ClusterNetwork::establish` (`engine/cluster.cpp`) is embedded over an explicit
  platform environment (`NetworkEnv`) and records the platform calls it makes.
  The connector threads are run to completion one after the other, in index
  order, before the accept loop; interleavings are not modelled.  `std::abort()`
  and an access outside `fds` are outcomes of their own (`Fault`).
-/

namespace mage

/-! ## Data model -/

/-- The opcodes `Engine::execute` dispatches on (the `case` labels of its switch);
any other value of the opcode byte is `Unknown`. -/
inductive OpCode where
  | PublicConstant
  | IntAdd
  | IntIncrement
  | IntSub
  | IntDecrement
  | IntLess
  | Equal
  | IsZero
  | NonZero
  | BitNOT
  | BitAND
  | BitOR
  | BitXOR
  | ValueSelect
  | Unknown (code : Nat)
  deriving DecidableEq

/-- Fixed header of a packed physical instruction: `phys.header`. -/
structure InstructionHeader where
  operation : OpCode
  output : Nat
  deriving DecidableEq

/-- The view `phys.one_arg`. -/
structure OneArg where
  input1 : Nat
  width : Nat
  deriving DecidableEq

/-- The view `phys.two_args`. -/
structure TwoArgs where
  input1 : Nat
  input2 : Nat
  width : Nat
  deriving DecidableEq

/-- The view `phys.three_args`. -/
structure ThreeArgs where
  input1 : Nat
  input2 : Nat
  input3 : Nat
  width : Nat
  deriving DecidableEq

/-- The view `phys.constant`. -/
structure ConstantArgs where
  constant : Nat
  width : Nat
  deriving DecidableEq

/-- A packed physical instruction, seen through its header and each of the views
of its tail. -/
structure PackedPhysInstruction where
  header : InstructionHeader
  one_arg : OneArg
  two_args : TwoArgs
  three_args : ThreeArgs
  constant : ConstantArgs
  deriving DecidableEq

/-- The backend contract: the gate operations the engine template calls on
`this->protocol`.  Each gate maps its input wires and the backend state to the
wire it assigns to its destination and the backend state afterwards. -/
structure Protocol (Wire State : Type) where
  zero : State → Wire × State
  one : State → Wire × State
  op_copy : Wire → State → Wire × State
  op_not : Wire → State → Wire × State
  op_xor : Wire → Wire → State → Wire × State
  op_xnor : Wire → Wire → State → Wire × State
  op_and : Wire → Wire → State → Wire × State

/-- The engine: the backend (`this->protocol`) and the wire memory
(`this->memory`). -/
structure Engine (Wire State : Type) where
  protocol : State
  memory : Nat → Wire

/-- Assignment to the wire at address `addr`. -/
def write {Wire : Type} (m : Nat → Wire) (addr : Nat) (w : Wire) : Nat → Wire :=
  fun x => if x = addr then w else m x

/-- A gate call whose destination is a stack-local wire: the produced wire and
the engine with the backend state advanced. -/
def Engine.call {Wire State : Type} (e : Engine Wire State)
    (gate : State → Wire × State) : Wire × Engine Wire State :=
  ((gate e.protocol).1, { protocol := (gate e.protocol).2, memory := e.memory })

/-- A gate call whose destination is the wire at address `addr` of wire memory. -/
def Engine.callTo {Wire State : Type} (e : Engine Wire State) (addr : Nat)
    (gate : State → Wire × State) : Engine Wire State :=
  { protocol := (gate e.protocol).2, memory := write e.memory addr (gate e.protocol).1 }

/-- The loop `for (i = start; i != start + count; i++) s = body i s`. -/
def forLoop {σ : Type} (body : Nat → σ → σ) : Nat → Nat → σ → σ
  | 0, _, s => s
  | count + 1, i, s => forLoop body count (i + 1) (body i s)

/-! ## Handlers of `engine.cpp` -/

section Handlers

variable {Wire State : Type}

/-- One iteration of the loop of `execute_public_constant`; the loop state is the
engine and the remaining `constant`. -/
def public_constant_body (P : Protocol Wire State) (output : Nat) (i : Nat)
    (st : Engine Wire State × Nat) : Engine Wire State × Nat :=
  let e := st.1
  let constant := st.2
  let e := if constant % 2 = 0 then e.callTo (output + i) P.zero
    else e.callTo (output + i) P.one
  (e, constant / 2)

/-- The handler `Engine::execute_public_constant`. -/
def execute_public_constant (P : Protocol Wire State) (phys : PackedPhysInstruction)
    (e : Engine Wire State) : Engine Wire State :=
  let output := phys.header.output
  let width := phys.constant.width
  let constant := phys.constant.constant
  (forLoop (public_constant_body P output) width 0 (e, constant)).1

/-- One iteration of the loop of `execute_int_add`; the loop state is the engine
and the stack wires `carry`, `temp1`, `temp2` (`temp3` is assigned before it is
read in every iteration). -/
def int_add_body (P : Protocol Wire State) (output input1 input2 : Nat) (i : Nat)
    (st : Engine Wire State × Wire × Wire × Wire) : Engine Wire State × Wire × Wire × Wire :=
  let (e, carry, temp1, temp2) := st
  let (temp3, e) := e.call (P.op_and temp1 temp2)
  let (carry, e) := e.call (P.op_xor carry temp3)
  let (temp1, e) := e.call (P.op_xor (e.memory (input1 + i)) carry)
  let (temp2, e) := e.call (P.op_xor (e.memory (input2 + i)) carry)
  let e := e.callTo (output + i) (P.op_xor temp1 (e.memory (input2 + i)))
  (e, carry, temp1, temp2)

/-- The handler `Engine::execute_int_add`. -/
def execute_int_add (P : Protocol Wire State) (phys : PackedPhysInstruction)
    (e : Engine Wire State) : Engine Wire State :=
  let output := phys.header.output
  let input1 := phys.two_args.input1
  let input2 := phys.two_args.input2
  let width := phys.two_args.width
  let (carry, e) := e.call P.zero
  let (temp1, e) := e.call (P.op_copy (e.memory (input1 + 0)))
  let (temp2, e) := e.call (P.op_copy (e.memory (input2 + 0)))
  let e := e.callTo (output + 0) (P.op_xor temp1 temp2)
  (forLoop (int_add_body P output input1 input2) (width - 1) 1 (e, carry, temp1, temp2)).1

/-- One iteration of the loop of `execute_int_increment`; the loop state is the
engine and the stack wire `carry`. -/
def int_increment_body (P : Protocol Wire State) (output input : Nat) (i : Nat)
    (st : Engine Wire State × Wire) : Engine Wire State × Wire :=
  let (e, carry) := st
  let e := e.callTo (output + i) (P.op_xor (e.memory (input + i)) carry)
  let (carry, e) := e.call (P.op_and carry (e.memory (input + i)))
  (e, carry)

/-- The handler `Engine::execute_int_increment`. -/
def execute_int_increment (P : Protocol Wire State) (phys : PackedPhysInstruction)
    (e : Engine Wire State) : Engine Wire State :=
  let output := phys.header.output
  let input := phys.one_arg.input1
  let width := phys.one_arg.width
  let e := e.callTo (output + 0) (P.op_not (e.memory (input + 0)))
  let (carry, e) := e.call (P.op_copy (e.memory (input + 0)))
  if width = 1 then e
  else
    let (e, carry) := forLoop (int_increment_body P output input) (width - 1 - 1) 1 (e, carry)
    e.callTo (output + (width - 1)) (P.op_xor (e.memory (input + (width - 1))) carry)

/-- One iteration of the loop of `execute_int_sub`; the loop state is the engine
and the stack wires `borrow`, `temp1`, `temp2`. -/
def int_sub_body (P : Protocol Wire State) (output input1 input2 : Nat) (i : Nat)
    (st : Engine Wire State × Wire × Wire × Wire) : Engine Wire State × Wire × Wire × Wire :=
  let (e, borrow, temp1, temp2) := st
  let (temp3, e) := e.call (P.op_and temp1 temp2)
  let (borrow, e) := e.call (P.op_xor borrow temp3)
  let (temp1, e) := e.call (P.op_xor (e.memory (input1 + i)) (e.memory (input2 + i)))
  let (temp2, e) := e.call (P.op_xor (e.memory (input2 + i)) borrow)
  let e := e.callTo (output + i) (P.op_xor temp1 borrow)
  (e, borrow, temp1, temp2)

/-- The handler `Engine::execute_int_sub`. -/
def execute_int_sub (P : Protocol Wire State) (phys : PackedPhysInstruction)
    (e : Engine Wire State) : Engine Wire State :=
  let output := phys.header.output
  let input1 := phys.two_args.input1
  let input2 := phys.two_args.input2
  let width := phys.two_args.width
  let (borrow, e) := e.call P.zero
  let (temp1, e) := e.call (P.op_copy (e.memory (input1 + 0)))
  let (temp2, e) := e.call (P.op_copy (e.memory (input2 + 0)))
  let e := e.callTo (output + 0) (P.op_xor temp1 temp2)
  (forLoop (int_sub_body P output input1 input2) (width - 1) 1 (e, borrow, temp1, temp2)).1

/-- One iteration of the loop of `execute_int_decrement`; the loop state is the
engine and the stack wire `borrow`.  The AND reads `output[i]` after it has been
assigned. -/
def int_decrement_body (P : Protocol Wire State) (output input : Nat) (i : Nat)
    (st : Engine Wire State × Wire) : Engine Wire State × Wire :=
  let (e, borrow) := st
  let e := e.callTo (output + i) (P.op_xor (e.memory (input + i)) borrow)
  let (borrow, e) := e.call (P.op_and borrow (e.memory (output + i)))
  (e, borrow)

/-- The handler `Engine::execute_int_decrement`. -/
def execute_int_decrement (P : Protocol Wire State) (phys : PackedPhysInstruction)
    (e : Engine Wire State) : Engine Wire State :=
  let output := phys.header.output
  let input := phys.one_arg.input1
  let width := phys.one_arg.width
  let (borrow, e) := e.call (P.op_not (e.memory (input + 0)))
  let e := e.callTo (output + 0) (P.op_copy borrow)
  if width = 1 then e
  else
    let (e, borrow) := forLoop (int_decrement_body P output input) (width - 1 - 1) 1 (e, borrow)
    e.callTo (output + (width - 1)) (P.op_xor (e.memory (input + (width - 1))) borrow)

/-- One iteration of the loop of `execute_int_less`; the loop state is the engine
and the stack wire `result`. -/
def int_less_body (P : Protocol Wire State) (input1 input2 : Nat) (i : Nat)
    (st : Engine Wire State × Wire) : Engine Wire State × Wire :=
  let (e, result) := st
  let (temp1, e) := e.call (P.op_xor (e.memory (input1 + i)) (e.memory (input2 + i)))
  let (temp2, e) := e.call (P.op_xor (e.memory (input2 + i)) result)
  let (temp3, e) := e.call (P.op_and temp1 temp2)
  let (result, e) := e.call (P.op_xor result temp3)
  (e, result)

/-- The handler `Engine::execute_int_less`. -/
def execute_int_less (P : Protocol Wire State) (phys : PackedPhysInstruction)
    (e : Engine Wire State) : Engine Wire State :=
  let output := phys.header.output
  let input1 := phys.two_args.input1
  let input2 := phys.two_args.input2
  let width := phys.two_args.width
  let (temp1, e) := e.call (P.op_xor (e.memory (input1 + 0)) (e.memory (input2 + 0)))
  let (result, e) := e.call (P.op_and temp1 (e.memory (input2 + 0)))
  let (e, result) := forLoop (int_less_body P input1 input2) (width - 1) 1 (e, result)
  e.callTo output (P.op_copy result)

/-- One iteration of the loop of `execute_equal`; the loop state is the engine and
the stack wire `result`. -/
def equal_body (P : Protocol Wire State) (input1 input2 : Nat) (i : Nat)
    (st : Engine Wire State × Wire) : Engine Wire State × Wire :=
  let (e, result) := st
  let (temp, e) := e.call (P.op_xnor (e.memory (input1 + i)) (e.memory (input2 + i)))
  let (result, e) := e.call (P.op_and result temp)
  (e, result)

/-- The handler `Engine::execute_equal`. -/
def execute_equal (P : Protocol Wire State) (phys : PackedPhysInstruction)
    (e : Engine Wire State) : Engine Wire State :=
  let output := phys.header.output
  let input1 := phys.two_args.input1
  let input2 := phys.two_args.input2
  let width := phys.two_args.width
  let (result, e) := e.call (P.op_xnor (e.memory (input1 + 0)) (e.memory (input2 + 0)))
  let (e, result) := forLoop (equal_body P input1 input2) (width - 1) 1 (e, result)
  e.callTo output (P.op_copy result)

/-- One iteration of the loop shared, verbatim, by `execute_is_zero` and
`execute_non_zero`; the loop state is the engine and the stack wire `result`. -/
def is_zero_body (P : Protocol Wire State) (input : Nat) (i : Nat)
    (st : Engine Wire State × Wire) : Engine Wire State × Wire :=
  let (e, result) := st
  let (temp, e) := e.call (P.op_not (e.memory (input + i)))
  let (result, e) := e.call (P.op_and result temp)
  (e, result)

/-- The handler `Engine::execute_is_zero`. -/
def execute_is_zero (P : Protocol Wire State) (phys : PackedPhysInstruction)
    (e : Engine Wire State) : Engine Wire State :=
  let output := phys.header.output
  let input := phys.one_arg.input1
  let width := phys.one_arg.width
  let (result, e) := e.call (P.op_copy (e.memory (input + 0)))
  let (e, result) := forLoop (is_zero_body P input) width 0 (e, result)
  e.callTo output (P.op_copy result)

/-- The handler `Engine::execute_non_zero`. -/
def execute_non_zero (P : Protocol Wire State) (phys : PackedPhysInstruction)
    (e : Engine Wire State) : Engine Wire State :=
  let output := phys.header.output
  let input := phys.one_arg.input1
  let width := phys.one_arg.width
  let (result, e) := e.call (P.op_copy (e.memory (input + 0)))
  let (e, result) := forLoop (is_zero_body P input) width 0 (e, result)
  e.callTo output (P.op_not result)

/-- The handler `Engine::execute_bit_not`. -/
def execute_bit_not (P : Protocol Wire State) (phys : PackedPhysInstruction)
    (e : Engine Wire State) : Engine Wire State :=
  let output := phys.header.output
  let input := phys.one_arg.input1
  let width := phys.one_arg.width
  forLoop (fun i e => e.callTo (output + i) (P.op_not (e.memory (input + i)))) width 0 e

/-- The handler `Engine::execute_bit_and`. -/
def execute_bit_and (P : Protocol Wire State) (phys : PackedPhysInstruction)
    (e : Engine Wire State) : Engine Wire State :=
  let output := phys.header.output
  let input1 := phys.two_args.input1
  let input2 := phys.two_args.input2
  let width := phys.two_args.width
  forLoop (fun i e =>
    e.callTo (output + i) (P.op_and (e.memory (input1 + i)) (e.memory (input2 + i)))) width 0 e

/-- One iteration of the loop of `execute_bit_or`; `temp1` and `temp2` are
assigned before they are read in every iteration. -/
def bit_or_body (P : Protocol Wire State) (output input1 input2 : Nat) (i : Nat)
    (e : Engine Wire State) : Engine Wire State :=
  let (temp1, e) := e.call (P.op_xor (e.memory (input1 + i)) (e.memory (input2 + i)))
  let (temp2, e) := e.call (P.op_and (e.memory (input1 + i)) (e.memory (input2 + i)))
  e.callTo (output + i) (P.op_xor temp1 temp2)

/-- The handler `Engine::execute_bit_or`. -/
def execute_bit_or (P : Protocol Wire State) (phys : PackedPhysInstruction)
    (e : Engine Wire State) : Engine Wire State :=
  let output := phys.header.output
  let input1 := phys.two_args.input1
  let input2 := phys.two_args.input2
  let width := phys.two_args.width
  forLoop (bit_or_body P output input1 input2) width 0 e

/-- The handler `Engine::execute_bit_xor`. -/
def execute_bit_xor (P : Protocol Wire State) (phys : PackedPhysInstruction)
    (e : Engine Wire State) : Engine Wire State :=
  let output := phys.header.output
  let input1 := phys.two_args.input1
  let input2 := phys.two_args.input2
  let width := phys.two_args.width
  forLoop (fun i e =>
    e.callTo (output + i) (P.op_xor (e.memory (input1 + i)) (e.memory (input2 + i)))) width 0 e

/-- One iteration of the loop of `execute_value_select`; `different` and `temp`
are assigned before they are read in every iteration. -/
def value_select_body (P : Protocol Wire State) (output input1 input2 : Nat) (selector : Wire)
    (i : Nat) (e : Engine Wire State) : Engine Wire State :=
  let (different, e) := e.call (P.op_xor (e.memory (input1 + i)) (e.memory (input2 + i)))
  let (temp, e) := e.call (P.op_and different selector)
  e.callTo (output + i) (P.op_xor temp (e.memory (input1 + i)))

/-- The handler `Engine::execute_value_select`.  The operand addresses come from
the `three_args` view and the width from the `two_args` view, as in the source. -/
def execute_value_select (P : Protocol Wire State) (phys : PackedPhysInstruction)
    (e : Engine Wire State) : Engine Wire State :=
  let output := phys.header.output
  let input1 := phys.three_args.input1
  let input2 := phys.three_args.input2
  let input3 := phys.three_args.input3
  let width := phys.two_args.width
  let (selector, e) := e.call (P.op_copy (e.memory input3))
  forLoop (value_select_body P output input1 input2 selector) width 0 e

/-- Outcome of `Engine::execute`: the handler ran to completion and left the
engine in state `e`, or `std::abort()` was called with the engine in state `e`. -/
inductive ExecResult (Wire State : Type) where
  | completed (e : Engine Wire State)
  | aborted (e : Engine Wire State)

/-- The dispatcher `Engine::execute`: a switch on `phys.header.operation` whose
`default` branch calls `std::abort()`. -/
def execute (P : Protocol Wire State) (phys : PackedPhysInstruction)
    (e : Engine Wire State) : ExecResult Wire State :=
  match phys.header.operation with
  | OpCode.PublicConstant => ExecResult.completed (execute_public_constant P phys e)
  | OpCode.IntAdd => ExecResult.completed (execute_int_add P phys e)
  | OpCode.IntIncrement => ExecResult.completed (execute_int_increment P phys e)
  | OpCode.IntSub => ExecResult.completed (execute_int_sub P phys e)
  | OpCode.IntDecrement => ExecResult.completed (execute_int_decrement P phys e)
  | OpCode.IntLess => ExecResult.completed (execute_int_less P phys e)
  | OpCode.Equal => ExecResult.completed (execute_equal P phys e)
  | OpCode.IsZero => ExecResult.completed (execute_is_zero P phys e)
  | OpCode.NonZero => ExecResult.completed (execute_non_zero P phys e)
  | OpCode.BitNOT => ExecResult.completed (execute_bit_not P phys e)
  | OpCode.BitAND => ExecResult.completed (execute_bit_and P phys e)
  | OpCode.BitOR => ExecResult.completed (execute_bit_or P phys e)
  | OpCode.BitXOR => ExecResult.completed (execute_bit_xor P phys e)
  | OpCode.ValueSelect => ExecResult.completed (execute_value_select P phys e)
  | OpCode.Unknown _ => ExecResult.aborted e

end Handlers

/-! ## The plaintext backend -/

/-- Modelled from the spec: the plaintext backend `schemes::Plaintext` of
`schemes/plaintext.hpp`, which is not among the sources.  A wire is a bit, the
gates are the boolean functions of their names, and the backend has no state. -/
def Plaintext : Protocol Bool Unit where
  zero := fun s => (false, s)
  one := fun s => (true, s)
  op_copy := fun a s => (a, s)
  op_not := fun a s => (!a, s)
  op_xor := fun a b s => (xor a b, s)
  op_xnor := fun a b s => (!(xor a b), s)
  op_and := fun a b s => (a && b, s)

/-- The unsigned integer stored LSB-first in the `width` wires starting at `base`. -/
def decode (m : Nat → Bool) (base : Nat) : Nat → Nat
  | 0 => 0
  | width + 1 => decode m base width + (if m (base + width) then 2 ^ width else 0)

/-- The `width` wires at `a` and the `width` wires at `b` have no wire in common. -/
def NoOverlap (a b width : Nat) : Prop := a + width ≤ b ∨ b + width ≤ a

instance (a b width : Nat) : Decidable (NoOverlap a b width) := by
  unfold NoOverlap; infer_instance

/-- No wire of the operand at `input` is overwritten before the handler reads it:
the output base is not strictly inside the operand range.  Operands disjoint
from the output, and operands starting at or above the output base, qualify. -/
def NoClobber (input output width : Nat) : Prop := output ≤ input ∨ input + width ≤ output

instance (input output width : Nat) : Decidable (NoClobber input output width) := by
  unfold NoClobber; infer_instance

/-- An instruction with two operands, as the `two_args` view sees it. -/
def mkTwoArgs (op : OpCode) (output input1 input2 width : Nat) : PackedPhysInstruction :=
  { header := { operation := op, output := output }
    one_arg := { input1 := input1, width := width }
    two_args := { input1 := input1, input2 := input2, width := width }
    three_args := { input1 := input1, input2 := input2, input3 := 0, width := width }
    constant := { constant := 0, width := 0 } }

/-- An instruction with one operand, as the `one_arg` view sees it. -/
def mkOneArg (op : OpCode) (output input1 width : Nat) : PackedPhysInstruction :=
  { header := { operation := op, output := output }
    one_arg := { input1 := input1, width := width }
    two_args := { input1 := input1, input2 := 0, width := width }
    three_args := { input1 := input1, input2 := 0, input3 := 0, width := width }
    constant := { constant := 0, width := 0 } }

/-- A `ValueSelect` instruction: operands in the `three_args` view, the width in
the `two_args` view. -/
def mkSelect (output input1 input2 input3 width : Nat) : PackedPhysInstruction :=
  { header := { operation := OpCode.ValueSelect, output := output }
    one_arg := { input1 := input1, width := width }
    two_args := { input1 := input1, input2 := input2, width := width }
    three_args := { input1 := input1, input2 := input2, input3 := input3, width := width }
    constant := { constant := 0, width := 0 } }

/-! ## The half-gates backend (`schemes/halfgates.hpp`)

The two roles exchange data over one connection.  The garbler only ever writes
blocks and the evaluator only ever writes `bool` bytes, so the garbler-to-evaluator
direction is a FIFO of blocks and the evaluator-to-garbler direction a FIFO of
bytes; a block read from the byte FIFO takes 16 bytes.  A read that finds too
little data does not return: the operation then has no result (`none`). -/

/-- Modelled from the spec: `crypto::block` of `crypto/block.hpp`, which is not
among the sources; a 128-bit block, kept as a natural number. -/
abbrev block := Nat

/-- Modelled from the spec: `crypto::xorBlocks`, the bitwise XOR of two blocks. -/
def xorBlocks (a b : block) : block := a ^^^ b

/-- Modelled from the spec: `crypto::getLSB`, the least significant bit of a block. -/
def getLSB (a : block) : Bool := a.testBit 0

/-- Modelled from the spec: `crypto::make_delta`, the block with its least
significant bit forced to 1. -/
def make_delta (x : block) : block := x ||| 1

/-- The primitives of `crypto/mitccrh.hpp` (the hash `MiTCCRH`, state `Hash`) and
`crypto/prg.hpp` (the generator `PRG`), which are not among the sources, taken as
parameters.  `k2_h4` and `k2_h2` return the hashes and the hash state afterwards;
`random_block` returns the next block and the generator afterwards; `fix_key` is
the generator `PRG(fix_key)`. -/
structure Crypto (Hash PRG : Type) where
  KS_BATCH_N : Nat
  key_used : Hash → Nat
  setS : Hash → block → Hash
  set_start_point : Hash → block → Hash
  renew_ks : Hash → Int → Hash
  k2_h4 : Hash → block → block → block → block → (block × block × block × block) × Hash
  k2_h2 : Hash → block → block → (block × block) × Hash
  fix_key : PRG
  set_seed : PRG → block → PRG
  random_block : PRG → block × PRG

/-- Modelled from the spec: `PRG::random_block(data, length)`, which draws `length`
blocks in sequence; the blocks and the generator afterwards. -/
def random_blocks {Hash PRG : Type} (C : Crypto Hash PRG) : Nat → PRG → List block × PRG
  | 0, g => ([], g)
  | n + 1, g =>
    let r := C.random_block g
    let rest := random_blocks C n r.2
    (r.1 :: rest.1, rest.2)

/-- Modelled from the spec: `BinaryFileReader::read1` of `util/binaryfile.hpp`,
which is not among the sources: the next byte of the file and the rest. -/
def read1 (bytes : List Nat) : Option (Nat × List Nat) :=
  match bytes with
  | [] => none
  | b :: rest => some (b, rest)

/-- Modelled from the spec: `BufferedFileReader::read<bool>` on the byte FIFO: one
byte, true when it is not zero. -/
def readBool (bytes : List Nat) : Option (Bool × List Nat) :=
  match bytes with
  | [] => none
  | b :: rest => some (decide (b ≠ 0), rest)

/-- Modelled from the spec: `BufferedFileReader::read<crypto::block>` on the byte
FIFO: the next 16 bytes, least significant first. -/
def readBlockBytes (bytes : List Nat) : Option (block × List Nat) :=
  if bytes.length < 16 then none
  else some ((bytes.take 16).foldr (fun b acc => b + 256 * acc) 0, bytes.drop 16)

/-- Modelled from the spec: `BufferedFileReader::read<crypto::block>` on the block
FIFO: the next block and the rest. -/
def readBlock (blocks : List block) : Option (block × List block) :=
  match blocks with
  | [] => none
  | b :: rest => some (b, rest)

/-- The function `HalfGatesGarbler::garble_gate_garble_halfgates`: the results
`*out0`, `*out1`, `table[0]`, `table[1]` and the hash state afterwards. -/
def garble_gate_garble_halfgates {Hash PRG : Type} (C : Crypto Hash PRG)
    (LA0 A1 LB0 B1 delta : block) (mitccrh : Hash) :
    (block × block × block × block) × Hash :=
  let pa := getLSB LA0
  let pb := getLSB LB0
  let H := C.k2_h4 mitccrh LA0 A1 LB0 B1
  let HLA0 := H.1.1
  let HA1 := H.1.2.1
  let HLB0 := H.1.2.2.1
  let HB1 := H.1.2.2.2
  let table0 := xorBlocks HLA0 HA1
  let table0 := if pb then xorBlocks table0 delta else table0
  let W0 := HLA0
  let W0 := if pa then xorBlocks W0 table0 else W0
  let tmp := xorBlocks HLB0 HB1
  let table1 := xorBlocks tmp LA0
  let W0 := xorBlocks W0 HLB0
  let W0 := if pb then xorBlocks W0 tmp else W0
  let out0 := W0
  let out1 := xorBlocks out0 delta
  ((out0, out1, table0, table1), H.2)

/-- The function `HalfGatesEvaluator::garble_gate_eval_halfgates`: the result
`*out` and the hash state afterwards. -/
def garble_gate_eval_halfgates {Hash PRG : Type} (C : Crypto Hash PRG)
    (A B : block) (table : block × block) (mitccrh : Hash) : block × Hash :=
  let sa := getLSB A
  let sb := getLSB B
  let H := C.k2_h2 mitccrh A B
  let HA := H.1.1
  let HB := H.1.2
  let W := xorBlocks HA HB
  let W := if sa then xorBlocks W table.1 else W
  let W := if sb then xorBlocks (xorBlocks W table.2) A else W
  (W, H.2)

/-- The members of `class HalfGatesGarbler`.  `input_reader` holds the unread
bytes of the input file, `output_writer` the bytes written to the output file,
`conn_reader` the unread bytes received from the peer and `conn_writer` the blocks
sent to the peer, each in order. -/
structure HalfGatesGarbler (Hash PRG : Type) where
  input_reader : List Nat
  output_writer : List Nat
  conn_reader : List Nat
  conn_writer : List block
  output_label_lsbs : List Bool
  global_id : Int
  delta : block
  start_point : block
  seed : block
  public_constants : block × block
  mitccrh : Hash
  prg : PRG
  shared_prg : PRG

/-- What the constructor of `HalfGatesGarbler` finds: the content of the input
file, the bytes the peer sends, the default-constructed generators `tmp`, `prg`,
`shared_prg` and hash `mitccrh`, and the indeterminate value of the local
`Wire a`, which is passed to `set_delta` without having been assigned. -/
structure GarblerEnv (Hash PRG : Type) where
  input_file : List Nat
  conn_in : List Nat
  tmp : PRG
  a : block
  mitccrh : Hash
  prg : PRG
  shared_prg : PRG

/-- The members of `class HalfGatesEvaluator`.  `conn_reader` holds the unread
blocks received from the peer and `conn_writer` the bytes sent to the peer. -/
structure HalfGatesEvaluator (Hash PRG : Type) where
  input_reader : List Nat
  conn_reader : List block
  conn_writer : List Nat
  global_id : Int
  start_point : block
  seed : block
  public_constants : block × block
  mitccrh : Hash
  shared_prg : PRG

/-- What the constructor of `HalfGatesEvaluator` finds: the content of the input
file, the blocks the peer sends, and the default-constructed `mitccrh` and
`shared_prg`. -/
structure EvaluatorEnv (Hash PRG : Type) where
  input_file : List Nat
  conn_in : List block
  mitccrh : Hash
  shared_prg : PRG

section HalfGates

variable {Hash PRG : Type}

/-- The member `HalfGatesGarbler::set_delta`. -/
def HalfGatesGarbler.set_delta (C : Crypto Hash PRG) (x : block)
    (s : HalfGatesGarbler Hash PRG) : HalfGatesGarbler Hash PRG :=
  let delta := make_delta x
  let r := random_blocks C 2 C.fix_key
  let pc0 := r.1.getD 0 0
  let pc1 := r.1.getD 1 0
  { s with delta := delta, public_constants := (pc0, xorBlocks pc1 delta) }

/-- The constructor `HalfGatesGarbler::HalfGatesGarbler`.  It reads nothing from
the connection and writes `start_point`, then `input_seed`. -/
def HalfGatesGarbler.construct (C : Crypto Hash PRG) (env : GarblerEnv Hash PRG) :
    HalfGatesGarbler Hash PRG :=
  let s : HalfGatesGarbler Hash PRG :=
    { input_reader := env.input_file, output_writer := [], conn_reader := env.conn_in,
      conn_writer := [], output_label_lsbs := [], global_id := 0, delta := 0,
      start_point := 0, seed := 0, public_constants := (0, 0), mitccrh := env.mitccrh,
      prg := env.prg, shared_prg := env.shared_prg }
  let r := C.random_block env.tmp
  let tmp := r.2
  let s := { s with seed := r.1 }
  let s := HalfGatesGarbler.set_delta C env.a s
  let r := C.random_block tmp
  let s := { s with start_point := r.1 }
  let s := { s with mitccrh := C.setS s.mitccrh s.start_point }
  let s := { s with conn_writer := s.conn_writer ++ [s.start_point] }
  let r := C.random_block s.prg
  let input_seed := r.1
  let s := { s with prg := r.2 }
  let s := { s with conn_writer := s.conn_writer ++ [input_seed] }
  { s with shared_prg := C.set_seed s.shared_prg input_seed }

/-- One iteration of the loop of the destructor `HalfGatesGarbler::~HalfGatesGarbler`,
for the recorded bit `lsb`. -/
def HalfGatesGarbler.teardown_step (lsb : Bool) (s : HalfGatesGarbler Hash PRG) :
    Option (HalfGatesGarbler Hash PRG) :=
  match readBool s.conn_reader with
  | none => none
  | some (evaluator_lsb, rest) =>
    let result := (lsb != evaluator_lsb)
    let output_bit := if result then 1 else 0
    some { s with conn_reader := rest, output_writer := s.output_writer ++ [output_bit] }

/-- The loop of the destructor over the recorded bits still to be handled. -/
def HalfGatesGarbler.teardown_loop :
    List Bool → HalfGatesGarbler Hash PRG → Option (HalfGatesGarbler Hash PRG)
  | [], s => some s
  | lsb :: rest, s =>
    match HalfGatesGarbler.teardown_step lsb s with
    | none => none
    | some s1 => HalfGatesGarbler.teardown_loop rest s1

/-- The destructor `HalfGatesGarbler::~HalfGatesGarbler`. -/
def HalfGatesGarbler.teardown (s : HalfGatesGarbler Hash PRG) :
    Option (HalfGatesGarbler Hash PRG) :=
  HalfGatesGarbler.teardown_loop s.output_label_lsbs s

/-- The loop of `HalfGatesGarbler::input` over the labels drawn from `shared_prg`:
the labels as left in `data` and the garbler afterwards. -/
def HalfGatesGarbler.input_loop :
    List block → HalfGatesGarbler Hash PRG → Option (List block × HalfGatesGarbler Hash PRG)
  | [], s => some ([], s)
  | label :: rest, s =>
    match read1 s.input_reader with
    | none => none
    | some (bit, unread) =>
      let label := if bit ≠ 0 then xorBlocks label s.delta else label
      match HalfGatesGarbler.input_loop rest { s with input_reader := unread } with
      | none => none
      | some (labels, s1) => some (label :: labels, s1)

/-- The member `HalfGatesGarbler::input`: the `length` labels written to `data`
and the garbler afterwards. -/
def HalfGatesGarbler.input (C : Crypto Hash PRG) (length : Nat)
    (s : HalfGatesGarbler Hash PRG) : Option (List block × HalfGatesGarbler Hash PRG) :=
  let r := random_blocks C length s.shared_prg
  HalfGatesGarbler.input_loop r.1 { s with shared_prg := r.2 }

/-- The member `HalfGatesGarbler::output` on the wires `data[0..length)`. -/
def HalfGatesGarbler.output (data : List block) (s : HalfGatesGarbler Hash PRG) :
    HalfGatesGarbler Hash PRG :=
  data.foldl (fun s w => { s with output_label_lsbs := s.output_label_lsbs ++ [getLSB w] }) s

/-- The member `HalfGatesGarbler::op_and`: the wire assigned to `output` and the
garbler afterwards. -/
def HalfGatesGarbler.op_and (C : Crypto Hash PRG) (input1 input2 : block)
    (s : HalfGatesGarbler Hash PRG) : Option (block × HalfGatesGarbler Hash PRG) :=
  match readBlockBytes s.conn_reader with
  | none => none
  | some (_, rest0) =>
    match readBlockBytes rest0 with
    | none => none
    | some (_, rest1) =>
      let s := { s with conn_reader := rest1 }
      let s := if C.key_used s.mitccrh = C.KS_BATCH_N
        then { s with mitccrh := C.renew_ks s.mitccrh s.global_id } else s
      let g := garble_gate_garble_halfgates C input1 (xorBlocks input1 s.delta) input2
        (xorBlocks input2 s.delta) s.delta s.mitccrh
      let s := { s with mitccrh := g.2 }
      let s := { s with global_id := s.global_id + 1 }
      let s := { s with conn_writer := s.conn_writer ++ [g.1.2.2.1] }
      let s := { s with conn_writer := s.conn_writer ++ [g.1.2.2.2] }
      some (g.1.1, s)

/-- The member `HalfGatesGarbler::op_xor`. -/
def HalfGatesGarbler.op_xor (input1 input2 : block) (s : HalfGatesGarbler Hash PRG) :
    block × HalfGatesGarbler Hash PRG :=
  (xorBlocks input1 input2, s)

/-- The member `HalfGatesGarbler::op_not`. -/
def HalfGatesGarbler.op_not (input : block) (s : HalfGatesGarbler Hash PRG) :
    block × HalfGatesGarbler Hash PRG :=
  (xorBlocks input s.public_constants.2, s)

/-- The member `HalfGatesGarbler::op_xnor`. -/
def HalfGatesGarbler.op_xnor (input1 input2 : block) (s : HalfGatesGarbler Hash PRG) :
    block × HalfGatesGarbler Hash PRG :=
  (xorBlocks (xorBlocks input1 input2) s.public_constants.2, s)

/-- The member `HalfGatesGarbler::op_copy`. -/
def HalfGatesGarbler.op_copy (input : block) (s : HalfGatesGarbler Hash PRG) :
    block × HalfGatesGarbler Hash PRG :=
  (input, s)

/-- The member `HalfGatesGarbler::one`. -/
def HalfGatesGarbler.one (s : HalfGatesGarbler Hash PRG) : block × HalfGatesGarbler Hash PRG :=
  (s.public_constants.2, s)

/-- The member `HalfGatesGarbler::zero`. -/
def HalfGatesGarbler.zero (s : HalfGatesGarbler Hash PRG) : block × HalfGatesGarbler Hash PRG :=
  (s.public_constants.1, s)

/-- The constructor `HalfGatesEvaluator::HalfGatesEvaluator`.  It reads three
blocks from the connection, into `seed`, `start_point` and `input_seed`. -/
def HalfGatesEvaluator.construct (C : Crypto Hash PRG) (env : EvaluatorEnv Hash PRG) :
    Option (HalfGatesEvaluator Hash PRG) :=
  let s : HalfGatesEvaluator Hash PRG :=
    { input_reader := env.input_file, conn_reader := env.conn_in, conn_writer := [],
      global_id := 0, start_point := 0, seed := 0, public_constants := (0, 0),
      mitccrh := env.mitccrh, shared_prg := env.shared_prg }
  let r := random_blocks C 2 C.fix_key
  let s := { s with public_constants := (r.1.getD 0 0, r.1.getD 1 0) }
  let r := C.random_block r.2
  let s := { s with start_point := r.1 }
  let s := { s with mitccrh := C.set_start_point s.mitccrh s.start_point }
  match readBlock s.conn_reader with
  | none => none
  | some (b0, rest0) =>
    let s := { s with seed := b0, conn_reader := rest0 }
    match readBlock s.conn_reader with
    | none => none
    | some (b1, rest1) =>
      let s := { s with start_point := b1, conn_reader := rest1 }
      let s := { s with mitccrh := C.setS s.mitccrh s.start_point }
      match readBlock s.conn_reader with
      | none => none
      | some (input_seed, rest2) =>
        let s := { s with conn_reader := rest2 }
        some { s with shared_prg := C.set_seed s.shared_prg input_seed }

/-- The member `HalfGatesEvaluator::input`: the `length` labels written to `data`
and the evaluator afterwards. -/
def HalfGatesEvaluator.input (C : Crypto Hash PRG) (length : Nat)
    (s : HalfGatesEvaluator Hash PRG) : List block × HalfGatesEvaluator Hash PRG :=
  let r := random_blocks C length s.shared_prg
  (r.1, { s with shared_prg := r.2 })

/-- The member `HalfGatesEvaluator::output` on the wires `data[0..length)`. -/
def HalfGatesEvaluator.output (data : List block) (s : HalfGatesEvaluator Hash PRG) :
    HalfGatesEvaluator Hash PRG :=
  data.foldl (fun s w =>
    { s with conn_writer := s.conn_writer ++ [if getLSB w then 1 else 0] }) s

/-- The member `HalfGatesEvaluator::op_and`.  The local `table` is never assigned:
its indeterminate content is the parameter `table`. -/
def HalfGatesEvaluator.op_and (C : Crypto Hash PRG) (table : block × block)
    (input1 input2 : block) (s : HalfGatesEvaluator Hash PRG) :
    block × HalfGatesEvaluator Hash PRG :=
  let s := if C.key_used s.mitccrh = C.KS_BATCH_N
    then { s with mitccrh := C.renew_ks s.mitccrh s.global_id } else s
  let g := garble_gate_eval_halfgates C input1 input2 table s.mitccrh
  (g.1, { s with mitccrh := g.2 })

/-- The member `HalfGatesEvaluator::op_xor`. -/
def HalfGatesEvaluator.op_xor (input1 input2 : block) (s : HalfGatesEvaluator Hash PRG) :
    block × HalfGatesEvaluator Hash PRG :=
  (xorBlocks input1 input2, s)

/-- The member `HalfGatesEvaluator::op_not`. -/
def HalfGatesEvaluator.op_not (input : block) (s : HalfGatesEvaluator Hash PRG) :
    block × HalfGatesEvaluator Hash PRG :=
  (xorBlocks input s.public_constants.2, s)

/-- The member `HalfGatesEvaluator::op_xnor`. -/
def HalfGatesEvaluator.op_xnor (input1 input2 : block) (s : HalfGatesEvaluator Hash PRG) :
    block × HalfGatesEvaluator Hash PRG :=
  (xorBlocks (xorBlocks input1 input2) s.public_constants.2, s)

/-- The member `HalfGatesEvaluator::op_copy`. -/
def HalfGatesEvaluator.op_copy (input : block) (s : HalfGatesEvaluator Hash PRG) :
    block × HalfGatesEvaluator Hash PRG :=
  (input, s)

/-- The member `HalfGatesEvaluator::one`. -/
def HalfGatesEvaluator.one (s : HalfGatesEvaluator Hash PRG) :
    block × HalfGatesEvaluator Hash PRG :=
  (s.public_constants.2, s)

/-- The member `HalfGatesEvaluator::zero`. -/
def HalfGatesEvaluator.zero (s : HalfGatesEvaluator Hash PRG) :
    block × HalfGatesEvaluator Hash PRG :=
  (s.public_constants.1, s)

end HalfGates

/-- The value `(a - b) mod 2^width` as a natural number. -/
def subMod (a b width : Nat) : Nat :=
  (((a : Int) - (b : Int)) % (2 : Int) ^ width).toNat

/-! ## Scenario data -/

/-- Wire memory holding the `width`-bit value `a` LSB-first at `base1`, the
`width`-bit value `b` LSB-first at `base2`, and `0` on every other wire. -/
def memoryOf (width base1 a base2 b : Nat) : Nat → Bool :=
  fun x =>
    if base1 ≤ x ∧ x < base1 + width then a.testBit (x - base1)
    else if base2 ≤ x ∧ x < base2 + width then b.testBit (x - base2)
    else false

/-- A plaintext engine over the given wire memory. -/
def plainEngine (m : Nat → Bool) : Engine Bool Unit :=
  { protocol := (), memory := m }

/-- A `PublicConstant` instruction: `width` bits of `constant` to `output`. -/
def mkConstant (output constant width : Nat) : PackedPhysInstruction :=
  { header := { operation := OpCode.PublicConstant, output := output }
    one_arg := { input1 := 0, width := 0 }
    two_args := { input1 := 0, input2 := 0, width := 0 }
    three_args := { input1 := 0, input2 := 0, input3 := 0, width := 0 }
    constant := { constant := constant, width := width } }

/-- A stand-in for the hash applied to the first label of a gate. -/
def toyH1 (x : block) : block := (5 * x + 1) % 2 ^ 128

/-- A stand-in for the hash applied to the second label of a gate. -/
def toyH2 (x : block) : block := (7 * x + 3) % 2 ^ 128

/-- Stand-ins for the primitives of `Crypto`, to evaluate the half-gates backend on
concrete data: the hash state counts the labels hashed, the generator is a
linear congruential one. -/
def toyCrypto : Crypto Nat Nat where
  KS_BATCH_N := 8
  key_used := fun h => h
  setS := fun _ _ => 0
  set_start_point := fun h _ => h
  renew_ks := fun _ _ => 0
  k2_h4 := fun h a b c d => ((toyH1 a, toyH1 b, toyH2 c, toyH2 d), h + 4)
  k2_h2 := fun h a b => ((toyH1 a, toyH2 b), h + 2)
  fix_key := 1000
  set_seed := fun _ b => b
  random_block := fun g => ((g * 6364136223846793005 + 1442695040888963407) % 2 ^ 128, g + 1)

/-- The evaluator's label `E` matches the garbler's label `G` for the bit `v`:
`E = G XOR (v ? delta : 0)`. -/
def Matches (delta E G : block) (v : Bool) : Prop :=
  E = xorBlocks G (if v then delta else 0)

instance (delta E G : block) (v : Bool) : Decidable (Matches delta E G v) := by
  unfold Matches; infer_instance

/-- A garbler environment for the stand-in primitives: input bits 1, 1, 0, 1 (the
value `0b1011`, LSB first) and nothing received from the peer. -/
def toyGarblerEnv : GarblerEnv Nat Nat :=
  { input_file := [1, 1, 0, 1], conn_in := [], tmp := 11, a := 0x9C, mitccrh := 0,
    prg := 22, shared_prg := 33 }

/-- The garbler constructed in `toyGarblerEnv`. -/
def toyGarbler : HalfGatesGarbler Nat Nat :=
  HalfGatesGarbler.construct toyCrypto toyGarblerEnv

/-- An evaluator state for the stand-in primitives with the public constants its
constructor draws from `PRG(fix_key)` and the generator seeded like the garbler's. -/
def toyEvaluator : HalfGatesEvaluator Nat Nat :=
  { input_reader := [], conn_reader := [], conn_writer := [], global_id := 0,
    start_point := toyGarbler.start_point, seed := 0,
    public_constants := ((random_blocks toyCrypto 2 toyCrypto.fix_key).1.getD 0 0,
      (random_blocks toyCrypto 2 toyCrypto.fix_key).1.getD 1 0),
    mitccrh := 0, shared_prg := toyGarbler.shared_prg }

/-- A sequence of calls of `HalfGatesGarbler::output`, one per list of wires. -/
def HalfGatesGarbler.outputs {Hash PRG : Type} (calls : List (List block))
    (s : HalfGatesGarbler Hash PRG) : HalfGatesGarbler Hash PRG :=
  calls.foldl (fun s data => HalfGatesGarbler.output data s) s

/-- A sequence of calls of `HalfGatesEvaluator::output`, one per list of wires. -/
def HalfGatesEvaluator.outputs {Hash PRG : Type} (calls : List (List block))
    (s : HalfGatesEvaluator Hash PRG) : HalfGatesEvaluator Hash PRG :=
  calls.foldl (fun s data => HalfGatesEvaluator.output data s) s

/-- The evaluator's label for a wire given as the garbler's label and the
plaintext bit: `G XOR (v ? delta : 0)`. -/
def evaluatorLabel (delta : block) (p : block × Bool) : block :=
  xorBlocks p.1 (if p.2 then delta else 0)

/-- The byte that carries a bit. -/
def bitByte (b : Bool) : Nat := if b then 1 else 0

/-- A role's backend during a run of the engine: `running s` while every read so
far has returned, `blocked s` once a read has found too little data on the
connection, `s` being the state in which that read was attempted. -/
inductive Session (S : Type) where
  | running (s : S)
  | blocked (s : S)

/-- The state of the role. -/
def Session.state {S : Type} : Session S → S
  | Session.running s => s
  | Session.blocked s => s

/-- Whether a read of the role has not returned. -/
def Session.isBlocked {S : Type} : Session S → Bool
  | Session.running _ => false
  | Session.blocked _ => true

/-- A gate of a role as a gate of the engine's backend: a gate that does not
return blocks the session, and a blocked session performs no further gate; the
wire of a gate that was not performed is the placeholder 0. -/
def Session.gate {S : Type} (op : S → Option (block × S)) : Session S → block × Session S
  | Session.running s =>
    match op s with
    | some (w, s1) => (w, Session.running s1)
    | none => (0, Session.blocked s)
  | Session.blocked s => (0, Session.blocked s)

/-- The garbler as the `Protocol` argument of the engine template. -/
def garblerProtocol {Hash PRG : Type} (C : Crypto Hash PRG) :
    Protocol block (Session (HalfGatesGarbler Hash PRG)) where
  zero := Session.gate (fun s => some (HalfGatesGarbler.zero s))
  one := Session.gate (fun s => some (HalfGatesGarbler.one s))
  op_copy := fun a => Session.gate (fun s => some (HalfGatesGarbler.op_copy a s))
  op_not := fun a => Session.gate (fun s => some (HalfGatesGarbler.op_not a s))
  op_xor := fun a b => Session.gate (fun s => some (HalfGatesGarbler.op_xor a b s))
  op_xnor := fun a b => Session.gate (fun s => some (HalfGatesGarbler.op_xnor a b s))
  op_and := fun a b => Session.gate (HalfGatesGarbler.op_and C a b)

/-- Wire memory holding the given labels from address 0 on and the block 0
elsewhere. -/
def memoryOfLabels (labels : List block) : Nat → block :=
  fun x => labels.getD x 0

/-- Scenario E5 on the garbler's side, with the stand-in primitives: the garbler is
constructed with the input bits 1, 1, 0, 1 (`x = 0b1011`) while its peer has sent
nothing, `input` puts the four labels at wires 0..3, `PublicConstant` writes
`0b0001` to wires 4..7, and `IntAdd` adds the two into wires 8..11. -/
def scenarioE5_garbler : Engine block (Session (HalfGatesGarbler Nat Nat)) :=
  match HalfGatesGarbler.input toyCrypto 4 toyGarbler with
  | none => { protocol := Session.blocked toyGarbler, memory := fun _ => 0 }
  | some (labels, g) =>
    let e0 : Engine block (Session (HalfGatesGarbler Nat Nat)) :=
      { protocol := Session.running g, memory := memoryOfLabels labels }
    let e1 := execute_public_constant (garblerProtocol toyCrypto) (mkConstant 4 1 4) e0
    execute_int_add (garblerProtocol toyCrypto) (mkTwoArgs OpCode.IntAdd 8 0 4 4) e1

/-- Scenario E5 on the evaluator's side: what its constructor finds when the
garbler's constructor has run, namely the garbler's two handshake blocks. -/
def scenarioE5_evaluatorEnv : EvaluatorEnv Nat Nat :=
  { input_file := [], conn_in := toyGarbler.conn_writer, mitccrh := 0, shared_prg := 44 }

/-! ## Output ranges and gate sequences -/

/-- The width field the handler of the instruction's opcode reads: the `constant`
view for PublicConstant, the `one_arg` view for the one-operand opcodes, the
`two_args` view for the two-operand opcodes and for ValueSelect. -/
def widthOf (phys : PackedPhysInstruction) : Nat :=
  match phys.header.operation with
  | OpCode.PublicConstant => phys.constant.width
  | OpCode.IntAdd => phys.two_args.width
  | OpCode.IntIncrement => phys.one_arg.width
  | OpCode.IntSub => phys.two_args.width
  | OpCode.IntDecrement => phys.one_arg.width
  | OpCode.IntLess => phys.two_args.width
  | OpCode.Equal => phys.two_args.width
  | OpCode.IsZero => phys.one_arg.width
  | OpCode.NonZero => phys.one_arg.width
  | OpCode.BitNOT => phys.one_arg.width
  | OpCode.BitAND => phys.two_args.width
  | OpCode.BitOR => phys.two_args.width
  | OpCode.BitXOR => phys.two_args.width
  | OpCode.ValueSelect => phys.two_args.width
  | OpCode.Unknown _ => 0

/-- The number of wires of the output range of an instruction: one wire for the
predicates IntLess, Equal, IsZero and NonZero, `widthOf` wires for the others. -/
def outputWidth (phys : PackedPhysInstruction) : Nat :=
  match phys.header.operation with
  | OpCode.IntLess => 1
  | OpCode.Equal => 1
  | OpCode.IsZero => 1
  | OpCode.NonZero => 1
  | _ => widthOf phys

/-- The opcode is one of the fourteen the dispatcher has a handler for. -/
def OpCode.isKnown : OpCode → Bool
  | OpCode.Unknown _ => false
  | _ => true

/-- The kinds of gate call of the backend contract. -/
inductive GateKind where
  | zero
  | one
  | op_copy
  | op_not
  | op_xor
  | op_xnor
  | op_and
  deriving DecidableEq

/-- The backend `P` run under observation: wires and state are those of `P`, and
every gate call appends its kind to a log kept next to the state of `P`.  The log
is the sequence of backend gate calls a handler emits, in call order. -/
def traced {Wire State : Type} (P : Protocol Wire State) :
    Protocol Wire (State × List GateKind) where
  zero := fun s => ((P.zero s.1).1, ((P.zero s.1).2, s.2 ++ [GateKind.zero]))
  one := fun s => ((P.one s.1).1, ((P.one s.1).2, s.2 ++ [GateKind.one]))
  op_copy := fun a s => ((P.op_copy a s.1).1, ((P.op_copy a s.1).2, s.2 ++ [GateKind.op_copy]))
  op_not := fun a s => ((P.op_not a s.1).1, ((P.op_not a s.1).2, s.2 ++ [GateKind.op_not]))
  op_xor := fun a b s =>
    ((P.op_xor a b s.1).1, ((P.op_xor a b s.1).2, s.2 ++ [GateKind.op_xor]))
  op_xnor := fun a b s =>
    ((P.op_xnor a b s.1).1, ((P.op_xnor a b s.1).2, s.2 ++ [GateKind.op_xnor]))
  op_and := fun a b s =>
    ((P.op_and a b s.1).1, ((P.op_and a b s.1).2, s.2 ++ [GateKind.op_and]))

/-- The gate kinds `l` of one loop iteration, `n` times over. -/
def repeatSeq : Nat → List GateKind → List GateKind
  | 0, _ => []
  | n + 1, l => l ++ repeatSeq n l

/-- The gate kinds of `execute_public_constant`: per wire, `zero` when the
remaining constant is even and `one` when it is odd, the constant being halved
after each wire. -/
def constantSeq : Nat → Nat → List GateKind
  | _, 0 => []
  | constant, width + 1 =>
    (if constant % 2 = 0 then GateKind.zero else GateKind.one) ::
      constantSeq (constant / 2) width

/-- The gate sequence of an instruction, a function of the instruction alone:
for each opcode the gate calls of its handler in source order, the loop body
repeated once per iteration. -/
def gateSequence (phys : PackedPhysInstruction) : List GateKind :=
  match phys.header.operation with
  | OpCode.PublicConstant => constantSeq phys.constant.constant phys.constant.width
  | OpCode.IntAdd =>
    [GateKind.zero, GateKind.op_copy, GateKind.op_copy, GateKind.op_xor] ++
      repeatSeq (phys.two_args.width - 1)
        [GateKind.op_and, GateKind.op_xor, GateKind.op_xor, GateKind.op_xor, GateKind.op_xor]
  | OpCode.IntIncrement =>
    [GateKind.op_not, GateKind.op_copy] ++
      (if phys.one_arg.width = 1 then []
        else repeatSeq (phys.one_arg.width - 1 - 1) [GateKind.op_xor, GateKind.op_and] ++
          [GateKind.op_xor])
  | OpCode.IntSub =>
    [GateKind.zero, GateKind.op_copy, GateKind.op_copy, GateKind.op_xor] ++
      repeatSeq (phys.two_args.width - 1)
        [GateKind.op_and, GateKind.op_xor, GateKind.op_xor, GateKind.op_xor, GateKind.op_xor]
  | OpCode.IntDecrement =>
    [GateKind.op_not, GateKind.op_copy] ++
      (if phys.one_arg.width = 1 then []
        else repeatSeq (phys.one_arg.width - 1 - 1) [GateKind.op_xor, GateKind.op_and] ++
          [GateKind.op_xor])
  | OpCode.IntLess =>
    [GateKind.op_xor, GateKind.op_and] ++
      repeatSeq (phys.two_args.width - 1)
        [GateKind.op_xor, GateKind.op_xor, GateKind.op_and, GateKind.op_xor] ++
      [GateKind.op_copy]
  | OpCode.Equal =>
    [GateKind.op_xnor] ++
      repeatSeq (phys.two_args.width - 1) [GateKind.op_xnor, GateKind.op_and] ++
      [GateKind.op_copy]
  | OpCode.IsZero =>
    [GateKind.op_copy] ++ repeatSeq phys.one_arg.width [GateKind.op_not, GateKind.op_and] ++
      [GateKind.op_copy]
  | OpCode.NonZero =>
    [GateKind.op_copy] ++ repeatSeq phys.one_arg.width [GateKind.op_not, GateKind.op_and] ++
      [GateKind.op_not]
  | OpCode.BitNOT => repeatSeq phys.one_arg.width [GateKind.op_not]
  | OpCode.BitAND => repeatSeq phys.two_args.width [GateKind.op_and]
  | OpCode.BitOR =>
    repeatSeq phys.two_args.width [GateKind.op_xor, GateKind.op_and, GateKind.op_xor]
  | OpCode.BitXOR => repeatSeq phys.two_args.width [GateKind.op_xor]
  | OpCode.ValueSelect =>
    [GateKind.op_copy] ++
      repeatSeq phys.two_args.width [GateKind.op_xor, GateKind.op_and, GateKind.op_xor]
  | OpCode.Unknown _ => []

/-- The number of `op_and` calls the specification gives for each opcode, `width`
being the width the handler reads. -/
def andCount (phys : PackedPhysInstruction) : Nat :=
  match phys.header.operation with
  | OpCode.PublicConstant => 0
  | OpCode.IntAdd => widthOf phys - 1
  | OpCode.IntIncrement => max (widthOf phys - 2) 0
  | OpCode.IntSub => widthOf phys - 1
  | OpCode.IntDecrement => max (widthOf phys - 2) 0
  | OpCode.IntLess => widthOf phys
  | OpCode.Equal => widthOf phys - 1
  | OpCode.IsZero => widthOf phys
  | OpCode.NonZero => widthOf phys
  | OpCode.BitNOT => 0
  | OpCode.BitAND => widthOf phys
  | OpCode.BitOR => widthOf phys
  | OpCode.BitXOR => 0
  | OpCode.ValueSelect => widthOf phys
  | OpCode.Unknown _ => 0

/-! ## The packed tail as bytes -/

/-- Modelled from the spec: the byte order in which an integer field of a packed
instruction is stored; `instruction.hpp` is not among the sources and section 3
of the specification does not fix the order, so both are modelled. -/
inductive ByteOrder where
  | little
  | big
  deriving DecidableEq

/-- The unsigned integer whose bytes, least significant first, are `bytes`. -/
def readLittle : List Nat → Nat
  | [] => 0
  | b :: bs => b + 256 * readLittle bs

/-- The `size` bytes of `value`, least significant first. -/
def writeLittle : Nat → Nat → List Nat
  | 0, _ => []
  | size + 1, value => value % 256 :: writeLittle size (value / 256)

/-- The unsigned integer stored in `bytes` in the given byte order. -/
def readUInt (order : ByteOrder) (bytes : List Nat) : Nat :=
  match order with
  | ByteOrder.little => readLittle bytes
  | ByteOrder.big => readLittle bytes.reverse

/-- The `size` bytes that store `value` in the given byte order. -/
def writeUInt (order : ByteOrder) (size value : Nat) : List Nat :=
  match order with
  | ByteOrder.little => writeLittle size value
  | ByteOrder.big => (writeLittle size value).reverse

/-- The field of `size` bytes at byte offset `offset` of an instruction tail. -/
def tailField (order : ByteOrder) (tail : List Nat) (offset size : Nat) : Nat :=
  readUInt order ((tail.drop offset).take size)

/-- Modelled from the spec: the bytes of a `three_args` tail as section 3 lays it
out, `{input1: u64, input2: u64, input3: u64, width: u16}` in declared order with
no padding. -/
def encodeThreeArgs (order : ByteOrder) (t : ThreeArgs) : List Nat :=
  writeUInt order 8 t.input1 ++ writeUInt order 8 t.input2 ++ writeUInt order 8 t.input3 ++
    writeUInt order 2 t.width

/-- Modelled from the spec: the views of a packed instruction over the bytes of
its tail, each tail layout of section 3 read from offset 0 of the same bytes
(fields in declared order, no padding): `one_arg{input1: u64, width: u16}`,
`two_args{input1: u64, input2: u64, width: u16}`,
`three_args{input1: u64, input2: u64, input3: u64, width: u16}` and
`constant{constant: u64, width: u8}`. -/
def decodeInstruction (order : ByteOrder) (operation : OpCode) (output : Nat)
    (tail : List Nat) : PackedPhysInstruction :=
  { header := { operation := operation, output := output }
    one_arg := { input1 := tailField order tail 0 8, width := tailField order tail 8 2 }
    two_args :=
      { input1 := tailField order tail 0 8, input2 := tailField order tail 8 8,
        width := tailField order tail 16 2 }
    three_args :=
      { input1 := tailField order tail 0 8, input2 := tailField order tail 8 8,
        input3 := tailField order tail 16 8, width := tailField order tail 24 2 }
    constant := { constant := tailField order tail 0 8, width := tailField order tail 8 1 } }

/-- The `three_args` tail of a 16-bit ValueSelect: `a` at wires 0..15, `b` at
wires 16..31, the selector at wire 32. -/
def selectTail : ThreeArgs := { input1 := 0, input2 := 16, input3 := 32, width := 16 }

/-- The ValueSelect instruction with tail `selectTail` and output at wire 64, as
the views see its bytes in the given byte order. -/
def selectInstruction (order : ByteOrder) : PackedPhysInstruction :=
  decodeInstruction order OpCode.ValueSelect 64 (encodeThreeArgs order selectTail)

/-- A wire memory for `selectInstruction`: `a = 0`, `b = 1` (wire 16 set), the
selector bit set (wire 32), every other wire 0. -/
def selectMemory : Nat → Bool := fun x => decide (x = 16) || decide (x = 32)

/-! ## The cluster network (`engine/cluster.cpp`) -/

/-- Modelled from the spec: the endpoint fields of `util::ResourceSet::Worker`, whose
header is not among the sources; each is a `std::optional` string. -/
structure Worker where
  internal_host : Option String
  internal_port : Option String
  deriving DecidableEq

/-- The test `!worker.internal_host.has_value() || !worker.internal_port.has_value()`
of the validation loop. -/
def Worker.incomplete (worker : Worker) : Bool :=
  !worker.internal_host.isSome || !worker.internal_port.isSome

/-- The values of `platform::NetworkError` that `establish` tells apart; every
other value is `Other`. -/
inductive NetworkError where
  | Success
  | ConnectionRefused
  | TimedOut
  | Other (code : Nat)
  deriving DecidableEq

/-- The calls `establish` makes on the platform layer and on the sockets. -/
inductive NetEvent where
  | network_connect (worker attempt : Nat)
  | write_id (fd : Int) (id : Nat)
  | sleep
  | network_accept (count : Nat)
  | read_id (index : Nat)
  | network_close (fd : Int)
  deriving DecidableEq

/-- The platform layer as `establish` sees it: `network_connect worker attempt` is
the error code of that connection attempt together with the value it stores in
`fds[worker]`, if it stores one; `accept_fds i` is the `i`-th socket
`network_accept` delivers and `accept_from i` the peer id read from it. -/
structure NetworkEnv where
  network_connect : Nat → Nat → NetworkError × Option Int
  accept_fds : Nat → Int
  accept_from : Nat → Nat

/-- The object `ClusterNetwork`; a `MessageChannel` is identified with its
`socket_fd`. -/
structure ClusterNetwork where
  channels : List Int
  self_id : Nat
  deriving DecidableEq

/-- The locals `fds` and `success` of `establish`, with the platform calls made so
far. -/
structure Tables where
  fds : List Int
  success : List Bool
  events : List NetEvent
  deriving DecidableEq

/-- The ways `establish` can fail to return: `std::abort()` in a connector, or an
access to `fds` outside its bounds. -/
inductive Fault where
  | aborted
  | outOfBounds
  deriving DecidableEq

/-- Outcome of `ClusterNetwork::establish`: it returns the string `rv` with the
object in state `net` after the platform calls `events`, or it does not return. -/
inductive Outcome where
  | returned (rv : String) (net : ClusterNetwork) (events : List NetEvent)
  | failed (fault : Fault)
  deriving DecidableEq

/-- The constant `ClusterNetwork::max_connection_tries`. -/
def max_connection_tries : Nat := 20

/-- The validation loop of `establish` from worker `i` on: the message returned at
the first worker without a host or a port, `none` when the loop runs to its end. -/
def validate_workers : List Worker → Nat → Option String
  | [], _ => none
  | worker :: rest, i =>
    if worker.incomplete then
      some ("Insufficient internal network information for worker " ++ toString i)
    else validate_workers rest (i + 1)

/-- The validation step of `establish`: the message it returns there, `none` when
`establish` goes on past it. -/
def validate (self_id : Nat) (workers : List Worker) : Option String :=
  if self_id ≥ workers.length then
    some ("Self index is " ++ toString self_id ++ " but num_workers is " ++
      toString workers.length)
  else validate_workers workers 0

/-- The body of a connector thread for worker `i`, from attempt `k` with `tries`
attempts left; `Except.error` stands for `std::abort()`. -/
def connector (env : NetworkEnv) (self_id i : Nat) : Nat → Nat → Tables → Except Fault Tables
  | 0, _, t => Except.ok { t with success := t.success.set i false }
  | tries + 1, k, t =>
    let fds := match (env.network_connect i k).2 with
      | some fd => t.fds.set i fd
      | none => t.fds
    let events := t.events ++ [NetEvent.network_connect i k]
    match (env.network_connect i k).1 with
    | NetworkError.Success =>
      Except.ok { fds := fds, success := t.success.set i true,
                  events := events ++ [NetEvent.write_id (fds.getD i (-1)) self_id] }
    | NetworkError.ConnectionRefused =>
      connector env self_id i tries (k + 1)
        { fds := fds, success := t.success, events := events ++ [NetEvent.sleep] }
    | NetworkError.TimedOut =>
      Except.ok { fds := fds, success := t.success.set i false, events := events }
    | NetworkError.Other _ => Except.error Fault.aborted

/-- One iteration of the loop that starts the connectors.  The threads are
modelled as run to completion one after the other, in index order, before the
accept loop. -/
def connect_body (env : NetworkEnv) (self_id : Nat) (j : Nat) (st : Except Fault Tables) :
    Except Fault Tables :=
  match st with
  | Except.ok t => connector env self_id j max_connection_tries 0 t
  | Except.error f => Except.error f

/-- One iteration of the accept loop: the peer id `from` is read from
`accept_fds[i]`, `success[from]` is set when `from` is a larger worker id whose
slot is empty, and `fds[from]` is assigned in every case; an assignment outside
`fds` is `Fault.outOfBounds`. -/
def accept_body (env : NetworkEnv) (num_workers self_id : Nat) (i : Nat)
    (st : Except Fault Tables) : Except Fault Tables :=
  match st with
  | Except.ok t =>
    let peer := env.accept_from i
    let events := t.events ++ [NetEvent.read_id i]
    let success :=
      if peer > self_id ∧ peer < num_workers ∧ t.fds.getD peer 0 = -1 then t.success.set peer true
      else t.success
    if peer < t.fds.length then
      Except.ok { fds := t.fds.set peer (env.accept_fds i), success := success, events := events }
    else Except.error Fault.outOfBounds
  | Except.error f => Except.error f

/-- The tables `fds` and `success` when the connectors have been joined: lines 72
to 130 of `establish`, reached when validation has passed. -/
def establish_tables (env : NetworkEnv) (num_workers self_id : Nat) : Except Fault Tables :=
  let t0 : Tables :=
    { fds := List.replicate num_workers (-1)
      success := (List.replicate num_workers false).set self_id true
      events := [] }
  match forLoop (connect_body env self_id) self_id 0 (Except.ok t0) with
  | Except.error f => Except.error f
  | Except.ok t1 =>
    let remaining := num_workers - self_id - 1
    if remaining ≠ 0 then
      forLoop (accept_body env num_workers self_id) remaining 0
        (Except.ok { t1 with events := t1.events ++ [NetEvent.network_accept remaining] })
    else Except.ok t1

/-- One iteration of the loop that composes the return value; the loop state is
`rv` and `overall_success`. -/
def report_body (success : List Bool) (i : Nat) (st : String × Bool) : String × Bool :=
  if !(success.getD i true) then
    (if st.2 then "Could not connect to worker(s) " ++ toString i
      else st.1 ++ (", " ++ toString i), false)
  else st

/-- One iteration of the loop that fills `channels` on success. -/
def channel_body (fds : List Int) (self_id : Nat) (i : Nat) (channels : List Int) : List Int :=
  if i ≠ self_id then channels ++ [fds.getD i (-1)] else channels

/-- One iteration of the loop that closes the sockets on failure. -/
def close_body (fds : List Int) (i : Nat) (events : List NetEvent) : List NetEvent :=
  if fds.getD i (-1) ≠ -1 then events ++ [NetEvent.network_close (fds.getD i (-1))] else events

/-- The method `ClusterNetwork::establish`.  On success `channels.resize(0)`
destroys the channels held before, which closes their sockets. -/
def ClusterNetwork.establish (env : NetworkEnv) (workers : List Worker) (net : ClusterNetwork) :
    Outcome :=
  let num_workers := workers.length
  match validate net.self_id workers with
  | some message => Outcome.returned message net []
  | none =>
    match establish_tables env num_workers net.self_id with
    | Except.error f => Outcome.failed f
    | Except.ok t =>
      let st := forLoop (report_body t.success) num_workers 0 ("", true)
      if st.2 then
        Outcome.returned st.1
          { net with channels := forLoop (channel_body t.fds net.self_id) num_workers 0 [] }
          (t.events ++ (net.channels.filter (fun fd => fd ≠ -1)).map NetEvent.network_close)
      else
        Outcome.returned st.1 net (forLoop (close_body t.fds) num_workers 0 t.events)

/-- The ids the failure message lists, separated by `", "`. -/
def joinIds : List Nat → String
  | [] => ""
  | [i] => toString i
  | i :: j :: rest => toString i ++ (", " ++ joinIds (j :: rest))

/-- The worker ids below `n` without an established connection according to the
table `success`, in increasing order. -/
def missingIds (success : List Bool) (n : Nat) : List Nat :=
  (List.range n).filter (fun i => !(success.getD i true))

/-- A worker with both endpoint fields. -/
def toyWorker : Worker := { internal_host := some "10.0.0.1", internal_port := some "5000" }

/-- A platform on which the connection to worker 0 succeeds at the first attempt
with socket 5, and the one inbound connection is socket 6 from worker 2. -/
def toyNetworkEnv : NetworkEnv :=
  { network_connect := fun _ _ => (NetworkError.Success, some 5)
    accept_fds := fun _ => 6
    accept_from := fun _ => 2 }

/-- A platform on which every connection attempt times out and every inbound
connection is socket 9 reporting the peer id `peer`. -/
def strayNetworkEnv (peer : Nat) : NetworkEnv :=
  { network_connect := fun _ _ => (NetworkError.TimedOut, none)
    accept_fds := fun _ => 9
    accept_from := fun _ => peer }

/-- Every worker id other than `self_id` that `success` marks as connected has a
socket other than -1 in `fds`; both tables have `num_workers` entries. -/
def SocketsRecorded (num_workers self_id : Nat) (t : Tables) : Prop :=
  t.fds.length = num_workers ∧ t.success.length = num_workers ∧
    ∀ j, j ≠ self_id → t.success[j]? = some true → ∃ fd, t.fds[j]? = some fd ∧ fd ≠ -1

/-! ## General lemmas -/

@[simp] theorem Plaintext_zero (s : Unit) : Plaintext.zero s = (false, s) := rfl

@[simp] theorem Plaintext_one (s : Unit) : Plaintext.one s = (true, s) := rfl

@[simp] theorem Plaintext_op_copy (a : Bool) (s : Unit) : Plaintext.op_copy a s = (a, s) := rfl

@[simp] theorem Plaintext_op_not (a : Bool) (s : Unit) : Plaintext.op_not a s = (!a, s) := rfl

@[simp] theorem Plaintext_op_xor (a b : Bool) (s : Unit) :
    Plaintext.op_xor a b s = (xor a b, s) := rfl

@[simp] theorem Plaintext_op_xnor (a b : Bool) (s : Unit) :
    Plaintext.op_xnor a b s = (!(xor a b), s) := rfl

@[simp] theorem Plaintext_op_and (a b : Bool) (s : Unit) :
    Plaintext.op_and a b s = (a && b, s) := rfl

theorem forLoop_induction {σ : Type} (body : Nat → σ → σ) (Inv : Nat → σ → Prop) :
    ∀ (count start : Nat) (s : σ), Inv start s →
      (∀ j t, start ≤ j → j < start + count → Inv j t → Inv (j + 1) (body j t)) →
      Inv (start + count) (forLoop body count start s) := by
  intro count
  induction count with
  | zero => intro start s h0 _; simpa [forLoop] using h0
  | succ n ih =>
    intro start s h0 hstep
    have h1 : Inv (start + 1) (body start s) := hstep start s (le_refl _) (by omega) h0
    have h2 := ih (start + 1) (body start s) h1
      (fun j t hj hlt hinv => hstep j t (by omega) (by omega) hinv)
    have e : start + (n + 1) = start + 1 + n := by omega
    rw [e]
    simpa [forLoop] using h2

@[simp] theorem write_same {Wire : Type} (m : Nat → Wire) (addr : Nat) (w : Wire) :
    write m addr w addr = w := by
  simp [write]

theorem write_other {Wire : Type} (m : Nat → Wire) (addr x : Nat) (w : Wire) (h : x ≠ addr) :
    write m addr w x = m x := by
  simp [write, h]

theorem decode_lt (m : Nat → Bool) (base : Nat) : ∀ width, decode m base width < 2 ^ width := by
  intro width
  induction width with
  | zero => simp [decode]
  | succ n ih =>
    simp only [decode]
    have : 2 ^ (n + 1) = 2 * 2 ^ n := by ring
    split <;> omega

theorem mod_eq_of_add_mul (d s m k : Nat) (hlt : d < m) (h : d + m * k = s) : d = s % m := by
  subst h
  rw [Nat.add_mul_mod_self_left, Nat.mod_eq_of_lt hlt]

theorem decode_congr (m m' : Nat → Bool) (base : Nat) :
    ∀ width, (∀ j, j < width → m' (base + j) = m (base + j)) →
      decode m' base width = decode m base width := by
  intro width
  induction width with
  | zero => intro _; rfl
  | succ n ih =>
    intro h
    simp only [decode]
    rw [ih (fun j hj => h j (by omega)), h n (by omega)]

theorem decode_of_testBit (m : Nat → Bool) (base c : Nat) :
    ∀ width, (∀ j, j < width → m (base + j) = c.testBit j) →
      decode m base width = c % 2 ^ width := by
  intro width
  induction width with
  | zero => intro _; simp [decode, Nat.mod_one]
  | succ n ih =>
    intro h
    simp only [decode]
    rw [ih (fun j hj => h j (by omega)), h n (by omega), Nat.mod_pow_succ,
      Nat.testBit_to_div_mod]
    rcases Nat.mod_two_eq_zero_or_one (c / 2 ^ n) with h0 | h1
    · simp [h0]
    · simp [h1]

/-- Every iteration of `execute_public_constant` halves the remaining constant,
leaves the wires below `output + j` alone and writes bit `j` of the constant as
a public label; the backend state is unchanged when `zero` and `one` keep it. -/
theorem public_constant_loop {Wire State : Type} (P : Protocol Wire State)
    (hzero : ∀ s, (P.zero s).2 = s) (hone : ∀ s, (P.one s).2 = s)
    (output c : Nat) (e : Engine Wire State) (width : Nat) :
    let r := forLoop (public_constant_body P output) width 0 (e, c)
    r.2 = c / 2 ^ width ∧ r.1.protocol = e.protocol ∧
      ∀ i, i < width → r.1.memory (output + i) =
        if c.testBit i then (P.one e.protocol).1 else (P.zero e.protocol).1 := by
  have key := forLoop_induction (public_constant_body P output)
    (fun k st => st.2 = c / 2 ^ k ∧ st.1.protocol = e.protocol ∧
      ∀ i, i < k → st.1.memory (output + i) =
        if c.testBit i then (P.one e.protocol).1 else (P.zero e.protocol).1)
    width 0 (e, c) (by simp) ?_
  · simpa using key
  · rintro j ⟨e1, c1⟩ _ _ ⟨hc, hp, hm⟩
    simp only at hc hp hm
    refine ⟨?_, ?_, ?_⟩
    · simp only [public_constant_body, hc, Nat.div_div_eq_div_mul, pow_succ]
    · simp only [public_constant_body]
      split <;> simp [Engine.callTo, hzero, hone, hp]
    · intro i hi
      have hbit : c.testBit j = decide (c1 % 2 = 1) := by
        rw [Nat.testBit_to_div_mod, hc]
      simp only [public_constant_body]
      rcases Nat.lt_succ_iff_lt_or_eq.mp hi with hlt | heq
      · have hne : output + i ≠ output + j := by omega
        split <;> simp [Engine.callTo, write_other _ _ _ _ hne, hm i hlt]
      · subst heq
        rcases Nat.mod_two_eq_zero_or_one c1 with h0 | h1
        · simp [Engine.callTo, h0, hbit, hp]
        · simp [Engine.callTo, h1, hbit, hp]

/-! ## PublicConstant -/

/-- C10. `execute_public_constant` assigns to `out[i]`, for every `i < width`, the
backend's public label for 1 when bit `i` of the constant is 1 and its public
label for 0 otherwise, for every backend whose `zero` and `one` leave the backend
state alone (they are `const` members); a bit at a position `≥ 64` of a 64-bit
constant is 0.  On the plaintext backend the `width` output wires encode
`constant mod 2^width`. -/
theorem execute_public_constant_correct (phys : PackedPhysInstruction) :
    (∀ (Wire State : Type) (P : Protocol Wire State) (e : Engine Wire State),
      (∀ s, (P.zero s).2 = s) → (∀ s, (P.one s).2 = s) →
      ∀ i, i < phys.constant.width →
        (execute_public_constant P phys e).memory (phys.header.output + i) =
            (if phys.constant.constant.testBit i then (P.one e.protocol).1
              else (P.zero e.protocol).1) ∧
          (phys.constant.constant < 2 ^ 64 → 64 ≤ i →
            (execute_public_constant P phys e).memory (phys.header.output + i) =
              (P.zero e.protocol).1)) ∧
    (∀ e : Engine Bool Unit,
      decode (execute_public_constant Plaintext phys e).memory phys.header.output
        phys.constant.width = phys.constant.constant % 2 ^ phys.constant.width) := by
  constructor
  · intro Wire State P e hzero hone i hi
    have h := (public_constant_loop P hzero hone phys.header.output phys.constant.constant e
      phys.constant.width).2.2 i hi
    refine ⟨h, ?_⟩
    intro hc h64
    have hlt : phys.constant.constant < 2 ^ i :=
      lt_of_lt_of_le hc (Nat.pow_le_pow_right (by decide) h64)
    rw [show (execute_public_constant P phys e).memory (phys.header.output + i) = _ from h,
      Nat.testBit_lt_two_pow hlt]
    simp
  · intro e
    apply decode_of_testBit
    intro j hj
    have h := (public_constant_loop Plaintext (fun _ => rfl) (fun _ => rfl) phys.header.output
      phys.constant.constant e phys.constant.width).2.2 j hj
    rw [show (execute_public_constant Plaintext phys e).memory (phys.header.output + j) = _ from h]
    cases phys.constant.constant.testBit j <;> simp [Plaintext]

/-- The constant `0b1011` written 8 bits wide at address 4: the wire of bit 1
carries the label for 1, and the eight wires encode 11. -/
theorem execute_public_constant_correct_witness :
    (1 < (mkConstant 4 11 8).constant.width ∧
      (execute_public_constant Plaintext (mkConstant 4 11 8) (plainEngine (fun _ => false))).memory
        ((mkConstant 4 11 8).header.output + 1) = true) ∧
    decode (execute_public_constant Plaintext (mkConstant 4 11 8)
      (plainEngine (fun _ => false))).memory 4 8 = 11 :=
  ⟨⟨by decide,
    ((execute_public_constant_correct (mkConstant 4 11 8)).1 Bool Unit Plaintext
      (plainEngine (fun _ => false)) (fun _ => rfl) (fun _ => rfl) 1 (by decide)).1⟩,
   (execute_public_constant_correct (mkConstant 4 11 8)).2 (plainEngine (fun _ => false))⟩

/-! ## IntAdd -/

theorem NoOverlap.noClobber {a b width : Nat} (h : NoOverlap a b width) : NoClobber a b width := by
  unfold NoOverlap at h; unfold NoClobber; omega

theorem decode_write_top (m : Nat → Bool) (base k : Nat) (v : Bool) :
    decode (write m (base + k) v) base (k + 1) = decode m base k + (if v then 2 ^ k else 0) := by
  simp only [decode, write_same]
  rw [decode_congr m (write m (base + k) v) base k
    (fun j hj => write_other _ _ _ _ (by omega))]

/-- Loop invariant of the ripple-carry adder: after the bits below `k` are
written, the wires outside `[output, output + k)` are untouched and the output
bits together with the pending carry `carry XOR (temp1 AND temp2)` add up to the
sum of the low `k` bits of the operands. -/
theorem int_add_loop (output input1 input2 width : Nat) (m0 : Nat → Bool)
    (h1 : NoClobber input1 output width) (h2 : NoClobber input2 output width)
    (count : Nat) (hcount : 1 + count ≤ width)
    (st : Engine Bool Unit × Bool × Bool × Bool)
    (hframe : ∀ x, (x < output ∨ output + 1 ≤ x) → st.1.memory x = m0 x)
    (hsum : decode st.1.memory output 1 + 2 ^ 1 * (xor st.2.1 (st.2.2.1 && st.2.2.2)).toNat =
      decode m0 input1 1 + decode m0 input2 1) :
    let r := forLoop (int_add_body Plaintext output input1 input2) count 1 st
    (∀ x, (x < output ∨ output + (1 + count) ≤ x) → r.1.memory x = m0 x) ∧
      decode r.1.memory output (1 + count) +
          2 ^ (1 + count) * (xor r.2.1 (r.2.2.1 && r.2.2.2)).toNat =
        decode m0 input1 (1 + count) + decode m0 input2 (1 + count) := by
  have key := forLoop_induction (int_add_body Plaintext output input1 input2)
    (fun k t => (∀ x, (x < output ∨ output + k ≤ x) → t.1.memory x = m0 x) ∧
      decode t.1.memory output k + 2 ^ k * (xor t.2.1 (t.2.2.1 && t.2.2.2)).toNat =
        decode m0 input1 k + decode m0 input2 k)
    count 1 st ⟨hframe, hsum⟩ ?_
  · exact key
  · rintro j ⟨e1, c, t1, t2⟩ hj1 hj2 ⟨hf, hs⟩
    simp only at hf hs
    have ha : e1.memory (input1 + j) = m0 (input1 + j) := by
      apply hf; unfold NoClobber at h1; omega
    have hb : e1.memory (input2 + j) = m0 (input2 + j) := by
      apply hf; unfold NoClobber at h2; omega
    simp only [int_add_body, Engine.call, Engine.callTo, Plaintext, ha, hb]
    refine ⟨?_, ?_⟩
    · intro x hx
      rw [write_other _ _ _ _ (by omega)]
      exact hf x (by omega)
    · rw [decode_write_top]
      simp only [decode]
      have hp : 2 ^ (j + 1) = 2 * 2 ^ j := by ring
      rw [hp]
      generalize 2 ^ j = p at hs ⊢
      generalize decode e1.memory output j = d at hs ⊢
      generalize decode m0 input1 j = da at hs ⊢
      generalize decode m0 input2 j = db at hs ⊢
      cases m0 (input1 + j) <;> cases m0 (input2 + j) <;> cases c <;> cases t1 <;> cases t2 <;>
        simp at hs ⊢ <;> omega

/-- The ripple-carry adder on the plaintext backend computes the sum modulo
`2^width` whenever neither operand is overwritten before it is read. -/
theorem int_add_sum (phys : PackedPhysInstruction) (e : Engine Bool Unit)
    (hw : 1 ≤ phys.two_args.width)
    (h1 : NoClobber phys.two_args.input1 phys.header.output phys.two_args.width)
    (h2 : NoClobber phys.two_args.input2 phys.header.output phys.two_args.width) :
    decode (execute_int_add Plaintext phys e).memory phys.header.output phys.two_args.width =
      (decode e.memory phys.two_args.input1 phys.two_args.width +
        decode e.memory phys.two_args.input2 phys.two_args.width) % 2 ^ phys.two_args.width := by
  obtain ⟨n, hn⟩ : ∃ n, phys.two_args.width = 1 + n := ⟨phys.two_args.width - 1, by omega⟩
  have hloop := int_add_loop phys.header.output phys.two_args.input1 phys.two_args.input2
    phys.two_args.width e.memory h1 h2 n (by omega)
    ((e.callTo (phys.header.output + 0)
        (Plaintext.op_xor (e.memory (phys.two_args.input1 + 0))
          (e.memory (phys.two_args.input2 + 0)))), false,
      e.memory (phys.two_args.input1 + 0), e.memory (phys.two_args.input2 + 0))
    (by
      intro x hx
      simp only [Engine.callTo, Plaintext]
      exact write_other _ _ _ _ (by omega))
    (by
      simp only [Engine.callTo, Plaintext, decode, Nat.add_zero, write_same]
      cases e.memory phys.two_args.input1 <;> cases e.memory phys.two_args.input2 <;> simp)
  have hexec : execute_int_add Plaintext phys e =
      (forLoop (int_add_body Plaintext phys.header.output phys.two_args.input1
        phys.two_args.input2) n 1
        ((e.callTo (phys.header.output + 0)
          (Plaintext.op_xor (e.memory (phys.two_args.input1 + 0))
            (e.memory (phys.two_args.input2 + 0)))), false,
        e.memory (phys.two_args.input1 + 0), e.memory (phys.two_args.input2 + 0))).1 := by
    simp [execute_int_add, Engine.call, Engine.callTo, Plaintext, hn]
  rw [hexec, hn]
  have hsum := hloop.2
  have hlt := decode_lt (forLoop (int_add_body Plaintext phys.header.output
    phys.two_args.input1 phys.two_args.input2) n 1
      ((e.callTo (phys.header.output + 0)
        (Plaintext.op_xor (e.memory (phys.two_args.input1 + 0))
          (e.memory (phys.two_args.input2 + 0)))), false,
      e.memory (phys.two_args.input1 + 0), e.memory (phys.two_args.input2 + 0))).1.memory
    phys.header.output (1 + n)
  rw [← hsum, Nat.add_mul_mod_self_left, Nat.mod_eq_of_lt hlt]

/-- C1. IntAdd on the plaintext backend: for `width ≥ 1` and operand ranges that
do not overlap the output range, after `execute_int_add` the `width` output wires
encode `(a + b) mod 2^width`, where `a` and `b` are the values the operand wires
encode LSB-first; the carry out of the top bit is discarded. -/
theorem execute_int_add_correct (phys : PackedPhysInstruction) (e : Engine Bool Unit)
    (hw : 1 ≤ phys.two_args.width)
    (h1 : NoOverlap phys.two_args.input1 phys.header.output phys.two_args.width)
    (h2 : NoOverlap phys.two_args.input2 phys.header.output phys.two_args.width) :
    decode (execute_int_add Plaintext phys e).memory phys.header.output phys.two_args.width =
      (decode e.memory phys.two_args.input1 phys.two_args.width +
        decode e.memory phys.two_args.input2 phys.two_args.width) % 2 ^ phys.two_args.width :=
  int_add_sum phys e hw h1.noClobber h2.noClobber

/-- With `width = 8`, `a = 255` at wires 0..7, `b = 1` at wires 8..15 and the
output at wires 16..23, IntAdd wraps around to 0. -/
theorem execute_int_add_correct_witness :
    1 ≤ (mkTwoArgs OpCode.IntAdd 16 0 8 8).two_args.width ∧
    NoOverlap 0 16 8 ∧ NoOverlap 8 16 8 ∧
    decode (execute_int_add Plaintext (mkTwoArgs OpCode.IntAdd 16 0 8 8)
      (plainEngine (memoryOf 8 0 255 8 1))).memory 16 8 = 0 :=
  ⟨by decide, by decide, by decide,
    (execute_int_add_correct (mkTwoArgs OpCode.IntAdd 16 0 8 8)
      (plainEngine (memoryOf 8 0 255 8 1)) (by decide) (by decide) (by decide)).trans
      (by decide)⟩

/-! ## IntIncrement -/

/-- Loop invariant of the incrementer: the output bits below `k` together with
the carry into bit `k` make up the low `k` bits of the operand plus one.  The
operand wire `i` is read once more after `output[i]` is written, so the output
base must differ from the operand base. -/
theorem int_increment_loop (output input width : Nat) (m0 : Nat → Bool)
    (h : output < input ∨ input + width ≤ output)
    (count : Nat) (hcount : 1 + count ≤ width)
    (st : Engine Bool Unit × Bool)
    (hframe : ∀ x, (x < output ∨ output + 1 ≤ x) → st.1.memory x = m0 x)
    (hsum : decode st.1.memory output 1 + 2 ^ 1 * st.2.toNat = decode m0 input 1 + 1) :
    let r := forLoop (int_increment_body Plaintext output input) count 1 st
    (∀ x, (x < output ∨ output + (1 + count) ≤ x) → r.1.memory x = m0 x) ∧
      decode r.1.memory output (1 + count) + 2 ^ (1 + count) * r.2.toNat =
        decode m0 input (1 + count) + 1 := by
  have key := forLoop_induction (int_increment_body Plaintext output input)
    (fun k t => (∀ x, (x < output ∨ output + k ≤ x) → t.1.memory x = m0 x) ∧
      decode t.1.memory output k + 2 ^ k * t.2.toNat = decode m0 input k + 1)
    count 1 st ⟨hframe, hsum⟩ ?_
  · exact key
  · rintro j ⟨e1, c⟩ hj1 hj2 ⟨hf, hs⟩
    simp only at hf hs
    have ha : e1.memory (input + j) = m0 (input + j) := by
      apply hf; omega
    have hne : input + j ≠ output + j := by omega
    simp only [int_increment_body, Engine.call, Engine.callTo, Plaintext, ha,
      write_other _ _ _ _ hne]
    refine ⟨?_, ?_⟩
    · intro x hx
      rw [write_other _ _ _ _ (by omega)]
      exact hf x (by omega)
    · rw [decode_write_top]
      simp only [decode]
      have hp : 2 ^ (j + 1) = 2 * 2 ^ j := by ring
      rw [hp]
      generalize 2 ^ j = p at hs ⊢
      generalize decode e1.memory output j = d at hs ⊢
      generalize decode m0 input j = da at hs ⊢
      cases m0 (input + j) <;> cases c <;> simp at hs ⊢ <;> omega

/-- The incrementer on the plaintext backend: the output encodes the operand plus
one modulo `2^width`. -/
theorem int_increment_sum (phys : PackedPhysInstruction) (e : Engine Bool Unit)
    (hw : 1 ≤ phys.one_arg.width)
    (h : phys.header.output < phys.one_arg.input1 ∨
      phys.one_arg.input1 + phys.one_arg.width ≤ phys.header.output) :
    decode (execute_int_increment Plaintext phys e).memory phys.header.output
        phys.one_arg.width =
      (decode e.memory phys.one_arg.input1 phys.one_arg.width + 1) % 2 ^ phys.one_arg.width := by
  have hne : phys.one_arg.input1 + 0 ≠ phys.header.output + 0 := by omega
  have hinit : decode (write e.memory (phys.header.output + 0)
      (!e.memory (phys.one_arg.input1 + 0))) phys.header.output 1 +
        2 ^ 1 * (e.memory (phys.one_arg.input1 + 0)).toNat =
      decode e.memory phys.one_arg.input1 1 + 1 := by
    simp only [decode, Nat.add_zero, write_same]
    cases e.memory phys.one_arg.input1 <;> simp
  unfold execute_int_increment
  simp only [Engine.call, Engine.callTo, Plaintext_op_not, Plaintext_op_copy, Plaintext_op_xor,
    write_other _ _ _ _ hne]
  by_cases h1 : phys.one_arg.width = 1
  · simp only [h1, if_true]
    refine mod_eq_of_add_mul _ _ _ (e.memory (phys.one_arg.input1 + 0)).toNat
      (decode_lt _ _ _) hinit
  · simp only [h1, if_false]
    generalize hcnt : phys.one_arg.width - 1 - 1 = n
    have hn : phys.one_arg.width = 1 + n + 1 := by omega
    have hn1 : phys.one_arg.width - 1 = 1 + n := by omega
    generalize hr : forLoop _ _ _ _ = r
    have hloop : (∀ x, (x < phys.header.output ∨ phys.header.output + (1 + n) ≤ x) →
          r.1.memory x = e.memory x) ∧
        decode r.1.memory phys.header.output (1 + n) + 2 ^ (1 + n) * r.2.toNat =
          decode e.memory phys.one_arg.input1 (1 + n) + 1 := by
      rw [← hr]
      exact int_increment_loop phys.header.output phys.one_arg.input1
        phys.one_arg.width e.memory h n (by omega) _
        (fun x hx => write_other _ _ _ _ (by omega)) hinit
    obtain ⟨e1, c⟩ := r
    obtain ⟨hf, hs⟩ := hloop
    simp only at hf hs
    have ha : e1.memory (phys.one_arg.input1 + (1 + n)) =
        e.memory (phys.one_arg.input1 + (1 + n)) := by
      apply hf; omega
    dsimp only
    rw [hn1, hn, decode_write_top, ha]
    have hlt := decode_lt e1.memory phys.header.output (1 + n)
    have hp : 2 ^ (1 + n + 1) = 2 * 2 ^ (1 + n) := by ring
    refine mod_eq_of_add_mul _ _ _ (c && e.memory (phys.one_arg.input1 + (1 + n))).toNat ?_ ?_
    · rw [hp]
      split <;> omega
    · simp only [decode]
      rw [hp]
      generalize 2 ^ (1 + n) = p at hs hlt ⊢
      generalize decode e1.memory phys.header.output (1 + n) = d at hs hlt ⊢
      generalize decode e.memory phys.one_arg.input1 (1 + n) = da at hs ⊢
      cases e.memory (phys.one_arg.input1 + (1 + n)) <;> cases c <;> simp at hs ⊢ <;> omega

/-- C4. IntIncrement on the plaintext backend: for `width ≥ 1` (the handler returns
after writing `out[0]` when `width = 1`) and an input range that does not overlap
the output range, after `execute_int_increment` the `width` output wires encode
`(a + 1) mod 2^width`, where `a` is the value the input wires encode. -/
theorem execute_int_increment_correct (phys : PackedPhysInstruction) (e : Engine Bool Unit)
    (hw : 1 ≤ phys.one_arg.width)
    (h : NoOverlap phys.one_arg.input1 phys.header.output phys.one_arg.width) :
    decode (execute_int_increment Plaintext phys e).memory phys.header.output
        phys.one_arg.width =
      (decode e.memory phys.one_arg.input1 phys.one_arg.width + 1) % 2 ^ phys.one_arg.width :=
  int_increment_sum phys e hw (by unfold NoOverlap at h; omega)

/-- With `width = 1` and `a = 1` at wire 0, output at wire 1: IntIncrement gives 0. -/
theorem execute_int_increment_correct_witness :
    1 ≤ (mkOneArg OpCode.IntIncrement 1 0 1).one_arg.width ∧ NoOverlap 0 1 1 ∧
    decode (execute_int_increment Plaintext (mkOneArg OpCode.IntIncrement 1 0 1)
      (plainEngine (memoryOf 1 0 1 0 0))).memory 1 1 = 0 :=
  ⟨by decide, by decide,
    (execute_int_increment_correct (mkOneArg OpCode.IntIncrement 1 0 1)
      (plainEngine (memoryOf 1 0 1 0 0)) (by decide) (by decide)).trans (by decide)⟩

/-! ## IntDecrement -/

theorem int_eq_sub_emod (d a s m k : Nat) (hlt : d < m) (h : d + s = a + m * k) :
    (d : Int) = ((a : Int) - (s : Int)) % (m : Int) := by
  have h1 : (a : Int) - (s : Int) = (d : Int) + (m : Int) * (-(k : Int)) := by
    have : ((d + s : Nat) : Int) = ((a + m * k : Nat) : Int) := by rw [h]
    push_cast at this
    linarith
  rw [h1, Int.add_mul_emod_self_left, Int.emod_eq_of_lt (by omega) (by omega)]

/-- Loop invariant of the decrementer: the output bits below `k` plus one equal
the low `k` bits of the operand plus `2^k` when a borrow is pending.  The AND
reads back the output wire just written, and the operand wire `i` is read before
`output[i]` is written, so the operand may start at the output base. -/
theorem int_decrement_loop (output input width : Nat) (m0 : Nat → Bool)
    (h : NoClobber input output width)
    (count : Nat) (hcount : 1 + count ≤ width)
    (st : Engine Bool Unit × Bool)
    (hframe : ∀ x, (x < output ∨ output + 1 ≤ x) → st.1.memory x = m0 x)
    (hsum : decode st.1.memory output 1 + 1 = decode m0 input 1 + 2 ^ 1 * st.2.toNat) :
    let r := forLoop (int_decrement_body Plaintext output input) count 1 st
    (∀ x, (x < output ∨ output + (1 + count) ≤ x) → r.1.memory x = m0 x) ∧
      decode r.1.memory output (1 + count) + 1 =
        decode m0 input (1 + count) + 2 ^ (1 + count) * r.2.toNat := by
  have key := forLoop_induction (int_decrement_body Plaintext output input)
    (fun k t => (∀ x, (x < output ∨ output + k ≤ x) → t.1.memory x = m0 x) ∧
      decode t.1.memory output k + 1 = decode m0 input k + 2 ^ k * t.2.toNat)
    count 1 st ⟨hframe, hsum⟩ ?_
  · exact key
  · rintro j ⟨e1, c⟩ hj1 hj2 ⟨hf, hs⟩
    simp only at hf hs
    have ha : e1.memory (input + j) = m0 (input + j) := by
      apply hf; unfold NoClobber at h; omega
    simp only [int_decrement_body, Engine.call, Engine.callTo, Plaintext_op_xor,
      Plaintext_op_and, ha, write_same]
    refine ⟨?_, ?_⟩
    · intro x hx
      rw [write_other _ _ _ _ (by omega)]
      exact hf x (by omega)
    · rw [decode_write_top]
      simp only [decode]
      have hp : 2 ^ (j + 1) = 2 * 2 ^ j := by ring
      rw [hp]
      generalize 2 ^ j = p at hs ⊢
      generalize decode e1.memory output j = d at hs ⊢
      generalize decode m0 input j = da at hs ⊢
      cases m0 (input + j) <;> cases c <;> simp at hs ⊢ <;> omega

/-- The decrementer on the plaintext backend: the output encodes the operand
minus one modulo `2^width`, also when the output aliases the operand exactly. -/
theorem int_decrement_sum (phys : PackedPhysInstruction) (e : Engine Bool Unit)
    (hw : 1 ≤ phys.one_arg.width)
    (h : NoClobber phys.one_arg.input1 phys.header.output phys.one_arg.width) :
    (decode (execute_int_decrement Plaintext phys e).memory phys.header.output
        phys.one_arg.width : Int) =
      ((decode e.memory phys.one_arg.input1 phys.one_arg.width : Int) - 1) %
        (2 : Int) ^ phys.one_arg.width := by
  have hinit : decode (write e.memory (phys.header.output + 0)
      (!e.memory (phys.one_arg.input1 + 0))) phys.header.output 1 + 1 =
      decode e.memory phys.one_arg.input1 1 +
        2 ^ 1 * (!e.memory (phys.one_arg.input1 + 0)).toNat := by
    simp only [decode, Nat.add_zero, write_same]
    cases e.memory phys.one_arg.input1 <;> simp
  have hcast : ((2 : Int) ^ phys.one_arg.width) = ((2 ^ phys.one_arg.width : Nat) : Int) := by
    push_cast; rfl
  rw [hcast]
  unfold execute_int_decrement
  simp only [Engine.call, Engine.callTo, Plaintext_op_not, Plaintext_op_copy, Plaintext_op_xor]
  by_cases h1 : phys.one_arg.width = 1
  · simp only [h1, if_true]
    exact int_eq_sub_emod _ _ 1 _ (!e.memory (phys.one_arg.input1 + 0)).toNat
      (decode_lt _ _ _) hinit
  · simp only [h1, if_false]
    generalize hcnt : phys.one_arg.width - 1 - 1 = n
    have hn : phys.one_arg.width = 1 + n + 1 := by omega
    have hn1 : phys.one_arg.width - 1 = 1 + n := by omega
    generalize hr : forLoop _ _ _ _ = r
    have hloop : (∀ x, (x < phys.header.output ∨ phys.header.output + (1 + n) ≤ x) →
          r.1.memory x = e.memory x) ∧
        decode r.1.memory phys.header.output (1 + n) + 1 =
          decode e.memory phys.one_arg.input1 (1 + n) + 2 ^ (1 + n) * r.2.toNat := by
      rw [← hr]
      exact int_decrement_loop phys.header.output phys.one_arg.input1
        phys.one_arg.width e.memory h n (by omega) _
        (fun x hx => write_other _ _ _ _ (by omega)) hinit
    obtain ⟨e1, c⟩ := r
    obtain ⟨hf, hs⟩ := hloop
    simp only at hf hs
    have ha : e1.memory (phys.one_arg.input1 + (1 + n)) =
        e.memory (phys.one_arg.input1 + (1 + n)) := by
      apply hf; unfold NoClobber at h; omega
    dsimp only
    rw [hn1, hn, decode_write_top, ha]
    have hlt := decode_lt e1.memory phys.header.output (1 + n)
    have hp : 2 ^ (1 + n + 1) = 2 * 2 ^ (1 + n) := by ring
    refine int_eq_sub_emod _ _ 1 _
      (c && !e.memory (phys.one_arg.input1 + (1 + n))).toNat ?_ ?_
    · rw [hp]
      split <;> omega
    · simp only [decode]
      rw [hp]
      generalize 2 ^ (1 + n) = p at hs hlt ⊢
      generalize decode e1.memory phys.header.output (1 + n) = d at hs hlt ⊢
      generalize decode e.memory phys.one_arg.input1 (1 + n) = da at hs ⊢
      cases e.memory (phys.one_arg.input1 + (1 + n)) <;> cases c <;> simp at hs ⊢ <;> omega

/-- C5. IntDecrement on the plaintext backend: for `width ≥ 1` and an input range
that does not overlap the output range, after `execute_int_decrement` the `width`
output wires encode `(a - 1) mod 2^width`, where `a` is the value the input wires
encode. -/
theorem execute_int_decrement_correct (phys : PackedPhysInstruction) (e : Engine Bool Unit)
    (hw : 1 ≤ phys.one_arg.width)
    (h : NoOverlap phys.one_arg.input1 phys.header.output phys.one_arg.width) :
    (decode (execute_int_decrement Plaintext phys e).memory phys.header.output
        phys.one_arg.width : Int) =
      ((decode e.memory phys.one_arg.input1 phys.one_arg.width : Int) - 1) %
        (2 : Int) ^ phys.one_arg.width :=
  int_decrement_sum phys e hw h.noClobber

/-- With `width = 1` and `a = 1` at wire 0, output at wire 1: IntDecrement gives 0. -/
theorem execute_int_decrement_correct_witness :
    1 ≤ (mkOneArg OpCode.IntDecrement 1 0 1).one_arg.width ∧ NoOverlap 0 1 1 ∧
    (decode (execute_int_decrement Plaintext (mkOneArg OpCode.IntDecrement 1 0 1)
      (plainEngine (memoryOf 1 0 1 0 0))).memory 1 1 : Int) = 0 :=
  ⟨by decide, by decide,
    (execute_int_decrement_correct (mkOneArg OpCode.IntDecrement 1 0 1)
      (plainEngine (memoryOf 1 0 1 0 0)) (by decide) (by decide)).trans (by decide)⟩

/-! ## IntLess and Equal -/

/-- Loop invariant of the comparator: wire memory is untouched and `result` says
whether the low `k` bits of the first operand are below those of the second. -/
theorem int_less_loop (input1 input2 : Nat) (m0 : Nat → Bool) (count : Nat)
    (st : Engine Bool Unit × Bool) (hmem : st.1.memory = m0)
    (hres : st.2 = decide (decode m0 input1 1 < decode m0 input2 1)) :
    let r := forLoop (int_less_body Plaintext input1 input2) count 1 st
    r.1.memory = m0 ∧
      r.2 = decide (decode m0 input1 (1 + count) < decode m0 input2 (1 + count)) := by
  have key := forLoop_induction (int_less_body Plaintext input1 input2)
    (fun k t => t.1.memory = m0 ∧ t.2 = decide (decode m0 input1 k < decode m0 input2 k))
    count 1 st ⟨hmem, hres⟩ ?_
  · exact key
  · rintro j ⟨e1, c⟩ _ _ ⟨hm, hc⟩
    simp only at hm hc
    simp only [int_less_body, Engine.call, Plaintext_op_xor, Plaintext_op_and, hm, hc, decode,
      true_and]
    have hla := decode_lt m0 input1 j
    have hlb := decode_lt m0 input2 j
    by_cases hlt : decode m0 input1 j < decode m0 input2 j <;>
      rcases Bool.eq_false_or_eq_true (m0 (input1 + j)) with ha | ha <;>
      rcases Bool.eq_false_or_eq_true (m0 (input2 + j)) with hb | hb <;>
      simp [hlt, ha, hb] <;> omega

/-- Loop invariant of the equality test: wire memory is untouched and `result`
says whether the low `k` bits of the operands coincide. -/
theorem equal_loop (input1 input2 : Nat) (m0 : Nat → Bool) (count : Nat)
    (st : Engine Bool Unit × Bool) (hmem : st.1.memory = m0)
    (hres : st.2 = decide (decode m0 input1 1 = decode m0 input2 1)) :
    let r := forLoop (equal_body Plaintext input1 input2) count 1 st
    r.1.memory = m0 ∧
      r.2 = decide (decode m0 input1 (1 + count) = decode m0 input2 (1 + count)) := by
  have key := forLoop_induction (equal_body Plaintext input1 input2)
    (fun k t => t.1.memory = m0 ∧ t.2 = decide (decode m0 input1 k = decode m0 input2 k))
    count 1 st ⟨hmem, hres⟩ ?_
  · exact key
  · rintro j ⟨e1, c⟩ _ _ ⟨hm, hc⟩
    simp only at hm hc
    simp only [equal_body, Engine.call, Plaintext_op_xnor, Plaintext_op_and, hm, hc, decode,
      true_and]
    have hla := decode_lt m0 input1 j
    have hlb := decode_lt m0 input2 j
    by_cases heq : decode m0 input1 j = decode m0 input2 j <;>
      rcases Bool.eq_false_or_eq_true (m0 (input1 + j)) with ha | ha <;>
      rcases Bool.eq_false_or_eq_true (m0 (input2 + j)) with hb | hb <;>
      simp [heq, ha, hb] <;> omega

/-- C6. IntLess on the plaintext backend: for `width ≥ 1`, `execute_int_less`
writes to `out[0]` the bit 1 if `a < b` as unsigned integers and 0 otherwise,
where `a` and `b` are the values the operand wires encode. -/
theorem execute_int_less_correct (phys : PackedPhysInstruction) (e : Engine Bool Unit)
    (hw : 1 ≤ phys.two_args.width) :
    (execute_int_less Plaintext phys e).memory phys.header.output =
      decide (decode e.memory phys.two_args.input1 phys.two_args.width <
        decode e.memory phys.two_args.input2 phys.two_args.width) := by
  unfold execute_int_less
  simp only [Engine.call, Engine.callTo, Plaintext_op_xor, Plaintext_op_and, Plaintext_op_copy]
  generalize hcnt : phys.two_args.width - 1 = n
  have hn : phys.two_args.width = 1 + n := by omega
  generalize hr : forLoop _ _ _ _ = r
  have hloop : r.1.memory = e.memory ∧
      r.2 = decide (decode e.memory phys.two_args.input1 (1 + n) <
        decode e.memory phys.two_args.input2 (1 + n)) := by
    rw [← hr]
    refine int_less_loop phys.two_args.input1 phys.two_args.input2 e.memory n _ rfl ?_
    simp only [decode, Nat.add_zero]
    cases e.memory phys.two_args.input1 <;> cases e.memory phys.two_args.input2 <;> simp
  obtain ⟨e1, c⟩ := r
  dsimp only at hloop ⊢
  rw [write_same, hn, hloop.2]

/-- With `width = 8`, `a = 100` at wires 0..7 and `b = 200` at wires 8..15:
`a < b`, and IntLess writes 1. -/
theorem execute_int_less_correct_witness :
    1 ≤ (mkTwoArgs OpCode.IntLess 16 0 8 8).two_args.width ∧
    (execute_int_less Plaintext (mkTwoArgs OpCode.IntLess 16 0 8 8)
      (plainEngine (memoryOf 8 0 100 8 200))).memory 16 = true :=
  ⟨by decide,
    (execute_int_less_correct (mkTwoArgs OpCode.IntLess 16 0 8 8)
      (plainEngine (memoryOf 8 0 100 8 200)) (by decide)).trans (by decide)⟩

/-- C7. Equal on the plaintext backend: for `width ≥ 1`, `execute_equal` writes to
`out[0]` the bit 1 if `a = b` and 0 otherwise, where `a` and `b` are the values
the operand wires encode. -/
theorem execute_equal_correct (phys : PackedPhysInstruction) (e : Engine Bool Unit)
    (hw : 1 ≤ phys.two_args.width) :
    (execute_equal Plaintext phys e).memory phys.header.output =
      decide (decode e.memory phys.two_args.input1 phys.two_args.width =
        decode e.memory phys.two_args.input2 phys.two_args.width) := by
  unfold execute_equal
  simp only [Engine.call, Engine.callTo, Plaintext_op_xnor, Plaintext_op_copy]
  generalize hcnt : phys.two_args.width - 1 = n
  have hn : phys.two_args.width = 1 + n := by omega
  generalize hr : forLoop _ _ _ _ = r
  have hloop : r.1.memory = e.memory ∧
      r.2 = decide (decode e.memory phys.two_args.input1 (1 + n) =
        decode e.memory phys.two_args.input2 (1 + n)) := by
    rw [← hr]
    refine equal_loop phys.two_args.input1 phys.two_args.input2 e.memory n _ rfl ?_
    simp only [decode, Nat.add_zero]
    cases e.memory phys.two_args.input1 <;> cases e.memory phys.two_args.input2 <;> simp
  obtain ⟨e1, c⟩ := r
  dsimp only at hloop ⊢
  rw [write_same, hn, hloop.2]

/-- With `width = 8` and `a = b = 173` at wires 0..7 and 8..15, Equal writes 1. -/
theorem execute_equal_correct_witness :
    1 ≤ (mkTwoArgs OpCode.Equal 16 0 8 8).two_args.width ∧
    (execute_equal Plaintext (mkTwoArgs OpCode.Equal 16 0 8 8)
      (plainEngine (memoryOf 8 0 173 8 173))).memory 16 = true :=
  ⟨by decide,
    (execute_equal_correct (mkTwoArgs OpCode.Equal 16 0 8 8)
      (plainEngine (memoryOf 8 0 173 8 173)) (by decide)).trans (by decide)⟩

/-! ## Width-parallel handlers: ValueSelect and the bitwise opcodes -/

theorem decode_eq_of_bits (m m' : Nat → Bool) (base base' : Nat) :
    ∀ width, (∀ j, j < width → m' (base' + j) = m (base + j)) →
      decode m' base' width = decode m base width := by
  intro width
  induction width with
  | zero => intro _; rfl
  | succ n ih =>
    intro h
    simp only [decode]
    rw [ih (fun j hj => h j (by omega)), h n (by omega)]

/-- A loop whose iteration `i` assigns `f input1[i] input2[i]` to `output[i]`:
afterwards the wires outside the output range are untouched and every output
wire holds `f` of the operand bits the memory held before the loop, provided no
operand wire is overwritten before it is read. -/
theorem bitwise_loop (body : Nat → Engine Bool Unit → Engine Bool Unit) (f : Bool → Bool → Bool)
    (output input1 input2 : Nat)
    (hbody : ∀ i e, (body i e).memory =
      write e.memory (output + i) (f (e.memory (input1 + i)) (e.memory (input2 + i))))
    (width : Nat) (h1 : NoClobber input1 output width) (h2 : NoClobber input2 output width)
    (e : Engine Bool Unit) :
    (∀ x, (x < output ∨ output + width ≤ x) →
        (forLoop body width 0 e).memory x = e.memory x) ∧
      ∀ i, i < width → (forLoop body width 0 e).memory (output + i) =
        f (e.memory (input1 + i)) (e.memory (input2 + i)) := by
  have key := forLoop_induction body
    (fun k t => (∀ x, (x < output ∨ output + k ≤ x) → t.memory x = e.memory x) ∧
      ∀ i, i < k → t.memory (output + i) = f (e.memory (input1 + i)) (e.memory (input2 + i)))
    width 0 e ⟨fun _ _ => rfl, fun i hi => absurd hi (Nat.not_lt_zero i)⟩ ?_
  · simpa using key
  · rintro j t _ hj ⟨hf, hb⟩
    have ha1 : t.memory (input1 + j) = e.memory (input1 + j) := by
      apply hf; unfold NoClobber at h1; omega
    have ha2 : t.memory (input2 + j) = e.memory (input2 + j) := by
      apply hf; unfold NoClobber at h2; omega
    refine ⟨?_, ?_⟩
    · intro x hx
      rw [hbody, write_other _ _ _ _ (by omega)]
      exact hf x (by omega)
    · intro i hi
      rw [hbody]
      rcases Nat.lt_succ_iff_lt_or_eq.mp hi with hlt | heq
      · rw [write_other _ _ _ _ (by omega)]
        exact hb i hlt
      · subst heq
        rw [write_same, ha1, ha2]

/-- C8. ValueSelect on the plaintext backend: when the ranges of the operands `a`
and `b` do not overlap the output range, `execute_value_select` writes, for every
`i < width`, `out[i] = a[i]` when bit 0 of the selector operand is 0 and
`out[i] = b[i]` when it is 1; so the output encodes `a` or `b` accordingly.  The
selector is read before the first write and may lie anywhere. -/
theorem execute_value_select_correct (phys : PackedPhysInstruction) (e : Engine Bool Unit)
    (h1 : NoOverlap phys.three_args.input1 phys.header.output phys.two_args.width)
    (h2 : NoOverlap phys.three_args.input2 phys.header.output phys.two_args.width) :
    (∀ i, i < phys.two_args.width →
      (execute_value_select Plaintext phys e).memory (phys.header.output + i) =
        if e.memory phys.three_args.input3 then e.memory (phys.three_args.input2 + i)
        else e.memory (phys.three_args.input1 + i)) ∧
    decode (execute_value_select Plaintext phys e).memory phys.header.output
        phys.two_args.width =
      if e.memory phys.three_args.input3
      then decode e.memory phys.three_args.input2 phys.two_args.width
      else decode e.memory phys.three_args.input1 phys.two_args.width := by
  have hloop := (bitwise_loop
    (value_select_body Plaintext phys.header.output phys.three_args.input1
      phys.three_args.input2 (e.memory phys.three_args.input3))
    (fun a b => xor (xor a b && e.memory phys.three_args.input3) a)
    phys.header.output phys.three_args.input1 phys.three_args.input2
    (fun i t => by
      simp only [value_select_body, Engine.call, Engine.callTo, Plaintext_op_xor,
        Plaintext_op_and])
    phys.two_args.width h1.noClobber h2.noClobber e).2
  have hexec : execute_value_select Plaintext phys e =
      forLoop (value_select_body Plaintext phys.header.output phys.three_args.input1
        phys.three_args.input2 (e.memory phys.three_args.input3)) phys.two_args.width 0 e := by
    cases e; rfl
  rw [hexec]
  have hbits : ∀ i, i < phys.two_args.width →
      (forLoop (value_select_body Plaintext phys.header.output phys.three_args.input1
        phys.three_args.input2 (e.memory phys.three_args.input3))
          phys.two_args.width 0 e).memory (phys.header.output + i) =
        if e.memory phys.three_args.input3 then e.memory (phys.three_args.input2 + i)
        else e.memory (phys.three_args.input1 + i) := by
    intro i hi
    rw [hloop i hi]
    cases e.memory phys.three_args.input3 <;> cases e.memory (phys.three_args.input1 + i) <;>
      cases e.memory (phys.three_args.input2 + i) <;> rfl
  refine ⟨hbits, ?_⟩
  rcases Bool.eq_false_or_eq_true (e.memory phys.three_args.input3) with hs | hs
  · simp only [hs, if_true] at hbits ⊢
    exact decode_eq_of_bits _ _ _ _ _ hbits
  · simp only [hs, Bool.false_eq_true, if_false] at hbits ⊢
    exact decode_eq_of_bits _ _ _ _ _ hbits

/-- With `width = 16`, `a = 0x00FF` at wires 0..15, `b = 0x0F0F` at wires 16..31,
the selector wire 32 set to 1 and the output at wires 48..63: ValueSelect gives
`0x0F0F`, and `out[8] = b[8] = 1`. -/
theorem execute_value_select_correct_witness :
    NoOverlap 0 48 16 ∧ NoOverlap 16 48 16 ∧ (8 < 16 ∧
    (execute_value_select Plaintext (mkSelect 48 0 16 32 16)
      (plainEngine (write (memoryOf 16 0 0x00FF 16 0x0F0F) 32 true))).memory (48 + 8) = true) ∧
    decode (execute_value_select Plaintext (mkSelect 48 0 16 32 16)
      (plainEngine (write (memoryOf 16 0 0x00FF 16 0x0F0F) 32 true))).memory 48 16 = 0x0F0F :=
  ⟨by decide, by decide,
    ⟨by decide, ((execute_value_select_correct (mkSelect 48 0 16 32 16)
      (plainEngine (write (memoryOf 16 0 0x00FF 16 0x0F0F) 32 true))
      (by decide) (by decide)).1 8 (by decide)).trans (by decide)⟩,
    (execute_value_select_correct (mkSelect 48 0 16 32 16)
      (plainEngine (write (memoryOf 16 0 0x00FF 16 0x0F0F) 32 true))
      (by decide) (by decide)).2.trans (by decide)⟩

theorem testBit_decode (m : Nat → Bool) (base : Nat) :
    ∀ width i, (decode m base width).testBit i = (decide (i < width) && m (base + i)) := by
  intro width
  induction width with
  | zero => intro i; simp [decode]
  | succ n ih =>
    intro i
    simp only [decode]
    have hlt := decode_lt m base n
    rcases Bool.eq_false_or_eq_true (m (base + n)) with hb | hb
    · simp only [hb, if_true]
      rw [Nat.add_comm]
      rcases Nat.lt_trichotomy i n with h | h | h
      · rw [Nat.testBit_two_pow_add_gt h, ih]
        simp [h, Nat.lt_succ_of_lt h]
      · subst h
        rw [Nat.testBit_two_pow_add_eq, Nat.testBit_lt_two_pow hlt]
        simp [hb]
      · have hp : 2 ^ (n + 1) ≤ 2 ^ i := Nat.pow_le_pow_right (by decide) h
        have hp2 : 2 ^ (n + 1) = 2 * 2 ^ n := by ring
        rw [Nat.testBit_lt_two_pow (by omega)]
        have : ¬ i < n + 1 := by omega
        simp [this]
    · simp only [hb, Bool.false_eq_true, if_false, Nat.add_zero]
      rw [ih]
      by_cases h : i < n
      · simp [h, Nat.lt_succ_of_lt h]
      · by_cases h2 : i = n
        · subst h2; simp [hb]
        · have : ¬ i < n + 1 := by omega
          simp [h, this]

/-- The value encoded by output wires that hold `f a[i] b[i]`, for a bit
operation `f` with `f 0 0 = 0` that `op` computes on every bit. -/
theorem decode_bitwise (m m' : Nat → Bool) (f : Bool → Bool → Bool) (op : Nat → Nat → Nat)
    (hf : f false false = false)
    (hop : ∀ x y i, (op x y).testBit i = f (x.testBit i) (y.testBit i))
    (output input1 input2 width : Nat)
    (h : ∀ i, i < width → m' (output + i) = f (m (input1 + i)) (m (input2 + i))) :
    decode m' output width = op (decode m input1 width) (decode m input2 width) := by
  apply Nat.eq_of_testBit_eq
  intro i
  rw [hop, testBit_decode, testBit_decode, testBit_decode]
  by_cases hi : i < width
  · simp [hi, h i hi]
  · simp [hi, hf]

/-- C9, as amended. Bitwise opcodes on the plaintext backend, when no operand wire
is overwritten before it is read (the output base is not strictly inside an
operand range; disjoint ranges and an output that aliases an operand exactly both
qualify): for every `i < width`, BitNOT writes `NOT a[i]`, BitAND writes
`a[i] AND b[i]`, BitOR writes `a[i] OR b[i]` and BitXOR writes `a[i] XOR b[i]` to
`out[i]`, the BitOR bit is the XOR of the BitXOR bit and the BitAND bit, and the
outputs of BitAND, BitOR, BitXOR encode the bitwise AND, OR, XOR of the operand
values. -/
theorem bitwise_opcodes_correct (phys : PackedPhysInstruction) (e : Engine Bool Unit)
    (h0 : NoClobber phys.one_arg.input1 phys.header.output phys.one_arg.width)
    (h1 : NoClobber phys.two_args.input1 phys.header.output phys.two_args.width)
    (h2 : NoClobber phys.two_args.input2 phys.header.output phys.two_args.width) :
    (∀ i, i < phys.one_arg.width →
      (execute_bit_not Plaintext phys e).memory (phys.header.output + i) =
        !e.memory (phys.one_arg.input1 + i)) ∧
    (∀ i, i < phys.two_args.width →
      (execute_bit_and Plaintext phys e).memory (phys.header.output + i) =
          (e.memory (phys.two_args.input1 + i) && e.memory (phys.two_args.input2 + i)) ∧
        (execute_bit_or Plaintext phys e).memory (phys.header.output + i) =
          (e.memory (phys.two_args.input1 + i) || e.memory (phys.two_args.input2 + i)) ∧
        (execute_bit_xor Plaintext phys e).memory (phys.header.output + i) =
          xor (e.memory (phys.two_args.input1 + i)) (e.memory (phys.two_args.input2 + i)) ∧
        (execute_bit_or Plaintext phys e).memory (phys.header.output + i) =
          xor ((execute_bit_xor Plaintext phys e).memory (phys.header.output + i))
            ((execute_bit_and Plaintext phys e).memory (phys.header.output + i))) ∧
    decode (execute_bit_and Plaintext phys e).memory phys.header.output phys.two_args.width =
      decode e.memory phys.two_args.input1 phys.two_args.width &&&
        decode e.memory phys.two_args.input2 phys.two_args.width ∧
    decode (execute_bit_or Plaintext phys e).memory phys.header.output phys.two_args.width =
      decode e.memory phys.two_args.input1 phys.two_args.width |||
        decode e.memory phys.two_args.input2 phys.two_args.width ∧
    decode (execute_bit_xor Plaintext phys e).memory phys.header.output phys.two_args.width =
      decode e.memory phys.two_args.input1 phys.two_args.width ^^^
        decode e.memory phys.two_args.input2 phys.two_args.width := by
  have hnot := (bitwise_loop
    (fun i t => t.callTo (phys.header.output + i)
      (Plaintext.op_not (t.memory (phys.one_arg.input1 + i))))
    (fun a _ => !a) phys.header.output phys.one_arg.input1 phys.one_arg.input1
    (fun i t => rfl) phys.one_arg.width h0 h0 e).2
  have hand := (bitwise_loop
    (fun i t => t.callTo (phys.header.output + i)
      (Plaintext.op_and (t.memory (phys.two_args.input1 + i))
        (t.memory (phys.two_args.input2 + i))))
    (fun a b => a && b) phys.header.output phys.two_args.input1 phys.two_args.input2
    (fun i t => rfl) phys.two_args.width h1 h2 e).2
  have hor := (bitwise_loop
    (bit_or_body Plaintext phys.header.output phys.two_args.input1 phys.two_args.input2)
    (fun a b => xor (xor a b) (a && b)) phys.header.output phys.two_args.input1
    phys.two_args.input2
    (fun i t => rfl) phys.two_args.width h1 h2 e).2
  have hxor := (bitwise_loop
    (fun i t => t.callTo (phys.header.output + i)
      (Plaintext.op_xor (t.memory (phys.two_args.input1 + i))
        (t.memory (phys.two_args.input2 + i))))
    (fun a b => xor a b) phys.header.output phys.two_args.input1 phys.two_args.input2
    (fun i t => rfl) phys.two_args.width h1 h2 e).2
  have hor2 : ∀ i, i < phys.two_args.width →
      (execute_bit_or Plaintext phys e).memory (phys.header.output + i) =
        (e.memory (phys.two_args.input1 + i) || e.memory (phys.two_args.input2 + i)) := by
    intro i hi
    rw [show (execute_bit_or Plaintext phys e).memory (phys.header.output + i) = _ from hor i hi]
    cases e.memory (phys.two_args.input1 + i) <;> cases e.memory (phys.two_args.input2 + i) <;>
      rfl
  refine ⟨hnot, ?_, ?_, ?_, ?_⟩
  · intro i hi
    refine ⟨hand i hi, hor2 i hi, hxor i hi, ?_⟩
    rw [show (execute_bit_or Plaintext phys e).memory (phys.header.output + i) = _ from hor i hi,
      show (execute_bit_xor Plaintext phys e).memory (phys.header.output + i) = _ from hxor i hi,
      show (execute_bit_and Plaintext phys e).memory (phys.header.output + i) = _ from hand i hi]
  · exact decode_bitwise _ _ (fun a b => a && b) _ rfl Nat.testBit_land _ _ _ _ hand
  · exact decode_bitwise _ _ (fun a b => a || b) _ rfl Nat.testBit_lor _ _ _ _ hor2
  · exact decode_bitwise _ _ (fun a b => xor a b) _ rfl Nat.testBit_xor _ _ _ _ hxor

/-- With `width = 16`, `a = 0x00FF` at wires 0..15, `b = 0x0F0F` at wires 16..31
and the output at wires 32..47: BitOR gives `0x0FFF`, BitXOR gives `0x0FF0` and
BitAND gives `0x000F`; bit 4 of BitNOT of `a` is 0. -/
theorem bitwise_opcodes_correct_witness :
    NoClobber 0 32 16 ∧ NoClobber 16 32 16 ∧
    (4 < 16 ∧ (execute_bit_not Plaintext (mkTwoArgs OpCode.BitNOT 32 0 16 16)
      (plainEngine (memoryOf 16 0 0x00FF 16 0x0F0F))).memory (32 + 4) = false) ∧
    decode (execute_bit_and Plaintext (mkTwoArgs OpCode.BitAND 32 0 16 16)
      (plainEngine (memoryOf 16 0 0x00FF 16 0x0F0F))).memory 32 16 = 0x000F ∧
    decode (execute_bit_or Plaintext (mkTwoArgs OpCode.BitOR 32 0 16 16)
      (plainEngine (memoryOf 16 0 0x00FF 16 0x0F0F))).memory 32 16 = 0x0FFF ∧
    decode (execute_bit_xor Plaintext (mkTwoArgs OpCode.BitXOR 32 0 16 16)
      (plainEngine (memoryOf 16 0 0x00FF 16 0x0F0F))).memory 32 16 = 0x0FF0 :=
  ⟨by decide, by decide,
    ⟨by decide, ((bitwise_opcodes_correct (mkTwoArgs OpCode.BitNOT 32 0 16 16)
      (plainEngine (memoryOf 16 0 0x00FF 16 0x0F0F))
      (by decide) (by decide) (by decide)).1 4 (by decide)).trans (by decide)⟩,
    (bitwise_opcodes_correct (mkTwoArgs OpCode.BitAND 32 0 16 16)
      (plainEngine (memoryOf 16 0 0x00FF 16 0x0F0F))
      (by decide) (by decide) (by decide)).2.2.1.trans (by decide),
    (bitwise_opcodes_correct (mkTwoArgs OpCode.BitOR 32 0 16 16)
      (plainEngine (memoryOf 16 0 0x00FF 16 0x0F0F))
      (by decide) (by decide) (by decide)).2.2.2.1.trans (by decide),
    (bitwise_opcodes_correct (mkTwoArgs OpCode.BitXOR 32 0 16 16)
      (plainEngine (memoryOf 16 0 0x00FF 16 0x0F0F))
      (by decide) (by decide) (by decide)).2.2.2.2.trans (by decide)⟩

/-- C9, counterexample. BitAND with `width = 2`, `a = 3` at wires 0..1, `b = 2` at
wires 10..11 and the output at wires 1..2: iteration 0 overwrites `a[1]` with
`a[0] AND b[0] = 0`, so `out[1]` receives `0 AND b[1] = 0` and not
`a[1] AND b[1] = 1`. -/
theorem bitwise_overlap_counterexample :
    ¬ (∀ i, i < (mkTwoArgs OpCode.BitAND 1 0 10 2).two_args.width →
      (execute_bit_and Plaintext (mkTwoArgs OpCode.BitAND 1 0 10 2)
        (plainEngine (memoryOf 2 0 3 10 2))).memory
          ((mkTwoArgs OpCode.BitAND 1 0 10 2).header.output + i) =
        ((plainEngine (memoryOf 2 0 3 10 2)).memory
            ((mkTwoArgs OpCode.BitAND 1 0 10 2).two_args.input1 + i) &&
          (plainEngine (memoryOf 2 0 3 10 2)).memory
            ((mkTwoArgs OpCode.BitAND 1 0 10 2).two_args.input2 + i))) := by
  intro h
  exact absurd (h 1 (by decide)) (by decide)

/-! ## IntSub, IsZero and NonZero at concrete inputs -/

/-- C2, the code at a failing input. With `width = 8`, `a = 5` at wires 0..7,
`b = 3` at wires 8..15 and the output at wires 16..23, `execute_int_sub` leaves 0
in the output wires, whereas `(5 - 3) mod 2^8 = 2`: the borrow out of bit 0 is
taken as `a[0] AND b[0]`. -/
theorem execute_int_sub_at_5_3 :
    decode (plainEngine (memoryOf 8 0 5 8 3)).memory 0 8 = 5 ∧
    decode (plainEngine (memoryOf 8 0 5 8 3)).memory 8 8 = 3 ∧
    NoOverlap 0 16 8 ∧ NoOverlap 8 16 8 ∧
    decode (execute_int_sub Plaintext (mkTwoArgs OpCode.IntSub 16 0 8 8)
      (plainEngine (memoryOf 8 0 5 8 3))).memory 16 8 = 0 ∧
    ((5 : Int) - 3) % (2 : Int) ^ 8 = 2 := by
  refine ⟨by decide, by decide, by decide, by decide, by decide, by decide⟩

/-- C3, the code at a failing input. With `width = 32` and `a = 0` at wires
0..31, `execute_is_zero` writes 0 and `execute_non_zero` writes 1 to the output
wire 40: the accumulator starts as `a[0]` and not as 1. -/
theorem execute_is_zero_at_0 :
    decode (plainEngine (memoryOf 32 0 0 0 0)).memory 0 32 = 0 ∧
    (execute_is_zero Plaintext (mkOneArg OpCode.IsZero 40 0 32)
      (plainEngine (memoryOf 32 0 0 0 0))).memory 40 = false ∧
    (execute_non_zero Plaintext (mkOneArg OpCode.NonZero 40 0 32)
      (plainEngine (memoryOf 32 0 0 0 0))).memory 40 = true := by
  refine ⟨by decide, by decide, by decide⟩

/-! ## Scenario E1 and the dispatcher -/

/-- C11. Scenario E1 on the plaintext backend with `width = 8`, `a = 200` at wires
0..7, `b = 100` at wires 8..15 and the output at wires 16..23: IntAdd yields 44,
IntSub yields 100, IntLess yields 0 and Equal yields 0. -/
theorem scenario_E1 :
    decode (plainEngine (memoryOf 8 0 200 8 100)).memory 0 8 = 200 ∧
    decode (plainEngine (memoryOf 8 0 200 8 100)).memory 8 8 = 100 ∧
    NoOverlap 0 16 8 ∧ NoOverlap 8 16 8 ∧
    decode (execute_int_add Plaintext (mkTwoArgs OpCode.IntAdd 16 0 8 8)
      (plainEngine (memoryOf 8 0 200 8 100))).memory 16 8 = 44 ∧
    decode (execute_int_sub Plaintext (mkTwoArgs OpCode.IntSub 16 0 8 8)
      (plainEngine (memoryOf 8 0 200 8 100))).memory 16 8 = 100 ∧
    (execute_int_less Plaintext (mkTwoArgs OpCode.IntLess 16 0 8 8)
      (plainEngine (memoryOf 8 0 200 8 100))).memory 16 = false ∧
    (execute_equal Plaintext (mkTwoArgs OpCode.Equal 16 0 8 8)
      (plainEngine (memoryOf 8 0 200 8 100))).memory 16 = false := by
  refine ⟨by decide, by decide, by decide, by decide, by decide, by decide, by decide,
    by decide⟩

/-- C12. `Engine::execute` runs the handler matching the opcode for each of the 14
opcodes, and for every other opcode value it aborts with the engine as it was:
wire memory and backend state are unchanged, whatever the backend, so no gate
was invoked. -/
theorem execute_dispatch {Wire State : Type} (P : Protocol Wire State)
    (phys : PackedPhysInstruction) (e : Engine Wire State) :
    (phys.header.operation = OpCode.PublicConstant →
      execute P phys e = ExecResult.completed (execute_public_constant P phys e)) ∧
    (phys.header.operation = OpCode.IntAdd →
      execute P phys e = ExecResult.completed (execute_int_add P phys e)) ∧
    (phys.header.operation = OpCode.IntIncrement →
      execute P phys e = ExecResult.completed (execute_int_increment P phys e)) ∧
    (phys.header.operation = OpCode.IntSub →
      execute P phys e = ExecResult.completed (execute_int_sub P phys e)) ∧
    (phys.header.operation = OpCode.IntDecrement →
      execute P phys e = ExecResult.completed (execute_int_decrement P phys e)) ∧
    (phys.header.operation = OpCode.IntLess →
      execute P phys e = ExecResult.completed (execute_int_less P phys e)) ∧
    (phys.header.operation = OpCode.Equal →
      execute P phys e = ExecResult.completed (execute_equal P phys e)) ∧
    (phys.header.operation = OpCode.IsZero →
      execute P phys e = ExecResult.completed (execute_is_zero P phys e)) ∧
    (phys.header.operation = OpCode.NonZero →
      execute P phys e = ExecResult.completed (execute_non_zero P phys e)) ∧
    (phys.header.operation = OpCode.BitNOT →
      execute P phys e = ExecResult.completed (execute_bit_not P phys e)) ∧
    (phys.header.operation = OpCode.BitAND →
      execute P phys e = ExecResult.completed (execute_bit_and P phys e)) ∧
    (phys.header.operation = OpCode.BitOR →
      execute P phys e = ExecResult.completed (execute_bit_or P phys e)) ∧
    (phys.header.operation = OpCode.BitXOR →
      execute P phys e = ExecResult.completed (execute_bit_xor P phys e)) ∧
    (phys.header.operation = OpCode.ValueSelect →
      execute P phys e = ExecResult.completed (execute_value_select P phys e)) ∧
    (∀ code, phys.header.operation = OpCode.Unknown code →
      execute P phys e = ExecResult.aborted e) := by
  refine ⟨?_, ?_, ?_, ?_, ?_, ?_, ?_, ?_, ?_, ?_, ?_, ?_, ?_, ?_, ?_⟩ <;>
    intros <;> simp only [execute, *]

/-- An `IntAdd` instruction is dispatched to `execute_int_add`, and an instruction
with the unknown opcode value 200 aborts with the engine untouched. -/
theorem execute_dispatch_witness :
    ((mkTwoArgs OpCode.IntAdd 16 0 8 8).header.operation = OpCode.IntAdd ∧
      execute Plaintext (mkTwoArgs OpCode.IntAdd 16 0 8 8)
          (plainEngine (memoryOf 8 0 200 8 100)) =
        ExecResult.completed (execute_int_add Plaintext (mkTwoArgs OpCode.IntAdd 16 0 8 8)
          (plainEngine (memoryOf 8 0 200 8 100)))) ∧
    ((mkTwoArgs (OpCode.Unknown 200) 16 0 8 8).header.operation = OpCode.Unknown 200 ∧
      execute Plaintext (mkTwoArgs (OpCode.Unknown 200) 16 0 8 8)
          (plainEngine (memoryOf 8 0 200 8 100)) =
        ExecResult.aborted (plainEngine (memoryOf 8 0 200 8 100))) :=
  ⟨⟨rfl, (execute_dispatch Plaintext (mkTwoArgs OpCode.IntAdd 16 0 8 8)
      (plainEngine (memoryOf 8 0 200 8 100))).2.1 rfl⟩,
   ⟨rfl, (execute_dispatch Plaintext (mkTwoArgs (OpCode.Unknown 200) 16 0 8 8)
      (plainEngine (memoryOf 8 0 200 8 100))).2.2.2.2.2.2.2.2.2.2.2.2.2.2 200 rfl⟩⟩

/-! ## Half-gates: the AND gate functions -/

theorem getLSB_xorBlocks (a b : block) : getLSB (xorBlocks a b) = xor (getLSB a) (getLSB b) :=
  Nat.testBit_xor a b 0

theorem xorBlocks_zero (a : block) : xorBlocks a 0 = a := by
  simp [xorBlocks]

theorem xorBlocks_self (a : block) : xorBlocks a a = 0 := by
  simp [xorBlocks]

theorem xorBlocks_assoc (a b c : block) :
    xorBlocks (xorBlocks a b) c = xorBlocks a (xorBlocks b c) := by
  simp [xorBlocks, Nat.xor_assoc]

theorem xorBlocks_comm (a b : block) : xorBlocks a b = xorBlocks b a := by
  simp [xorBlocks, Nat.xor_comm]

theorem xorBlocks_cancel (a b : block) : xorBlocks (xorBlocks a b) b = a := by
  rw [xorBlocks_assoc, xorBlocks_self, xorBlocks_zero]

/-- The evaluator's half-gates computation on the garbler's table returns the
garbler's label `out0` when `x AND y = 0` and `out0 XOR delta` otherwise. -/
theorem eval_of_garble {Hash PRG : Type} (C : Crypto Hash PRG) (hg he : Hash)
    (h1 h2 : block → block) (delta A0 B0 : block) (x y : Bool)
    (hdelta : getLSB delta = true)
    (hk4 : (C.k2_h4 hg A0 (xorBlocks A0 delta) B0 (xorBlocks B0 delta)).1 =
      (h1 A0, h1 (xorBlocks A0 delta), h2 B0, h2 (xorBlocks B0 delta)))
    (hk2 : (C.k2_h2 he (xorBlocks A0 (if x then delta else 0))
        (xorBlocks B0 (if y then delta else 0))).1 =
      (h1 (xorBlocks A0 (if x then delta else 0)), h2 (xorBlocks B0 (if y then delta else 0)))) :
    (garble_gate_eval_halfgates C (xorBlocks A0 (if x then delta else 0))
        (xorBlocks B0 (if y then delta else 0))
        ((garble_gate_garble_halfgates C A0 (xorBlocks A0 delta) B0 (xorBlocks B0 delta)
            delta hg).1.2.2.1,
          (garble_gate_garble_halfgates C A0 (xorBlocks A0 delta) B0 (xorBlocks B0 delta)
            delta hg).1.2.2.2) he).1 =
      xorBlocks (garble_gate_garble_halfgates C A0 (xorBlocks A0 delta) B0
        (xorBlocks B0 delta) delta hg).1.1 (if x && y then delta else 0) := by
  have hla : getLSB (xorBlocks A0 delta) = !getLSB A0 := by
    rw [getLSB_xorBlocks, hdelta]; cases getLSB A0 <;> rfl
  have hlb : getLSB (xorBlocks B0 delta) = !getLSB B0 := by
    rw [getLSB_xorBlocks, hdelta]; cases getLSB B0 <;> rfl
  simp only [garble_gate_eval_halfgates, garble_gate_garble_halfgates, hk4]
  cases x <;> cases y <;>
    simp only [Bool.false_eq_true, if_false, if_true, xorBlocks_zero, Bool.and_self,
      Bool.and_false, Bool.and_true] at hk2 ⊢ <;>
    rw [hk2] <;>
    rcases Bool.eq_false_or_eq_true (getLSB A0) with ha | ha <;>
    rcases Bool.eq_false_or_eq_true (getLSB B0) with hb | hb <;>
    simp only [hla, hlb, ha, hb, Bool.not_true, Bool.not_false, Bool.false_eq_true, if_false,
      if_true, xorBlocks_zero] <;>
    (apply Nat.eq_of_testBit_eq
     intro i
     simp only [xorBlocks, Nat.testBit_xor]
     cases (h1 A0).testBit i <;> cases (h1 (A0 ^^^ delta)).testBit i <;>
       cases (h2 B0).testBit i <;> cases (h2 (B0 ^^^ delta)).testBit i <;>
       cases delta.testBit i <;> cases A0.testBit i <;> rfl)

/-- C13. Half-gates AND at the gate-function level: let `delta` have LSB 1, let
`A0`, `B0` be the garbler's input labels, `x`, `y` bits and
`A = A0 XOR (x ? delta : 0)`, `B = B0 XOR (y ? delta : 0)` the evaluator's labels,
and let the hashes agree: `k2_h4` on the garbler's side returns
`(h1 A0, h1 (A0 XOR delta), h2 B0, h2 (B0 XOR delta))` and `k2_h2` on the
evaluator's side returns `(h1 A, h2 B)`.  Then the garbler's `out1` is
`out0 XOR delta`, and `garble_gate_eval_halfgates` on `A`, `B` and the garbler's
table returns `out0 XOR ((x AND y) ? delta : 0)`. -/
theorem halfgates_and_correct {Hash PRG : Type} (C : Crypto Hash PRG) (hg he : Hash)
    (h1 h2 : block → block) (delta A0 B0 : block) (x y : Bool)
    (hdelta : getLSB delta = true)
    (hk4 : (C.k2_h4 hg A0 (xorBlocks A0 delta) B0 (xorBlocks B0 delta)).1 =
      (h1 A0, h1 (xorBlocks A0 delta), h2 B0, h2 (xorBlocks B0 delta)))
    (hk2 : (C.k2_h2 he (xorBlocks A0 (if x then delta else 0))
        (xorBlocks B0 (if y then delta else 0))).1 =
      (h1 (xorBlocks A0 (if x then delta else 0)), h2 (xorBlocks B0 (if y then delta else 0)))) :
    (garble_gate_garble_halfgates C A0 (xorBlocks A0 delta) B0 (xorBlocks B0 delta)
        delta hg).1.2.1 =
      xorBlocks (garble_gate_garble_halfgates C A0 (xorBlocks A0 delta) B0
        (xorBlocks B0 delta) delta hg).1.1 delta ∧
    (garble_gate_eval_halfgates C (xorBlocks A0 (if x then delta else 0))
        (xorBlocks B0 (if y then delta else 0))
        ((garble_gate_garble_halfgates C A0 (xorBlocks A0 delta) B0 (xorBlocks B0 delta)
            delta hg).1.2.2.1,
          (garble_gate_garble_halfgates C A0 (xorBlocks A0 delta) B0 (xorBlocks B0 delta)
            delta hg).1.2.2.2) he).1 =
      xorBlocks (garble_gate_garble_halfgates C A0 (xorBlocks A0 delta) B0
        (xorBlocks B0 delta) delta hg).1.1 (if x && y then delta else 0) :=
  ⟨rfl, eval_of_garble C hg he h1 h2 delta A0 B0 x y hdelta hk4 hk2⟩

/-- With the stand-in hashes, `delta = 0x9D`, `A0 = 0x1234`, `B0 = 0x5679` and
`x = y = 1`, the evaluator obtains the garbler's label for 1, `out1`. -/
theorem halfgates_and_correct_witness :
    getLSB 0x9D = true ∧
    (garble_gate_eval_halfgates toyCrypto (xorBlocks 0x1234 0x9D) (xorBlocks 0x5679 0x9D)
        ((garble_gate_garble_halfgates toyCrypto 0x1234 (xorBlocks 0x1234 0x9D) 0x5679
            (xorBlocks 0x5679 0x9D) 0x9D 0).1.2.2.1,
          (garble_gate_garble_halfgates toyCrypto 0x1234 (xorBlocks 0x1234 0x9D) 0x5679
            (xorBlocks 0x5679 0x9D) 0x9D 0).1.2.2.2) 0).1 =
      (garble_gate_garble_halfgates toyCrypto 0x1234 (xorBlocks 0x1234 0x9D) 0x5679
        (xorBlocks 0x5679 0x9D) 0x9D 0).1.2.1 :=
  ⟨by decide,
    ((halfgates_and_correct toyCrypto 0 0 toyH1 toyH2 0x9D 0x1234 0x5679 true true
      (by decide) rfl rfl).2).trans
    (halfgates_and_correct toyCrypto 0 0 toyH1 toyH2 0x9D 0x1234 0x5679 true true
      (by decide) rfl rfl).1.symm⟩

/-! ## Half-gates: the linear gates -/

/-- After `set_delta`, the garbler holds `[r0, r1 XOR delta]`, where `r0`, `r1` are
the first two blocks of `PRG(fix_key)` and `delta` has LSB 1. -/
theorem set_delta_public_constants {Hash PRG : Type} (C : Crypto Hash PRG) (x : block)
    (s : HalfGatesGarbler Hash PRG) :
    (HalfGatesGarbler.set_delta C x s).public_constants =
        ((random_blocks C 2 C.fix_key).1.getD 0 0,
          xorBlocks ((random_blocks C 2 C.fix_key).1.getD 1 0)
            (HalfGatesGarbler.set_delta C x s).delta) ∧
      getLSB (HalfGatesGarbler.set_delta C x s).delta = true := by
  refine ⟨rfl, ?_⟩
  simp [HalfGatesGarbler.set_delta, getLSB, make_delta, Nat.testBit_or]

/-- The constructed garbler holds `[r0, r1 XOR delta]` and a `delta` with LSB 1. -/
theorem garbler_public_constants {Hash PRG : Type} (C : Crypto Hash PRG)
    (env : GarblerEnv Hash PRG) :
    (HalfGatesGarbler.construct C env).public_constants =
        ((random_blocks C 2 C.fix_key).1.getD 0 0,
          xorBlocks ((random_blocks C 2 C.fix_key).1.getD 1 0)
            (HalfGatesGarbler.construct C env).delta) ∧
      getLSB (HalfGatesGarbler.construct C env).delta = true := by
  refine ⟨rfl, ?_⟩
  simp [HalfGatesGarbler.construct, HalfGatesGarbler.set_delta, getLSB, make_delta,
    Nat.testBit_or]

/-- The constructor of the evaluator, when it returns, has drawn `[r0, r1]`, the
first two blocks of `PRG(fix_key)`, as public constants. -/
theorem evaluator_public_constants {Hash PRG : Type} (C : Crypto Hash PRG)
    (env : EvaluatorEnv Hash PRG) (ev : HalfGatesEvaluator Hash PRG)
    (h : HalfGatesEvaluator.construct C env = some ev) :
    ev.public_constants =
      ((random_blocks C 2 C.fix_key).1.getD 0 0, (random_blocks C 2 C.fix_key).1.getD 1 0) := by
  unfold HalfGatesEvaluator.construct at h
  simp only at h
  split at h
  · exact absurd h (by simp)
  · split at h
    · exact absurd h (by simp)
    · split at h
      · exact absurd h (by simp)
      · simp only [Option.some.injEq] at h
        rw [← h]

/-- C14. Free-XOR invariant across the linear gates: when the garbler holds
`public_constants = [r0, r1 XOR delta]` and the evaluator `[r0, r1]`, `zero` and
`one` produce labels matching for the bits 0 and 1, and `op_copy`, `op_not`,
`op_xor`, `op_xnor` applied on both sides to inputs matching for `v` (and `w`)
produce outputs matching for `v`, `NOT v`, `v XOR w`, `NOT (v XOR w)`; each of
these gates leaves the state of its role, connection included, as it was. -/
theorem free_xor_linear_gates {Hash PRG : Type} (g : HalfGatesGarbler Hash PRG)
    (ev : HalfGatesEvaluator Hash PRG) (r0 r1 : block)
    (hg : g.public_constants = (r0, xorBlocks r1 g.delta))
    (he : ev.public_constants = (r0, r1))
    (G1 G2 E1 E2 : block) (v w : Bool)
    (h1 : Matches g.delta E1 G1 v) (h2 : Matches g.delta E2 G2 w) :
    (Matches g.delta (HalfGatesEvaluator.zero ev).1 (HalfGatesGarbler.zero g).1 false ∧
      Matches g.delta (HalfGatesEvaluator.one ev).1 (HalfGatesGarbler.one g).1 true ∧
      Matches g.delta (HalfGatesEvaluator.op_copy E1 ev).1 (HalfGatesGarbler.op_copy G1 g).1 v ∧
      Matches g.delta (HalfGatesEvaluator.op_not E1 ev).1 (HalfGatesGarbler.op_not G1 g).1 (!v) ∧
      Matches g.delta (HalfGatesEvaluator.op_xor E1 E2 ev).1
        (HalfGatesGarbler.op_xor G1 G2 g).1 (xor v w) ∧
      Matches g.delta (HalfGatesEvaluator.op_xnor E1 E2 ev).1
        (HalfGatesGarbler.op_xnor G1 G2 g).1 (!(xor v w))) ∧
    ((HalfGatesGarbler.zero g).2 = g ∧ (HalfGatesGarbler.one g).2 = g ∧
      (HalfGatesGarbler.op_copy G1 g).2 = g ∧ (HalfGatesGarbler.op_not G1 g).2 = g ∧
      (HalfGatesGarbler.op_xor G1 G2 g).2 = g ∧ (HalfGatesGarbler.op_xnor G1 G2 g).2 = g) ∧
    ((HalfGatesEvaluator.zero ev).2 = ev ∧ (HalfGatesEvaluator.one ev).2 = ev ∧
      (HalfGatesEvaluator.op_copy E1 ev).2 = ev ∧ (HalfGatesEvaluator.op_not E1 ev).2 = ev ∧
      (HalfGatesEvaluator.op_xor E1 E2 ev).2 = ev ∧
      (HalfGatesEvaluator.op_xnor E1 E2 ev).2 = ev) := by
  refine ⟨?_, ⟨rfl, rfl, rfl, rfl, rfl, rfl⟩, ⟨rfl, rfl, rfl, rfl, rfl, rfl⟩⟩
  unfold Matches at h1 h2 ⊢
  simp only [HalfGatesEvaluator.zero, HalfGatesGarbler.zero, HalfGatesEvaluator.one,
    HalfGatesGarbler.one, HalfGatesEvaluator.op_copy, HalfGatesGarbler.op_copy,
    HalfGatesEvaluator.op_not, HalfGatesGarbler.op_not, HalfGatesEvaluator.op_xor,
    HalfGatesGarbler.op_xor, HalfGatesEvaluator.op_xnor, HalfGatesGarbler.op_xnor, hg, he, h1, h2]
  refine ⟨?_, ?_, ?_, ?_, ?_, ?_⟩ <;> cases v <;> cases w <;>
    simp only [Bool.false_eq_true, if_false, if_true, Bool.not_true, Bool.not_false,
      Bool.xor_false, Bool.xor_true, Bool.false_xor, Bool.true_xor] <;>
    (apply Nat.eq_of_testBit_eq
     intro i
     simp only [xorBlocks, Nat.testBit_xor, Nat.zero_testBit]
     cases r0.testBit i <;> cases r1.testBit i <;> cases g.delta.testBit i <;>
       cases G1.testBit i <;> cases G2.testBit i <;> rfl)

/-- For the garbler constructed with the stand-in primitives and an evaluator
holding the fixed-key public constants, with the evaluator's first input label
matching for the bit 1 and the second for the bit 0: the outputs of `op_xnor` match
for the bit 0. -/
theorem free_xor_linear_gates_witness :
    Matches toyGarbler.delta (xorBlocks 0x1234 toyGarbler.delta) 0x1234 true ∧
    Matches toyGarbler.delta 0x5679 0x5679 false ∧
    Matches toyGarbler.delta
      (HalfGatesEvaluator.op_xnor (xorBlocks 0x1234 toyGarbler.delta) 0x5679 toyEvaluator).1
      (HalfGatesGarbler.op_xnor 0x1234 0x5679 toyGarbler).1 false :=
  ⟨by decide, by decide,
    (free_xor_linear_gates toyGarbler toyEvaluator
      ((random_blocks toyCrypto 2 toyCrypto.fix_key).1.getD 0 0)
      ((random_blocks toyCrypto 2 toyCrypto.fix_key).1.getD 1 0)
      (garbler_public_constants toyCrypto toyGarblerEnv).1 rfl
      0x1234 0x5679 (xorBlocks 0x1234 toyGarbler.delta) 0x5679 true false
      (by decide) (by decide)).1.2.2.2.2.2⟩

/-! ## Half-gates: handshake, AND framing and the gate counter -/

/-- C15, the code on the handshake. The garbler's constructor writes exactly two
blocks, its `start_point` and the `input_seed` it seeds `shared_prg` with; the
evaluator's constructor reads three.  Given exactly the garbler's handshake it
does not return; given one more block `u` it returns with `seed` equal to the
garbler's `start_point`, with `start_point` (and the hash initialised by `setS`)
equal to the garbler's `input_seed`, and with `shared_prg` seeded with `u`. -/
theorem handshake_reads_three_blocks {Hash PRG : Type} (C : Crypto Hash PRG)
    (genv : GarblerEnv Hash PRG) (eenv : EvaluatorEnv Hash PRG) :
    (HalfGatesGarbler.construct C genv).conn_writer =
        [(HalfGatesGarbler.construct C genv).start_point, (C.random_block genv.prg).1] ∧
    (HalfGatesGarbler.construct C genv).shared_prg =
        C.set_seed genv.shared_prg (C.random_block genv.prg).1 ∧
    HalfGatesEvaluator.construct C
        { eenv with conn_in := (HalfGatesGarbler.construct C genv).conn_writer } = none ∧
    (∀ (u : block) (rest : List block), ∃ ev,
      HalfGatesEvaluator.construct C
          { eenv with conn_in := (HalfGatesGarbler.construct C genv).conn_writer ++ u :: rest } =
        some ev ∧
      ev.seed = (HalfGatesGarbler.construct C genv).start_point ∧
      ev.start_point = (C.random_block genv.prg).1 ∧
      ev.shared_prg = C.set_seed eenv.shared_prg u ∧
      ev.conn_reader = rest) := by
  refine ⟨rfl, rfl, rfl, ?_⟩
  intro u rest
  exact ⟨_, rfl, rfl, rfl, rfl, rfl⟩

/-- What `HalfGatesGarbler::op_and` does when 32 zero bytes followed by `rest` have
been received: it consumes them, increases `global_id` and appends two blocks. -/
theorem garbler_op_and_consumes {Hash PRG : Type} (C : Crypto Hash PRG)
    (g : HalfGatesGarbler Hash PRG) (input1 input2 : block) (rest : List Nat) :
    ∃ w g1, HalfGatesGarbler.op_and C input1 input2
        { g with conn_reader := List.replicate 32 0 ++ rest } = some (w, g1) ∧
      g1.conn_reader = rest ∧ g1.global_id = g.global_id + 1 ∧
      ∃ t0 t1, g1.conn_writer = g.conn_writer ++ [t0, t1] := by
  have h1 : readBlockBytes (List.replicate 32 0 ++ rest) =
      some (0, List.replicate 16 0 ++ rest) := by
    simp [readBlockBytes, List.replicate]
  have h2 : readBlockBytes (List.replicate 16 0 ++ rest) = some (0, rest) := by
    simp [readBlockBytes, List.replicate]
  simp only [HalfGatesGarbler.op_and, h1, h2]
  by_cases hk : C.key_used g.mitccrh = C.KS_BATCH_N
  · simp only [hk, if_true]
    exact ⟨_, _, rfl, rfl, rfl, _, _, List.append_assoc _ _ _⟩
  · simp only [hk, if_false]
    exact ⟨_, _, rfl, rfl, rfl, _, _, List.append_assoc _ _ _⟩

/-- What `HalfGatesEvaluator::op_and` does: connection and `global_id` are as
before, and the wire is computed from the indeterminate `table`. -/
theorem evaluator_op_and_frame {Hash PRG : Type} (C : Crypto Hash PRG)
    (ev : HalfGatesEvaluator Hash PRG) (input1 input2 : block) (table : block × block) :
    (HalfGatesEvaluator.op_and C table input1 input2 ev).2.conn_reader = ev.conn_reader ∧
    (HalfGatesEvaluator.op_and C table input1 input2 ev).2.conn_writer = ev.conn_writer ∧
    (HalfGatesEvaluator.op_and C table input1 input2 ev).2.global_id = ev.global_id ∧
    (HalfGatesEvaluator.op_and C table input1 input2 ev).1 =
      (garble_gate_eval_halfgates C input1 input2 table
        (if C.key_used ev.mitccrh = C.KS_BATCH_N then C.renew_ks ev.mitccrh ev.global_id
          else ev.mitccrh)).1 := by
  by_cases hk : C.key_used ev.mitccrh = C.KS_BATCH_N
  · simp [HalfGatesEvaluator.op_and, hk]
  · simp [HalfGatesEvaluator.op_and, hk]

/-- C16, the code on one AND gate. `HalfGatesGarbler::op_and` first reads two
blocks from the connection: with nothing received it does not return, and with 32
bytes received (here zeros, followed by `rest`) it consumes them before appending
`table[0]`, `table[1]`.  `HalfGatesEvaluator::op_and` reads nothing and writes
nothing: its connection is as before, and the table it uses is the indeterminate
content of its local array, whatever the garbler sent. -/
theorem op_and_channel_use {Hash PRG : Type} (C : Crypto Hash PRG)
    (g : HalfGatesGarbler Hash PRG) (ev : HalfGatesEvaluator Hash PRG)
    (input1 input2 : block) (table : block × block) (rest : List Nat) :
    HalfGatesGarbler.op_and C input1 input2 { g with conn_reader := [] } = none ∧
    (∃ w g1, HalfGatesGarbler.op_and C input1 input2
          { g with conn_reader := List.replicate 32 0 ++ rest } = some (w, g1) ∧
        g1.conn_reader = rest ∧
        ∃ t0 t1, g1.conn_writer = g.conn_writer ++ [t0, t1]) ∧
    (HalfGatesEvaluator.op_and C table input1 input2 ev).2.conn_reader = ev.conn_reader ∧
    (HalfGatesEvaluator.op_and C table input1 input2 ev).2.conn_writer = ev.conn_writer ∧
    (HalfGatesEvaluator.op_and C table input1 input2 ev).1 =
      (garble_gate_eval_halfgates C input1 input2 table
        (if C.key_used ev.mitccrh = C.KS_BATCH_N then C.renew_ks ev.mitccrh ev.global_id
          else ev.mitccrh)).1 := by
  obtain ⟨w, g1, h, hr, _, ht⟩ := garbler_op_and_consumes C g input1 input2 rest
  obtain ⟨e1, e2, _, e4⟩ := evaluator_op_and_frame C ev input1 input2 table
  exact ⟨rfl, ⟨w, g1, h, hr, ht⟩, e1, e2, e4⟩

/-- C19, the code on the gate counter. `global_id` is 0 after either constructor;
`HalfGatesGarbler::op_and`, when it returns, has increased it by 1, and
`HalfGatesEvaluator::op_and` leaves it as it was. -/
theorem op_and_global_id {Hash PRG : Type} (C : Crypto Hash PRG)
    (genv : GarblerEnv Hash PRG) (g : HalfGatesGarbler Hash PRG)
    (ev : HalfGatesEvaluator Hash PRG) (input1 input2 : block) (table : block × block)
    (rest : List Nat) :
    (HalfGatesGarbler.construct C genv).global_id = 0 ∧
    (∀ eenv ev0, HalfGatesEvaluator.construct C eenv = some ev0 → ev0.global_id = 0) ∧
    (∃ w g1, HalfGatesGarbler.op_and C input1 input2
          { g with conn_reader := List.replicate 32 0 ++ rest } = some (w, g1) ∧
        g1.global_id = g.global_id + 1) ∧
    (HalfGatesEvaluator.op_and C table input1 input2 ev).2.global_id = ev.global_id := by
  obtain ⟨w, g1, h, _, hid, _⟩ := garbler_op_and_consumes C g input1 input2 rest
  refine ⟨rfl, ?_, ⟨w, g1, h, hid⟩, (evaluator_op_and_frame C ev input1 input2 table).2.2.1⟩
  intro eenv ev0 h
  unfold HalfGatesEvaluator.construct at h
  simp only at h
  split at h
  · exact absurd h (by simp)
  · split at h
    · exact absurd h (by simp)
    · split at h
      · exact absurd h (by simp)
      · simp only [Option.some.injEq] at h
        rw [← h]

/-! ## Half-gates: output decoding -/

theorem garbler_output_eq {Hash PRG : Type} (data : List block) :
    ∀ s : HalfGatesGarbler Hash PRG, HalfGatesGarbler.output data s =
      { s with output_label_lsbs := s.output_label_lsbs ++ data.map getLSB } := by
  induction data with
  | nil => intro s; simp [HalfGatesGarbler.output]
  | cons w rest ih =>
    intro s
    have h := ih { s with output_label_lsbs := s.output_label_lsbs ++ [getLSB w] }
    simp only [HalfGatesGarbler.output, List.foldl_cons] at h ⊢
    rw [h]
    simp

theorem garbler_outputs_eq {Hash PRG : Type} (calls : List (List block)) :
    ∀ s : HalfGatesGarbler Hash PRG, HalfGatesGarbler.outputs calls s =
      { s with output_label_lsbs := s.output_label_lsbs ++ calls.flatten.map getLSB } := by
  induction calls with
  | nil => intro s; simp [HalfGatesGarbler.outputs]
  | cons c rest ih =>
    intro s
    have h := ih (HalfGatesGarbler.output c s)
    simp only [HalfGatesGarbler.outputs, List.foldl_cons] at h ⊢
    rw [h, garbler_output_eq]
    simp

theorem evaluator_output_eq {Hash PRG : Type} (data : List block) :
    ∀ s : HalfGatesEvaluator Hash PRG, HalfGatesEvaluator.output data s =
      { s with conn_writer := s.conn_writer ++ data.map (fun w => bitByte (getLSB w)) } := by
  induction data with
  | nil => intro s; simp [HalfGatesEvaluator.output]
  | cons w rest ih =>
    intro s
    have h := ih { s with conn_writer := s.conn_writer ++ [if getLSB w then 1 else 0] }
    simp only [HalfGatesEvaluator.output, List.foldl_cons] at h ⊢
    rw [h]
    simp [bitByte]

theorem evaluator_outputs_eq {Hash PRG : Type} (calls : List (List block)) :
    ∀ s : HalfGatesEvaluator Hash PRG, HalfGatesEvaluator.outputs calls s =
      { s with conn_writer :=
        s.conn_writer ++ calls.flatten.map (fun w => bitByte (getLSB w)) } := by
  induction calls with
  | nil => intro s; simp [HalfGatesEvaluator.outputs]
  | cons c rest ih =>
    intro s
    have h := ih (HalfGatesEvaluator.output c s)
    simp only [HalfGatesEvaluator.outputs, List.foldl_cons] at h ⊢
    rw [h, evaluator_output_eq]
    simp

theorem getLSB_evaluatorLabel (delta : block) (hdelta : getLSB delta = true) (p : block × Bool) :
    (getLSB p.1 != getLSB (evaluatorLabel delta p)) = p.2 := by
  unfold evaluatorLabel
  rw [getLSB_xorBlocks]
  rcases p with ⟨G, v⟩
  cases v
  · have h0 : getLSB 0 = false := rfl
    simp only [Bool.false_eq_true, if_false, h0]
    cases getLSB G <;> rfl
  · simp only [if_true, hdelta]
    cases getLSB G <;> rfl

/-- The destructor's loop over the recorded bits of the wires `ws`, when the bytes
received start with the evaluator's bits for these wires. -/
theorem teardown_loop_eq {Hash PRG : Type} (delta : block) (hdelta : getLSB delta = true)
    (ws : List (block × Bool)) :
    ∀ (s : HalfGatesGarbler Hash PRG) (rest : List Nat),
      s.conn_reader = ws.map (fun p => bitByte (getLSB (evaluatorLabel delta p))) ++ rest →
      HalfGatesGarbler.teardown_loop (ws.map (fun p => getLSB p.1)) s =
        some { s with conn_reader := rest,
                      output_writer := s.output_writer ++ ws.map (fun p => bitByte p.2) } := by
  induction ws with
  | nil =>
    intro s rest h
    simp only [List.map_nil, List.nil_append] at h
    simp [HalfGatesGarbler.teardown_loop, ← h]
  | cons p ps ih =>
    intro s rest h
    simp only [List.map_cons, List.cons_append] at h
    have hbyte : decide (bitByte (getLSB (evaluatorLabel delta p)) ≠ 0) =
        getLSB (evaluatorLabel delta p) := by
      cases getLSB (evaluatorLabel delta p) <;> simp [bitByte]
    have hbit := getLSB_evaluatorLabel delta hdelta p
    simp only [List.map_cons, HalfGatesGarbler.teardown_loop, HalfGatesGarbler.teardown_step, h,
      readBool, hbyte, hbit]
    rw [ih _ rest rfl]
    simp [bitByte]

/-- The destructor, when the recorded bits are those of the wires `ws` and the
bytes received start with the evaluator's bits for these wires. -/
theorem teardown_eq {Hash PRG : Type} (delta : block) (hdelta : getLSB delta = true)
    (ws : List (block × Bool)) (s : HalfGatesGarbler Hash PRG) (rest : List Nat)
    (hl : s.output_label_lsbs = ws.map (fun p => getLSB p.1))
    (hc : s.conn_reader = ws.map (fun p => bitByte (getLSB (evaluatorLabel delta p))) ++ rest) :
    HalfGatesGarbler.teardown s =
      some { s with conn_reader := rest,
                    output_writer := s.output_writer ++ ws.map (fun p => bitByte p.2) } := by
  have h := teardown_loop_eq delta hdelta ws s rest hc
  rw [← hl] at h
  exact h

/-- C17. Output decoding: when `delta` has LSB 1 and, for each output wire in
declaration order, the evaluator's label is `G XOR (v ? delta : 0)` for the
garbler's label `G` and the plaintext bit `v`, the evaluator's output calls append
`LSB(E)` for each wire in declaration order to the connection, and the garbler's
destructor, receiving these bytes, writes to the output file, for each wire in the
same order, the byte `garbler_lsb XOR evaluator_lsb`, which is `v` (0 or 1); the
number of bytes written is the number of wires passed to `output`. -/
theorem output_decoding {Hash PRG : Type} (delta : block) (g : HalfGatesGarbler Hash PRG)
    (ev : HalfGatesEvaluator Hash PRG) (calls : List (List (block × Bool)))
    (hdelta : getLSB delta = true) (hfresh : g.output_label_lsbs = []) :
    (HalfGatesEvaluator.outputs (calls.map (fun c => c.map (evaluatorLabel delta))) ev).conn_writer =
      ev.conn_writer ++ calls.flatten.map (fun p => bitByte (getLSB (evaluatorLabel delta p))) ∧
    (∃ g1, HalfGatesGarbler.teardown
        { HalfGatesGarbler.outputs (calls.map (fun c => c.map Prod.fst)) g with
          conn_reader := calls.flatten.map (fun p => bitByte (getLSB (evaluatorLabel delta p))) } =
          some g1 ∧
      g1.output_writer = g.output_writer ++ calls.flatten.map (fun p => bitByte p.2) ∧
      g1.conn_reader = [] ∧
      g1.output_writer.length = g.output_writer.length + calls.flatten.length) := by
  have hflat : ∀ {α β : Type} (f : α → β) (L : List (List α)),
      (L.map (fun c => c.map f)).flatten = L.flatten.map f := by
    intro α β f L
    induction L with
    | nil => rfl
    | cons c rest ih =>
      simp only [List.map_cons, List.flatten_cons, List.map_append, ih]
  constructor
  · rw [evaluator_outputs_eq, hflat, List.map_map]
    rfl
  · rw [garbler_outputs_eq, hflat]
    have h := teardown_eq delta hdelta calls.flatten
      { g with output_label_lsbs := g.output_label_lsbs ++ (calls.flatten.map Prod.fst).map getLSB,
               conn_reader :=
                 calls.flatten.map (fun p => bitByte (getLSB (evaluatorLabel delta p))) }
      []
      (by
        show g.output_label_lsbs ++ (calls.flatten.map Prod.fst).map getLSB = _
        rw [hfresh, List.nil_append, List.map_map]
        rfl)
      (by simp)
    exact ⟨_, h, rfl, rfl, by simp only [List.length_append, List.length_map]⟩

/-- Two output calls, on the wires `(0x1234, 1)`, `(0x5679, 0)` and then on
`(0x42, 1)`, with the garbler of the stand-in primitives: the destructor writes
the bytes 1, 0, 1. -/
theorem output_decoding_witness :
    getLSB toyGarbler.delta = true ∧ toyGarbler.output_label_lsbs = [] ∧
    ∃ g1, HalfGatesGarbler.teardown
        { HalfGatesGarbler.outputs
            ([[(0x1234, true), (0x5679, false)], [(0x42, true)]].map
              (fun c => c.map Prod.fst)) toyGarbler with
          conn_reader := ([[(0x1234, true), (0x5679, false)], [(0x42, true)]] :
            List (List (block × Bool))).flatten.map
              (fun p => bitByte (getLSB (evaluatorLabel toyGarbler.delta p))) } = some g1 ∧
      g1.output_writer = [1, 0, 1] := by
  refine ⟨by decide, rfl, ?_⟩
  obtain ⟨g1, h, hw, _, _⟩ := (output_decoding toyGarbler.delta toyGarbler toyEvaluator
    [[(0x1234, true), (0x5679, false)], [(0x42, true)]] (by decide) rfl).2
  exact ⟨g1, h, hw.trans (by decide)⟩

/-! ## Half-gates: input labels -/

theorem random_blocks_length {Hash PRG : Type} (C : Crypto Hash PRG) :
    ∀ (n : Nat) (g : PRG), (random_blocks C n g).1.length = n := by
  intro n
  induction n with
  | zero => intro g; rfl
  | succ k ih => intro g; simp [random_blocks, ih]

/-- The loop of `HalfGatesGarbler::input` when the input file holds a byte for
every label. -/
theorem input_loop_eq {Hash PRG : Type} (labels : List block) :
    ∀ s : HalfGatesGarbler Hash PRG, labels.length ≤ s.input_reader.length →
      HalfGatesGarbler.input_loop labels s =
        some (List.zipWith (fun p b => if b ≠ 0 then xorBlocks p s.delta else p) labels
            s.input_reader,
          { s with input_reader := s.input_reader.drop labels.length }) := by
  induction labels with
  | nil => intro s _; simp [HalfGatesGarbler.input_loop]
  | cons p ps ih =>
    intro s hlen
    rcases hrd : s.input_reader with _ | ⟨b, unread⟩
    · rw [hrd] at hlen; simp at hlen
    · rw [hrd] at hlen
      have h := ih { s with input_reader := unread } (by simpa using hlen)
      simp only [HalfGatesGarbler.input_loop, hrd, read1, h]
      simp

theorem zipWith_evaluatorLabel (delta : block) :
    ∀ (ps bytes : List Nat), ps.length ≤ bytes.length →
      List.zipWith (fun G b => evaluatorLabel delta (G, decide (b ≠ 0)))
        (List.zipWith (fun p b => if b ≠ 0 then xorBlocks p delta else p) ps bytes) bytes = ps := by
  intro ps
  induction ps with
  | nil => intro bytes _; simp
  | cons p rest ih =>
    intro bytes hlen
    rcases bytes with _ | ⟨b, bs⟩
    · simp at hlen
    · simp only [List.zipWith_cons_cons, ih bs (by simpa using hlen)]
      by_cases hb : b = 0
      · simp [hb, evaluatorLabel, xorBlocks_zero]
      · simp [hb, evaluatorLabel, xorBlocks_cancel]

/-- C18. Input labels: when both `shared_prg` are in the same state and the input
file holds at least `L` bytes, an `input` call of length `L` fills the evaluator's
wires with the next `L` blocks `p_i` of the generator and the garbler's wire `i`
with `p_i XOR delta` when the `i`-th input byte is non-zero and with `p_i`
otherwise; so each evaluator label is the garbler label XOR `(bit ? delta : 0)`,
the garbler has consumed exactly the first `L` input bytes, and both generators
have advanced by `L` blocks. -/
theorem input_labels {Hash PRG : Type} (C : Crypto Hash PRG) (L : Nat)
    (g : HalfGatesGarbler Hash PRG) (ev : HalfGatesEvaluator Hash PRG)
    (hprg : g.shared_prg = ev.shared_prg) (hlen : L ≤ g.input_reader.length) :
    ∃ gl g1, HalfGatesGarbler.input C L g = some (gl, g1) ∧
      (HalfGatesEvaluator.input C L ev).1 = (random_blocks C L ev.shared_prg).1 ∧
      gl = List.zipWith (fun p b => if b ≠ 0 then xorBlocks p g.delta else p)
        (random_blocks C L ev.shared_prg).1 g.input_reader ∧
      (HalfGatesEvaluator.input C L ev).1 =
        List.zipWith (fun G b => evaluatorLabel g.delta (G, decide (b ≠ 0))) gl g.input_reader ∧
      gl.length = L ∧ (HalfGatesEvaluator.input C L ev).1.length = L ∧
      g1.input_reader = g.input_reader.drop L ∧
      g1.shared_prg = (random_blocks C L g.shared_prg).2 ∧
      (HalfGatesEvaluator.input C L ev).2.shared_prg = (random_blocks C L ev.shared_prg).2 ∧
      g1.shared_prg = (HalfGatesEvaluator.input C L ev).2.shared_prg := by
  have hl := random_blocks_length C L g.shared_prg
  have hloop := input_loop_eq (random_blocks C L g.shared_prg).1
    { g with shared_prg := (random_blocks C L g.shared_prg).2 } (by rw [hl]; exact hlen)
  rw [hl] at hloop
  refine ⟨_, _, hloop, rfl, ?_, ?_, ?_, ?_, rfl, rfl, rfl, ?_⟩
  · rw [hprg]
  · show (random_blocks C L ev.shared_prg).1 = _
    rw [← hprg]
    exact (zipWith_evaluatorLabel g.delta _ _ (by rw [hl]; exact hlen)).symm
  · rw [List.length_zipWith, hl]
    exact Nat.min_eq_left hlen
  · exact random_blocks_length C L ev.shared_prg
  · simp only [HalfGatesEvaluator.input, hprg]

/-- With the garbler of the stand-in primitives, whose input file holds the bytes
1, 1, 0, 1, and an evaluator with the same generator state: an `input` call of
length 4 consumes the four bytes. -/
theorem input_labels_witness :
    toyGarbler.shared_prg = toyEvaluator.shared_prg ∧ 4 ≤ toyGarbler.input_reader.length ∧
    ∃ gl g1, HalfGatesGarbler.input toyCrypto 4 toyGarbler = some (gl, g1) ∧
      (HalfGatesEvaluator.input toyCrypto 4 toyEvaluator).1 =
        List.zipWith (fun G b => evaluatorLabel toyGarbler.delta (G, decide (b ≠ 0))) gl
          [1, 1, 0, 1] ∧
      g1.input_reader = [] := by
  refine ⟨rfl, by decide, ?_⟩
  obtain ⟨gl, g1, h, _, _, hm, _, _, hr, _⟩ :=
    input_labels toyCrypto 4 toyGarbler toyEvaluator rfl (by decide)
  exact ⟨gl, g1, h, hm, hr⟩

/-! ## Half-gates: scenario E5 -/

/-- C20, the code on scenario E5 (`x = 0b1011`, `IntAdd` with the public constant
`0b0001`). The evaluator's constructor, given the two blocks the garbler's
constructor wrote, does not return, so the evaluator sends nothing; the garbler,
receiving nothing, is blocked in the first AND gate of `IntAdd`, having written
only its two handshake blocks, with no output wire recorded and the output file
empty.  On the plaintext backend the same program yields `0b1100`. -/
theorem scenario_E5_blocks :
    toyGarbler.conn_writer.length = 2 ∧
    HalfGatesEvaluator.construct toyCrypto scenarioE5_evaluatorEnv = none ∧
    scenarioE5_garbler.protocol.isBlocked = true ∧
    scenarioE5_garbler.protocol.state.conn_writer = toyGarbler.conn_writer ∧
    scenarioE5_garbler.protocol.state.output_label_lsbs = [] ∧
    scenarioE5_garbler.protocol.state.output_writer = [] ∧
    decode (execute_int_add Plaintext (mkTwoArgs OpCode.IntAdd 8 0 4 4)
      (execute_public_constant Plaintext (mkConstant 4 1 4)
        (plainEngine (memoryOf 4 0 0b1011 0 0)))).memory 8 4 = 0b1100 := by
  refine ⟨by decide, rfl, by decide, by decide, by decide, by decide, by decide⟩

/-! ## In-place IntDecrement; IsZero and NonZero for every input -/

/-- C25. In-place IntDecrement on the plaintext backend: for `width ≥ 1`, when the
output base address equals the input base address, `execute_int_decrement` leaves
`(a - 1) mod 2^width` in those `width` wires, `a` being the value they encoded
before. -/
theorem execute_int_decrement_in_place (phys : PackedPhysInstruction) (e : Engine Bool Unit)
    (hw : 1 ≤ phys.one_arg.width) (halias : phys.header.output = phys.one_arg.input1) :
    (decode (execute_int_decrement Plaintext phys e).memory phys.one_arg.input1
        phys.one_arg.width : Int) =
      ((decode e.memory phys.one_arg.input1 phys.one_arg.width : Int) - 1) %
        (2 : Int) ^ phys.one_arg.width := by
  have h := int_decrement_sum phys e hw (Or.inl (le_of_eq halias))
  rw [halias] at h
  exact h

/-- With `width = 8` and `a = 0` at wires 0..7, decremented in place: the wires
hold 255 afterwards. -/
theorem execute_int_decrement_in_place_witness :
    1 ≤ (mkOneArg OpCode.IntDecrement 0 0 8).one_arg.width ∧
    (mkOneArg OpCode.IntDecrement 0 0 8).header.output =
      (mkOneArg OpCode.IntDecrement 0 0 8).one_arg.input1 ∧
    (decode (execute_int_decrement Plaintext (mkOneArg OpCode.IntDecrement 0 0 8)
      (plainEngine (memoryOf 8 0 0 0 0))).memory 0 8 : Int) = 255 :=
  ⟨by decide, rfl,
    (execute_int_decrement_in_place (mkOneArg OpCode.IntDecrement 0 0 8)
      (plainEngine (memoryOf 8 0 0 0 0)) (by decide) rfl).trans (by decide)⟩

/-- The loop shared by `execute_is_zero` and `execute_non_zero` on the plaintext
backend, started with the accumulator equal to `input[0]`: wire memory is
untouched, and from the first iteration on the accumulator is 0. -/
theorem is_zero_loop (input : Nat) (count : Nat) (st : Engine Bool Unit × Bool)
    (hinit : st.2 = st.1.memory (input + 0)) :
    (forLoop (is_zero_body Plaintext input) count 0 st).1.memory = st.1.memory ∧
      (1 ≤ count → (forLoop (is_zero_body Plaintext input) count 0 st).2 = false) := by
  have key := forLoop_induction (is_zero_body Plaintext input)
    (fun k t => t.1.memory = st.1.memory ∧ (k = 0 → t.2 = st.1.memory (input + 0)) ∧
      (1 ≤ k → t.2 = false))
    count 0 st ⟨rfl, fun _ => hinit, fun h => absurd h (by decide)⟩ ?_
  · simp only [Nat.zero_add] at key
    exact ⟨key.1, key.2.2⟩
  · rintro j ⟨e1, c⟩ _ _ ⟨hm, h0, h1⟩
    simp only at hm h0 h1
    simp only [is_zero_body, Engine.call, Plaintext_op_not, Plaintext_op_and, hm, true_and]
    refine ⟨fun h => absurd h (by omega), fun _ => ?_⟩
    by_cases hj : 1 ≤ j
    · rw [h1 hj]; rfl
    · have hj0 : j = 0 := by omega
      subst hj0
      rw [h0 rfl]
      cases st.1.memory (input + 0) <;> rfl

/-- C29. IsZero and NonZero are constant on the plaintext backend: for `width ≥ 1`
and every input, the accumulator is 0 after the first loop iteration (it is
`a[0] AND NOT a[0]`) and stays 0, so `execute_is_zero` writes 0 and
`execute_non_zero` writes 1 to `out[0]`. -/
theorem is_zero_non_zero_constant (phys : PackedPhysInstruction) (e : Engine Bool Unit)
    (hw : 1 ≤ phys.one_arg.width) :
    (is_zero_body Plaintext phys.one_arg.input1 0
        (e, e.memory (phys.one_arg.input1 + 0))).2 = false ∧
    (∀ count, 1 ≤ count →
      (forLoop (is_zero_body Plaintext phys.one_arg.input1) count 0
        (e, e.memory (phys.one_arg.input1 + 0))).2 = false) ∧
    (execute_is_zero Plaintext phys e).memory phys.header.output = false ∧
    (execute_non_zero Plaintext phys e).memory phys.header.output = true := by
  have hloop := is_zero_loop phys.one_arg.input1 phys.one_arg.width
    (e, e.memory (phys.one_arg.input1 + 0)) rfl
  refine ⟨?_, fun count hc => (is_zero_loop phys.one_arg.input1 count
    (e, e.memory (phys.one_arg.input1 + 0)) rfl).2 hc, ?_, ?_⟩
  · simp only [is_zero_body, Engine.call, Plaintext_op_not, Plaintext_op_and]
    cases e.memory (phys.one_arg.input1 + 0) <;> rfl
  · unfold execute_is_zero
    simp only [Engine.call, Engine.callTo, Plaintext_op_copy]
    generalize hr : forLoop _ _ _ _ = r
    have h2 : r.2 = false := by
      rw [← hr]; exact hloop.2 hw
    obtain ⟨e1, c⟩ := r
    dsimp only at h2 ⊢
    rw [write_same, h2]
  · unfold execute_non_zero
    simp only [Engine.call, Engine.callTo, Plaintext_op_copy, Plaintext_op_not]
    generalize hr : forLoop _ _ _ _ = r
    have h2 : r.2 = false := by
      rw [← hr]; exact hloop.2 hw
    obtain ⟨e1, c⟩ := r
    dsimp only at h2 ⊢
    rw [write_same, h2]
    rfl

/-- With `width = 8` and `a = 0` at wires 0..7: IsZero writes 0 and NonZero
writes 1 to wire 16. -/
theorem is_zero_non_zero_constant_witness :
    1 ≤ (mkOneArg OpCode.IsZero 16 0 8).one_arg.width ∧
    (execute_is_zero Plaintext (mkOneArg OpCode.IsZero 16 0 8)
      (plainEngine (memoryOf 8 0 0 0 0))).memory 16 = false ∧
    (execute_non_zero Plaintext (mkOneArg OpCode.IsZero 16 0 8)
      (plainEngine (memoryOf 8 0 0 0 0))).memory 16 = true :=
  ⟨by decide,
    (is_zero_non_zero_constant (mkOneArg OpCode.IsZero 16 0 8)
      (plainEngine (memoryOf 8 0 0 0 0)) (by decide)).2.2.1,
    (is_zero_non_zero_constant (mkOneArg OpCode.IsZero 16 0 8)
      (plainEngine (memoryOf 8 0 0 0 0)) (by decide)).2.2.2⟩

/-! ## The exact domain of IntSub -/

theorem subMod_eq (a b width : Nat) (ha : a < 2 ^ width) (hb : b < 2 ^ width) :
    subMod a b width = if b ≤ a then a - b else a + 2 ^ width - b := by
  unfold subMod
  have hc : ((2 : Int) ^ width) = ((2 ^ width : Nat) : Int) := by push_cast; rfl
  rw [hc]
  split
  · rename_i h
    have h1 : ((a : Int) - (b : Int)) = ((a - b : Nat) : Int) := by omega
    rw [h1, Int.emod_eq_of_lt (by omega) (by omega)]
    simp
  · rename_i h
    have h1 : ((a : Int) - (b : Int)) =
        ((a + 2 ^ width - b : Nat) : Int) + ((2 ^ width : Nat) : Int) * (-1) := by
      have : b ≤ a + 2 ^ width := by omega
      push_cast [Nat.cast_sub this]
      ring
    rw [h1, Int.add_mul_emod_self_left, Int.emod_eq_of_lt (by omega) (by omega)]
    simp

/-- Loop invariant of the subtractor: with `c` the pending borrow
`borrow XOR (temp1 AND temp2)`, the quantity `out + b + 2 - a - 2^k c` over the low
`k` bits stays what it was after the code before the loop, called `q` here. -/
theorem int_sub_loop (output input1 input2 width : Nat) (m0 : Nat → Bool)
    (h1 : NoClobber input1 output width) (h2 : NoClobber input2 output width)
    (count : Nat) (hcount : 1 + count ≤ width)
    (st : Engine Bool Unit × Bool × Bool × Bool) (q : Nat)
    (hframe : ∀ x, (x < output ∨ output + 1 ≤ x) → st.1.memory x = m0 x)
    (hsum : decode st.1.memory output 1 + decode m0 input2 1 + 2 =
      decode m0 input1 1 + 2 ^ 1 * (xor st.2.1 (st.2.2.1 && st.2.2.2)).toNat + q) :
    let r := forLoop (int_sub_body Plaintext output input1 input2) count 1 st
    (∀ x, (x < output ∨ output + (1 + count) ≤ x) → r.1.memory x = m0 x) ∧
      decode r.1.memory output (1 + count) + decode m0 input2 (1 + count) + 2 =
        decode m0 input1 (1 + count) +
          2 ^ (1 + count) * (xor r.2.1 (r.2.2.1 && r.2.2.2)).toNat + q := by
  have key := forLoop_induction (int_sub_body Plaintext output input1 input2)
    (fun k t => (∀ x, (x < output ∨ output + k ≤ x) → t.1.memory x = m0 x) ∧
      decode t.1.memory output k + decode m0 input2 k + 2 =
        decode m0 input1 k + 2 ^ k * (xor t.2.1 (t.2.2.1 && t.2.2.2)).toNat + q)
    count 1 st ⟨hframe, hsum⟩ ?_
  · exact key
  · rintro j ⟨e1, c, t1, t2⟩ hj1 hj2 ⟨hf, hs⟩
    simp only at hf hs
    have ha : e1.memory (input1 + j) = m0 (input1 + j) := by
      apply hf; unfold NoClobber at h1; omega
    have hb : e1.memory (input2 + j) = m0 (input2 + j) := by
      apply hf; unfold NoClobber at h2; omega
    simp only [int_sub_body, Engine.call, Engine.callTo, Plaintext_op_and, Plaintext_op_xor,
      ha, hb]
    refine ⟨?_, ?_⟩
    · intro x hx
      rw [write_other _ _ _ _ (by omega)]
      exact hf x (by omega)
    · rw [decode_write_top]
      simp only [decode]
      have hp : 2 ^ (j + 1) = 2 * 2 ^ j := by ring
      rw [hp]
      generalize 2 ^ j = p at hs ⊢
      generalize decode e1.memory output j = d at hs ⊢
      generalize decode m0 input1 j = da at hs ⊢
      generalize decode m0 input2 j = db at hs ⊢
      cases m0 (input1 + j) <;> cases m0 (input2 + j) <;> cases c <;> cases t1 <;> cases t2 <;>
        simp at hs ⊢ <;> omega

/-- The value the subtractor leaves on the plaintext backend: with `a`, `b` the
operand values, `out + b + 2 = a + 2^width c + q` for a borrow bit `c`, where `q`
is 2 when bit 0 of `b` is 0, and otherwise 4 or 0 as bit 0 of `a` is 0 or 1. -/
theorem int_sub_value (phys : PackedPhysInstruction) (e : Engine Bool Unit)
    (hw : 1 ≤ phys.two_args.width)
    (h1 : NoClobber phys.two_args.input1 phys.header.output phys.two_args.width)
    (h2 : NoClobber phys.two_args.input2 phys.header.output phys.two_args.width) :
    ∃ c : Nat, c ≤ 1 ∧
      decode (execute_int_sub Plaintext phys e).memory phys.header.output
          phys.two_args.width + decode e.memory phys.two_args.input2 phys.two_args.width + 2 =
        decode e.memory phys.two_args.input1 phys.two_args.width +
          2 ^ phys.two_args.width * c +
          (if e.memory (phys.two_args.input2 + 0)
            then (if e.memory (phys.two_args.input1 + 0) then 0 else 4) else 2) := by
  unfold execute_int_sub
  simp only [Engine.call, Engine.callTo, Plaintext_zero, Plaintext_op_copy, Plaintext_op_xor]
  generalize hcnt : phys.two_args.width - 1 = n
  have hn : phys.two_args.width = 1 + n := by omega
  generalize hr : forLoop _ _ _ _ = r
  have hloop := int_sub_loop phys.header.output phys.two_args.input1 phys.two_args.input2
    phys.two_args.width e.memory h1 h2 n (by omega)
    ({ protocol := e.protocol, memory := write e.memory (phys.header.output + 0)
        (xor (e.memory (phys.two_args.input1 + 0)) (e.memory (phys.two_args.input2 + 0))) },
      false, e.memory (phys.two_args.input1 + 0), e.memory (phys.two_args.input2 + 0))
    (if e.memory (phys.two_args.input2 + 0)
      then (if e.memory (phys.two_args.input1 + 0) then 0 else 4) else 2)
    (fun x hx => write_other _ _ _ _ (by omega))
    (by
      simp only [decode, Nat.add_zero, write_same]
      rcases Bool.eq_false_or_eq_true (e.memory phys.two_args.input1) with ha | ha <;>
        rcases Bool.eq_false_or_eq_true (e.memory phys.two_args.input2) with hb | hb <;>
        simp [ha, hb])
  rw [hr] at hloop
  refine ⟨(xor r.2.1 (r.2.2.1 && r.2.2.2)).toNat, ?_, ?_⟩
  · cases (xor r.2.1 (r.2.2.1 && r.2.2.2)) <;> simp
  · rw [hn]
    exact hloop.2

/-- C28. Exact domain of IntSub on the plaintext backend: for `width ≥ 1` and
operand ranges that do not overlap the output range, the result of
`execute_int_sub` equals `(a - b) mod 2^width` if and only if `width = 1` or bit 0
of `b` is 0; when `width ≥ 2` and `b` is odd, bit 1 of the result is the complement
of bit 1 of `(a - b) mod 2^width`. -/
theorem execute_int_sub_exact_domain (phys : PackedPhysInstruction) (e : Engine Bool Unit)
    (hw : 1 ≤ phys.two_args.width)
    (h1 : NoOverlap phys.two_args.input1 phys.header.output phys.two_args.width)
    (h2 : NoOverlap phys.two_args.input2 phys.header.output phys.two_args.width) :
    (decode (execute_int_sub Plaintext phys e).memory phys.header.output phys.two_args.width =
        subMod (decode e.memory phys.two_args.input1 phys.two_args.width)
          (decode e.memory phys.two_args.input2 phys.two_args.width) phys.two_args.width ↔
      (phys.two_args.width = 1 ∨
        (decode e.memory phys.two_args.input2 phys.two_args.width).testBit 0 = false)) ∧
    (2 ≤ phys.two_args.width →
      (decode e.memory phys.two_args.input2 phys.two_args.width).testBit 0 = true →
      (decode (execute_int_sub Plaintext phys e).memory phys.header.output
          phys.two_args.width).testBit 1 =
        !(subMod (decode e.memory phys.two_args.input1 phys.two_args.width)
          (decode e.memory phys.two_args.input2 phys.two_args.width)
          phys.two_args.width).testBit 1) := by
  obtain ⟨c, hc, hv⟩ := int_sub_value phys e hw h1.noClobber h2.noClobber
  have hA := decode_lt e.memory phys.two_args.input1 phys.two_args.width
  have hB := decode_lt e.memory phys.two_args.input2 phys.two_args.width
  have hD := decode_lt (execute_int_sub Plaintext phys e).memory phys.header.output
    phys.two_args.width
  have hb0 : (decode e.memory phys.two_args.input2 phys.two_args.width).testBit 0 =
      e.memory (phys.two_args.input2 + 0) := by
    rw [testBit_decode]
    simp [show 0 < phys.two_args.width from hw]
  rw [hb0, subMod_eq _ _ _ hA hB]
  simp only [Nat.testBit_to_div_mod]
  generalize decode (execute_int_sub Plaintext phys e).memory phys.header.output
    phys.two_args.width = D at hv hD ⊢
  generalize decode e.memory phys.two_args.input1 phys.two_args.width = A at hv hA ⊢
  generalize decode e.memory phys.two_args.input2 phys.two_args.width = B at hv hB ⊢
  have hc01 : c = 0 ∨ c = 1 := by omega
  by_cases hw1 : phys.two_args.width = 1
  · have hp : 2 ^ phys.two_args.width = 2 := by rw [hw1]; rfl
    rw [hp] at hv hA hB hD ⊢
    refine ⟨?_, fun h2w => absurd hw1 (by omega)⟩
    simp only [hw1, true_or, iff_true]
    rcases hc01 with h | h <;> subst h <;>
      rcases Bool.eq_false_or_eq_true (e.memory (phys.two_args.input1 + 0)) with ha | ha <;>
      rcases Bool.eq_false_or_eq_true (e.memory (phys.two_args.input2 + 0)) with hb | hb <;>
      simp only [ha, hb, if_true, if_false, Bool.false_eq_true] at hv <;>
      split <;> omega
  · obtain ⟨p, hp⟩ : ∃ p, 2 ^ phys.two_args.width = 4 * p := by
      obtain ⟨k, hk⟩ : ∃ k, phys.two_args.width = k + 2 :=
        ⟨phys.two_args.width - 2, by omega⟩
      exact ⟨2 ^ k, by rw [hk, pow_add]; ring⟩
    rw [hp] at hv hA hB hD ⊢
    simp only [hw1, false_or]
    rcases hc01 with h | h <;> subst h <;>
      rcases Bool.eq_false_or_eq_true (e.memory (phys.two_args.input1 + 0)) with ha | ha <;>
      rcases Bool.eq_false_or_eq_true (e.memory (phys.two_args.input2 + 0)) with hb | hb <;>
      simp only [ha, hb, if_true, if_false, Bool.false_eq_true] at hv ⊢ <;>
      (refine ⟨?_, ?_⟩
       · split <;> simp <;> omega
       · intro _ hodd
         first
           | exact hodd.elim
           | (split <;> simp <;> rw [← decide_not, decide_eq_decide] <;> omega))

/-- With `width = 8`, `a = 5` at wires 0..7, `b = 3` (odd) at wires 8..15 and the
output at wires 16..23: the result differs from `(5 - 3) mod 2^8 = 2`, and its
bit 1 is 0 where bit 1 of 2 is 1. -/
theorem execute_int_sub_exact_domain_witness :
    1 ≤ (mkTwoArgs OpCode.IntSub 16 0 8 8).two_args.width ∧
    NoOverlap 0 16 8 ∧ NoOverlap 8 16 8 ∧
    decode (execute_int_sub Plaintext (mkTwoArgs OpCode.IntSub 16 0 8 8)
        (plainEngine (memoryOf 8 0 5 8 3))).memory 16 8 ≠
      subMod (decode (plainEngine (memoryOf 8 0 5 8 3)).memory 0 8)
        (decode (plainEngine (memoryOf 8 0 5 8 3)).memory 8 8) 8 ∧
    (decode (execute_int_sub Plaintext (mkTwoArgs OpCode.IntSub 16 0 8 8)
        (plainEngine (memoryOf 8 0 5 8 3))).memory 16 8).testBit 1 = false := by
  have h := execute_int_sub_exact_domain (mkTwoArgs OpCode.IntSub 16 0 8 8)
    (plainEngine (memoryOf 8 0 5 8 3)) (by decide) (by decide) (by decide)
  refine ⟨by decide, by decide, by decide, ?_, ?_⟩
  · intro heq
    rcases h.1.mp heq with h1 | h1
    · exact absurd h1 (by decide)
    · exact absurd h1 (by decide)
  · exact (h.2 (by decide) (by decide)).trans (by decide)

/-! ## The frame of every handler -/

section Frame

variable {Wire State : Type}

/-- A loop none of whose iterations changes the wire at `x` leaves that wire as
it was; the loop state is the engine alone. -/
theorem forLoop_frame0 (body : Nat → Engine Wire State → Engine Wire State) (x : Nat)
    (count start : Nat) (s : Engine Wire State)
    (hbody : ∀ j t, start ≤ j → j < start + count → (body j t).memory x = t.memory x) :
    (forLoop body count start s).memory x = s.memory x :=
  forLoop_induction body (fun _ t => t.memory x = s.memory x) count start s rfl
    (fun j t h1 h2 h => (hbody j t h1 h2).trans h)

/-- A loop none of whose iterations changes the wire at `x` leaves that wire as
it was; the loop state is the engine and stack wires. -/
theorem forLoop_frame1 {α : Type} (body : Nat → Engine Wire State × α → Engine Wire State × α)
    (x : Nat) (count start : Nat) (s : Engine Wire State × α)
    (hbody : ∀ j t, start ≤ j → j < start + count → (body j t).1.memory x = t.1.memory x) :
    (forLoop body count start s).1.memory x = s.1.memory x :=
  forLoop_induction body (fun _ t => t.1.memory x = s.1.memory x) count start s rfl
    (fun j t h1 h2 h => (hbody j t h1 h2).trans h)

theorem execute_public_constant_frame (P : Protocol Wire State) (phys : PackedPhysInstruction)
    (e : Engine Wire State) (x : Nat)
    (hx : x < phys.header.output ∨ phys.header.output + phys.constant.width ≤ x) :
    (execute_public_constant P phys e).memory x = e.memory x := by
  unfold execute_public_constant
  exact forLoop_frame1 _ x _ 0 _ (by
    rintro j ⟨e1, c⟩ _ hj
    simp only [public_constant_body, Engine.callTo]
    split <;> exact write_other _ _ _ _ (by omega))

theorem execute_int_add_frame (P : Protocol Wire State) (phys : PackedPhysInstruction)
    (e : Engine Wire State) (hw : 1 ≤ phys.two_args.width) (x : Nat)
    (hx : x < phys.header.output ∨ phys.header.output + phys.two_args.width ≤ x) :
    (execute_int_add P phys e).memory x = e.memory x := by
  unfold execute_int_add
  simp only [Engine.call, Engine.callTo]
  rw [forLoop_frame1 _ x _ 1 _ (by
    rintro j ⟨e1, c, t1, t2⟩ _ hj
    simp only [int_add_body, Engine.call, Engine.callTo]
    exact write_other _ _ _ _ (by omega))]
  exact write_other _ _ _ _ (by omega)

theorem execute_int_sub_frame (P : Protocol Wire State) (phys : PackedPhysInstruction)
    (e : Engine Wire State) (hw : 1 ≤ phys.two_args.width) (x : Nat)
    (hx : x < phys.header.output ∨ phys.header.output + phys.two_args.width ≤ x) :
    (execute_int_sub P phys e).memory x = e.memory x := by
  unfold execute_int_sub
  simp only [Engine.call, Engine.callTo]
  rw [forLoop_frame1 _ x _ 1 _ (by
    rintro j ⟨e1, c, t1, t2⟩ _ hj
    simp only [int_sub_body, Engine.call, Engine.callTo]
    exact write_other _ _ _ _ (by omega))]
  exact write_other _ _ _ _ (by omega)

theorem execute_int_increment_frame (P : Protocol Wire State) (phys : PackedPhysInstruction)
    (e : Engine Wire State) (hw : 1 ≤ phys.one_arg.width) (x : Nat)
    (hx : x < phys.header.output ∨ phys.header.output + phys.one_arg.width ≤ x) :
    (execute_int_increment P phys e).memory x = e.memory x := by
  unfold execute_int_increment
  simp only [Engine.call, Engine.callTo]
  have h0 : x ≠ phys.header.output + 0 := by omega
  have h1 : x ≠ phys.header.output + (phys.one_arg.width - 1) := by omega
  split
  · exact write_other _ _ _ _ h0
  · dsimp only
    rw [write_other _ _ _ _ h1,
      forLoop_frame1 _ x _ 1 _ (by
        rintro j ⟨e1, c⟩ _ hj
        simp only [int_increment_body, Engine.call, Engine.callTo]
        exact write_other _ _ _ _ (by omega))]
    exact write_other _ _ _ _ h0

theorem execute_int_decrement_frame (P : Protocol Wire State) (phys : PackedPhysInstruction)
    (e : Engine Wire State) (hw : 1 ≤ phys.one_arg.width) (x : Nat)
    (hx : x < phys.header.output ∨ phys.header.output + phys.one_arg.width ≤ x) :
    (execute_int_decrement P phys e).memory x = e.memory x := by
  unfold execute_int_decrement
  simp only [Engine.call, Engine.callTo]
  have h0 : x ≠ phys.header.output + 0 := by omega
  have h1 : x ≠ phys.header.output + (phys.one_arg.width - 1) := by omega
  split
  · exact write_other _ _ _ _ h0
  · dsimp only
    rw [write_other _ _ _ _ h1,
      forLoop_frame1 _ x _ 1 _ (by
        rintro j ⟨e1, c⟩ _ hj
        simp only [int_decrement_body, Engine.call, Engine.callTo]
        exact write_other _ _ _ _ (by omega))]
    exact write_other _ _ _ _ h0

theorem execute_int_less_frame (P : Protocol Wire State) (phys : PackedPhysInstruction)
    (e : Engine Wire State) (x : Nat) (hx : x ≠ phys.header.output) :
    (execute_int_less P phys e).memory x = e.memory x := by
  unfold execute_int_less
  simp only [Engine.call, Engine.callTo]
  rw [write_other _ _ _ _ hx,
    forLoop_frame1 _ x _ 1 _ (by
      rintro j ⟨e1, c⟩ _ hj
      simp only [int_less_body, Engine.call])]

theorem execute_equal_frame (P : Protocol Wire State) (phys : PackedPhysInstruction)
    (e : Engine Wire State) (x : Nat) (hx : x ≠ phys.header.output) :
    (execute_equal P phys e).memory x = e.memory x := by
  unfold execute_equal
  simp only [Engine.call, Engine.callTo]
  rw [write_other _ _ _ _ hx,
    forLoop_frame1 _ x _ 1 _ (by
      rintro j ⟨e1, c⟩ _ hj
      simp only [equal_body, Engine.call])]

theorem execute_is_zero_frame (P : Protocol Wire State) (phys : PackedPhysInstruction)
    (e : Engine Wire State) (x : Nat) (hx : x ≠ phys.header.output) :
    (execute_is_zero P phys e).memory x = e.memory x := by
  unfold execute_is_zero
  simp only [Engine.call, Engine.callTo]
  rw [write_other _ _ _ _ hx,
    forLoop_frame1 _ x _ 0 _ (by
      rintro j ⟨e1, c⟩ _ hj
      simp only [is_zero_body, Engine.call])]

theorem execute_non_zero_frame (P : Protocol Wire State) (phys : PackedPhysInstruction)
    (e : Engine Wire State) (x : Nat) (hx : x ≠ phys.header.output) :
    (execute_non_zero P phys e).memory x = e.memory x := by
  unfold execute_non_zero
  simp only [Engine.call, Engine.callTo]
  rw [write_other _ _ _ _ hx,
    forLoop_frame1 _ x _ 0 _ (by
      rintro j ⟨e1, c⟩ _ hj
      simp only [is_zero_body, Engine.call])]

theorem execute_bit_not_frame (P : Protocol Wire State) (phys : PackedPhysInstruction)
    (e : Engine Wire State) (x : Nat)
    (hx : x < phys.header.output ∨ phys.header.output + phys.one_arg.width ≤ x) :
    (execute_bit_not P phys e).memory x = e.memory x := by
  unfold execute_bit_not
  exact forLoop_frame0 _ x _ 0 _ (by
    intro j e1 _ hj
    simp only [Engine.callTo]
    exact write_other _ _ _ _ (by omega))

theorem execute_bit_and_frame (P : Protocol Wire State) (phys : PackedPhysInstruction)
    (e : Engine Wire State) (x : Nat)
    (hx : x < phys.header.output ∨ phys.header.output + phys.two_args.width ≤ x) :
    (execute_bit_and P phys e).memory x = e.memory x := by
  unfold execute_bit_and
  exact forLoop_frame0 _ x _ 0 _ (by
    intro j e1 _ hj
    simp only [Engine.callTo]
    exact write_other _ _ _ _ (by omega))

theorem execute_bit_or_frame (P : Protocol Wire State) (phys : PackedPhysInstruction)
    (e : Engine Wire State) (x : Nat)
    (hx : x < phys.header.output ∨ phys.header.output + phys.two_args.width ≤ x) :
    (execute_bit_or P phys e).memory x = e.memory x := by
  unfold execute_bit_or
  exact forLoop_frame0 _ x _ 0 _ (by
    intro j e1 _ hj
    simp only [bit_or_body, Engine.call, Engine.callTo]
    exact write_other _ _ _ _ (by omega))

theorem execute_bit_xor_frame (P : Protocol Wire State) (phys : PackedPhysInstruction)
    (e : Engine Wire State) (x : Nat)
    (hx : x < phys.header.output ∨ phys.header.output + phys.two_args.width ≤ x) :
    (execute_bit_xor P phys e).memory x = e.memory x := by
  unfold execute_bit_xor
  exact forLoop_frame0 _ x _ 0 _ (by
    intro j e1 _ hj
    simp only [Engine.callTo]
    exact write_other _ _ _ _ (by omega))

theorem execute_value_select_frame (P : Protocol Wire State) (phys : PackedPhysInstruction)
    (e : Engine Wire State) (x : Nat)
    (hx : x < phys.header.output ∨ phys.header.output + phys.two_args.width ≤ x) :
    (execute_value_select P phys e).memory x = e.memory x := by
  unfold execute_value_select
  simp only [Engine.call]
  exact forLoop_frame0 _ x _ 0 _ (by
    intro j e1 _ hj
    simp only [value_select_body, Engine.call, Engine.callTo]
    exact write_other _ _ _ _ (by omega))

/-- C30. Frame of every handler, for any backend: an instruction with a known
opcode and width at least 1 runs to completion, and every wire outside its output
range - `[output, output + width)` for PublicConstant, IntAdd, IntSub,
IntIncrement, IntDecrement, BitNOT, BitAND, BitOR, BitXOR and ValueSelect, the
single wire at `output` for IntLess, Equal, IsZero and NonZero - holds afterwards
what it held before, operand wires included.  The width is the one the handler
reads (`widthOf`). -/
theorem execute_frame (P : Protocol Wire State) (phys : PackedPhysInstruction)
    (e : Engine Wire State) (hop : phys.header.operation.isKnown = true)
    (hw : 1 ≤ widthOf phys) :
    ∃ e1, execute P phys e = ExecResult.completed e1 ∧
      ∀ x, (x < phys.header.output ∨ phys.header.output + outputWidth phys ≤ x) →
        e1.memory x = e.memory x := by
  unfold execute
  unfold outputWidth
  unfold widthOf at hw ⊢
  cases hc : phys.header.operation with
  | PublicConstant =>
    rw [hc] at hw
    exact ⟨_, rfl, fun x hx => execute_public_constant_frame P phys e x hx⟩
  | IntAdd =>
    rw [hc] at hw
    exact ⟨_, rfl, fun x hx => execute_int_add_frame P phys e hw x hx⟩
  | IntIncrement =>
    rw [hc] at hw
    exact ⟨_, rfl, fun x hx => execute_int_increment_frame P phys e hw x hx⟩
  | IntSub =>
    rw [hc] at hw
    exact ⟨_, rfl, fun x hx => execute_int_sub_frame P phys e hw x hx⟩
  | IntDecrement =>
    rw [hc] at hw
    exact ⟨_, rfl, fun x hx => execute_int_decrement_frame P phys e hw x hx⟩
  | IntLess =>
    exact ⟨_, rfl, fun x hx => execute_int_less_frame P phys e x (by
      have h : x < phys.header.output ∨ phys.header.output + 1 ≤ x := hx
      omega)⟩
  | Equal =>
    exact ⟨_, rfl, fun x hx => execute_equal_frame P phys e x (by
      have h : x < phys.header.output ∨ phys.header.output + 1 ≤ x := hx
      omega)⟩
  | IsZero =>
    exact ⟨_, rfl, fun x hx => execute_is_zero_frame P phys e x (by
      have h : x < phys.header.output ∨ phys.header.output + 1 ≤ x := hx
      omega)⟩
  | NonZero =>
    exact ⟨_, rfl, fun x hx => execute_non_zero_frame P phys e x (by
      have h : x < phys.header.output ∨ phys.header.output + 1 ≤ x := hx
      omega)⟩
  | BitNOT =>
    exact ⟨_, rfl, fun x hx => execute_bit_not_frame P phys e x hx⟩
  | BitAND =>
    exact ⟨_, rfl, fun x hx => execute_bit_and_frame P phys e x hx⟩
  | BitOR =>
    exact ⟨_, rfl, fun x hx => execute_bit_or_frame P phys e x hx⟩
  | BitXOR =>
    exact ⟨_, rfl, fun x hx => execute_bit_xor_frame P phys e x hx⟩
  | ValueSelect =>
    exact ⟨_, rfl, fun x hx => execute_value_select_frame P phys e x hx⟩
  | Unknown c =>
    rw [hc] at hop
    exact absurd hop (by simp [OpCode.isKnown])

end Frame

/-- IntAdd of `5` (wires 0..7) and `3` (wires 8..15) into wires 16..23 on the
plaintext backend: the instruction completes and the operand wire 0 (bit 0 of
`5`) and wire 24 (just above the output range) are unchanged. -/
theorem execute_frame_witness :
    (mkTwoArgs OpCode.IntAdd 16 0 8 8).header.operation.isKnown = true ∧
    1 ≤ widthOf (mkTwoArgs OpCode.IntAdd 16 0 8 8) ∧
    ∃ e1, execute Plaintext (mkTwoArgs OpCode.IntAdd 16 0 8 8)
        (plainEngine (memoryOf 8 0 5 8 3)) = ExecResult.completed e1 ∧
      e1.memory 0 = true ∧ e1.memory 24 = false := by
  obtain ⟨e1, h1, h2⟩ := execute_frame Plaintext (mkTwoArgs OpCode.IntAdd 16 0 8 8)
    (plainEngine (memoryOf 8 0 5 8 3)) (by decide) (by decide)
  refine ⟨by decide, by decide, e1, h1, ?_, ?_⟩
  · rw [h2 0 (Or.inl (by decide))]; decide
  · rw [h2 24 (Or.inr (by decide))]; decide

/-! ## The fixed gate sequence of every handler -/

section GateSequence

variable {Wire State : Type}

@[simp] theorem traced_zero_log (P : Protocol Wire State) (s : State × List GateKind) :
    ((traced P).zero s).2.2 = s.2 ++ [GateKind.zero] := rfl

@[simp] theorem traced_one_log (P : Protocol Wire State) (s : State × List GateKind) :
    ((traced P).one s).2.2 = s.2 ++ [GateKind.one] := rfl

@[simp] theorem traced_op_copy_log (P : Protocol Wire State) (a : Wire)
    (s : State × List GateKind) :
    ((traced P).op_copy a s).2.2 = s.2 ++ [GateKind.op_copy] := rfl

@[simp] theorem traced_op_not_log (P : Protocol Wire State) (a : Wire)
    (s : State × List GateKind) :
    ((traced P).op_not a s).2.2 = s.2 ++ [GateKind.op_not] := rfl

@[simp] theorem traced_op_xor_log (P : Protocol Wire State) (a b : Wire)
    (s : State × List GateKind) :
    ((traced P).op_xor a b s).2.2 = s.2 ++ [GateKind.op_xor] := rfl

@[simp] theorem traced_op_xnor_log (P : Protocol Wire State) (a b : Wire)
    (s : State × List GateKind) :
    ((traced P).op_xnor a b s).2.2 = s.2 ++ [GateKind.op_xnor] := rfl

@[simp] theorem traced_op_and_log (P : Protocol Wire State) (a b : Wire)
    (s : State × List GateKind) :
    ((traced P).op_and a b s).2.2 = s.2 ++ [GateKind.op_and] := rfl

/-- A loop each of whose iterations appends the gate kinds `l` to the log appends
`count` copies of `l`; the loop state is the engine alone. -/
theorem forLoop_log0 (body : Nat → Engine Wire (State × List GateKind) →
      Engine Wire (State × List GateKind)) (l : List GateKind)
    (hbody : ∀ j t, (body j t).protocol.2 = t.protocol.2 ++ l) :
    ∀ (count start : Nat) (s : Engine Wire (State × List GateKind)),
      (forLoop body count start s).protocol.2 = s.protocol.2 ++ repeatSeq count l := by
  intro count
  induction count with
  | zero => intro start s; simp [forLoop, repeatSeq]
  | succ n ih =>
    intro start s
    simp only [forLoop, repeatSeq]
    rw [ih, hbody, List.append_assoc]

/-- A loop each of whose iterations appends the gate kinds `l` to the log appends
`count` copies of `l`; the loop state is the engine and stack wires. -/
theorem forLoop_log1 {α : Type} (body : Nat → Engine Wire (State × List GateKind) × α →
      Engine Wire (State × List GateKind) × α) (l : List GateKind)
    (hbody : ∀ j t, (body j t).1.protocol.2 = t.1.protocol.2 ++ l) :
    ∀ (count start : Nat) (s : Engine Wire (State × List GateKind) × α),
      (forLoop body count start s).1.protocol.2 = s.1.protocol.2 ++ repeatSeq count l := by
  intro count
  induction count with
  | zero => intro start s; simp [forLoop, repeatSeq]
  | succ n ih =>
    intro start s
    simp only [forLoop, repeatSeq]
    rw [ih, hbody, List.append_assoc]

theorem count_repeatSeq (k : GateKind) (l : List GateKind) :
    ∀ n, (repeatSeq n l).count k = n * l.count k := by
  intro n
  induction n with
  | zero => simp [repeatSeq]
  | succ n ih =>
    simp only [repeatSeq, List.count_append, ih]
    ring

theorem count_constantSeq : ∀ (width constant : Nat),
    (constantSeq constant width).count GateKind.op_and = 0 := by
  intro width
  induction width with
  | zero => intro constant; simp [constantSeq]
  | succ n ih =>
    intro constant
    simp only [constantSeq]
    split <;> simp [ih]

theorem public_constant_log (P : Protocol Wire State) (output : Nat) :
    ∀ (width start constant : Nat) (e : Engine Wire (State × List GateKind)),
      (forLoop (public_constant_body (traced P) output) width start (e, constant)).1.protocol.2 =
        e.protocol.2 ++ constantSeq constant width := by
  intro width
  induction width with
  | zero => intro start constant e; simp [forLoop, constantSeq]
  | succ n ih =>
    intro start constant e
    simp only [forLoop, constantSeq]
    have hb : public_constant_body (traced P) output start (e, constant) =
        ((public_constant_body (traced P) output start (e, constant)).1, constant / 2) := rfl
    rw [hb, ih]
    simp only [public_constant_body, Engine.callTo]
    split <;> simp

theorem execute_public_constant_log (P : Protocol Wire State) (phys : PackedPhysInstruction)
    (e : Engine Wire (State × List GateKind)) :
    (execute_public_constant (traced P) phys e).protocol.2 =
      e.protocol.2 ++ constantSeq phys.constant.constant phys.constant.width := by
  unfold execute_public_constant
  exact public_constant_log P _ _ _ _ _

theorem execute_int_add_log (P : Protocol Wire State) (phys : PackedPhysInstruction)
    (e : Engine Wire (State × List GateKind)) :
    (execute_int_add (traced P) phys e).protocol.2 =
      e.protocol.2 ++ ([GateKind.zero, GateKind.op_copy, GateKind.op_copy, GateKind.op_xor] ++
        repeatSeq (phys.two_args.width - 1)
          [GateKind.op_and, GateKind.op_xor, GateKind.op_xor, GateKind.op_xor,
            GateKind.op_xor]) := by
  unfold execute_int_add
  simp only [Engine.call, Engine.callTo]
  rw [forLoop_log1 _ [GateKind.op_and, GateKind.op_xor, GateKind.op_xor, GateKind.op_xor,
    GateKind.op_xor] (by
      rintro j ⟨e1, c, t1, t2⟩
      simp [int_add_body, Engine.call, Engine.callTo])]
  simp

theorem execute_int_sub_log (P : Protocol Wire State) (phys : PackedPhysInstruction)
    (e : Engine Wire (State × List GateKind)) :
    (execute_int_sub (traced P) phys e).protocol.2 =
      e.protocol.2 ++ ([GateKind.zero, GateKind.op_copy, GateKind.op_copy, GateKind.op_xor] ++
        repeatSeq (phys.two_args.width - 1)
          [GateKind.op_and, GateKind.op_xor, GateKind.op_xor, GateKind.op_xor,
            GateKind.op_xor]) := by
  unfold execute_int_sub
  simp only [Engine.call, Engine.callTo]
  rw [forLoop_log1 _ [GateKind.op_and, GateKind.op_xor, GateKind.op_xor, GateKind.op_xor,
    GateKind.op_xor] (by
      rintro j ⟨e1, c, t1, t2⟩
      simp [int_sub_body, Engine.call, Engine.callTo])]
  simp

theorem execute_int_increment_log (P : Protocol Wire State) (phys : PackedPhysInstruction)
    (e : Engine Wire (State × List GateKind)) :
    (execute_int_increment (traced P) phys e).protocol.2 =
      e.protocol.2 ++ ([GateKind.op_not, GateKind.op_copy] ++
        (if phys.one_arg.width = 1 then []
          else repeatSeq (phys.one_arg.width - 1 - 1) [GateKind.op_xor, GateKind.op_and] ++
            [GateKind.op_xor])) := by
  unfold execute_int_increment
  simp only [Engine.call, Engine.callTo]
  split
  · simp
  · dsimp only
    rw [traced_op_xor_log, forLoop_log1 _ [GateKind.op_xor, GateKind.op_and] (by
      rintro j ⟨e1, c⟩
      simp [int_increment_body, Engine.call, Engine.callTo])]
    simp

theorem execute_int_decrement_log (P : Protocol Wire State) (phys : PackedPhysInstruction)
    (e : Engine Wire (State × List GateKind)) :
    (execute_int_decrement (traced P) phys e).protocol.2 =
      e.protocol.2 ++ ([GateKind.op_not, GateKind.op_copy] ++
        (if phys.one_arg.width = 1 then []
          else repeatSeq (phys.one_arg.width - 1 - 1) [GateKind.op_xor, GateKind.op_and] ++
            [GateKind.op_xor])) := by
  unfold execute_int_decrement
  simp only [Engine.call, Engine.callTo]
  split
  · simp
  · dsimp only
    rw [traced_op_xor_log, forLoop_log1 _ [GateKind.op_xor, GateKind.op_and] (by
      rintro j ⟨e1, c⟩
      simp [int_decrement_body, Engine.call, Engine.callTo])]
    simp

theorem execute_int_less_log (P : Protocol Wire State) (phys : PackedPhysInstruction)
    (e : Engine Wire (State × List GateKind)) :
    (execute_int_less (traced P) phys e).protocol.2 =
      e.protocol.2 ++ ([GateKind.op_xor, GateKind.op_and] ++
        repeatSeq (phys.two_args.width - 1)
          [GateKind.op_xor, GateKind.op_xor, GateKind.op_and, GateKind.op_xor] ++
        [GateKind.op_copy]) := by
  unfold execute_int_less
  simp only [Engine.call, Engine.callTo]
  rw [traced_op_copy_log, forLoop_log1 _
    [GateKind.op_xor, GateKind.op_xor, GateKind.op_and, GateKind.op_xor] (by
      rintro j ⟨e1, c⟩
      simp [int_less_body, Engine.call])]
  simp

theorem execute_equal_log (P : Protocol Wire State) (phys : PackedPhysInstruction)
    (e : Engine Wire (State × List GateKind)) :
    (execute_equal (traced P) phys e).protocol.2 =
      e.protocol.2 ++ ([GateKind.op_xnor] ++
        repeatSeq (phys.two_args.width - 1) [GateKind.op_xnor, GateKind.op_and] ++
        [GateKind.op_copy]) := by
  unfold execute_equal
  simp only [Engine.call, Engine.callTo]
  rw [traced_op_copy_log, forLoop_log1 _ [GateKind.op_xnor, GateKind.op_and] (by
      rintro j ⟨e1, c⟩
      simp [equal_body, Engine.call])]
  simp

theorem execute_is_zero_log (P : Protocol Wire State) (phys : PackedPhysInstruction)
    (e : Engine Wire (State × List GateKind)) :
    (execute_is_zero (traced P) phys e).protocol.2 =
      e.protocol.2 ++ ([GateKind.op_copy] ++
        repeatSeq phys.one_arg.width [GateKind.op_not, GateKind.op_and] ++
        [GateKind.op_copy]) := by
  unfold execute_is_zero
  simp only [Engine.call, Engine.callTo]
  rw [traced_op_copy_log, forLoop_log1 _ [GateKind.op_not, GateKind.op_and] (by
      rintro j ⟨e1, c⟩
      simp [is_zero_body, Engine.call])]
  simp

theorem execute_non_zero_log (P : Protocol Wire State) (phys : PackedPhysInstruction)
    (e : Engine Wire (State × List GateKind)) :
    (execute_non_zero (traced P) phys e).protocol.2 =
      e.protocol.2 ++ ([GateKind.op_copy] ++
        repeatSeq phys.one_arg.width [GateKind.op_not, GateKind.op_and] ++
        [GateKind.op_not]) := by
  unfold execute_non_zero
  simp only [Engine.call, Engine.callTo]
  rw [traced_op_not_log, forLoop_log1 _ [GateKind.op_not, GateKind.op_and] (by
      rintro j ⟨e1, c⟩
      simp [is_zero_body, Engine.call])]
  simp

theorem execute_bit_not_log (P : Protocol Wire State) (phys : PackedPhysInstruction)
    (e : Engine Wire (State × List GateKind)) :
    (execute_bit_not (traced P) phys e).protocol.2 =
      e.protocol.2 ++ repeatSeq phys.one_arg.width [GateKind.op_not] := by
  unfold execute_bit_not
  exact forLoop_log0 _ _ (by intro j t; simp [Engine.callTo]) _ _ _

theorem execute_bit_and_log (P : Protocol Wire State) (phys : PackedPhysInstruction)
    (e : Engine Wire (State × List GateKind)) :
    (execute_bit_and (traced P) phys e).protocol.2 =
      e.protocol.2 ++ repeatSeq phys.two_args.width [GateKind.op_and] := by
  unfold execute_bit_and
  exact forLoop_log0 _ _ (by intro j t; simp [Engine.callTo]) _ _ _

theorem execute_bit_or_log (P : Protocol Wire State) (phys : PackedPhysInstruction)
    (e : Engine Wire (State × List GateKind)) :
    (execute_bit_or (traced P) phys e).protocol.2 =
      e.protocol.2 ++
        repeatSeq phys.two_args.width [GateKind.op_xor, GateKind.op_and, GateKind.op_xor] := by
  unfold execute_bit_or
  exact forLoop_log0 _ _ (by intro j t; simp [bit_or_body, Engine.call, Engine.callTo]) _ _ _

theorem execute_bit_xor_log (P : Protocol Wire State) (phys : PackedPhysInstruction)
    (e : Engine Wire (State × List GateKind)) :
    (execute_bit_xor (traced P) phys e).protocol.2 =
      e.protocol.2 ++ repeatSeq phys.two_args.width [GateKind.op_xor] := by
  unfold execute_bit_xor
  exact forLoop_log0 _ _ (by intro j t; simp [Engine.callTo]) _ _ _

theorem execute_value_select_log (P : Protocol Wire State) (phys : PackedPhysInstruction)
    (e : Engine Wire (State × List GateKind)) :
    (execute_value_select (traced P) phys e).protocol.2 =
      e.protocol.2 ++ ([GateKind.op_copy] ++
        repeatSeq phys.two_args.width [GateKind.op_xor, GateKind.op_and, GateKind.op_xor]) := by
  unfold execute_value_select
  simp only [Engine.call]
  rw [forLoop_log0 _ [GateKind.op_xor, GateKind.op_and, GateKind.op_xor] (by
    intro j t; simp [value_select_body, Engine.call, Engine.callTo])]
  simp

/-- The log after an instruction with a known opcode: the log before it followed
by the gate sequence of the instruction. -/
theorem execute_log (P : Protocol Wire State) (phys : PackedPhysInstruction)
    (e : Engine Wire (State × List GateKind)) (hop : phys.header.operation.isKnown = true) :
    ∃ e1, execute (traced P) phys e = ExecResult.completed e1 ∧
      e1.protocol.2 = e.protocol.2 ++ gateSequence phys := by
  unfold execute gateSequence
  cases hc : phys.header.operation with
  | PublicConstant => exact ⟨_, rfl, execute_public_constant_log P phys e⟩
  | IntAdd => exact ⟨_, rfl, execute_int_add_log P phys e⟩
  | IntIncrement => exact ⟨_, rfl, execute_int_increment_log P phys e⟩
  | IntSub => exact ⟨_, rfl, execute_int_sub_log P phys e⟩
  | IntDecrement => exact ⟨_, rfl, execute_int_decrement_log P phys e⟩
  | IntLess => exact ⟨_, rfl, execute_int_less_log P phys e⟩
  | Equal => exact ⟨_, rfl, execute_equal_log P phys e⟩
  | IsZero => exact ⟨_, rfl, execute_is_zero_log P phys e⟩
  | NonZero => exact ⟨_, rfl, execute_non_zero_log P phys e⟩
  | BitNOT => exact ⟨_, rfl, execute_bit_not_log P phys e⟩
  | BitAND => exact ⟨_, rfl, execute_bit_and_log P phys e⟩
  | BitOR => exact ⟨_, rfl, execute_bit_or_log P phys e⟩
  | BitXOR => exact ⟨_, rfl, execute_bit_xor_log P phys e⟩
  | ValueSelect => exact ⟨_, rfl, execute_value_select_log P phys e⟩
  | Unknown c =>
    rw [hc] at hop
    exact absurd hop (by simp [OpCode.isKnown])

/-- The number of `op_and` calls in the gate sequence of an instruction of width
at least 1 is the number the specification gives for its opcode. -/
theorem count_gateSequence (phys : PackedPhysInstruction) (hw : 1 ≤ widthOf phys) :
    (gateSequence phys).count GateKind.op_and = andCount phys := by
  unfold gateSequence andCount
  unfold widthOf at hw ⊢
  cases hc : phys.header.operation <;> rw [hc] at hw <;> dsimp only at hw ⊢ <;>
    (try simp only [List.count_append, count_repeatSeq, count_constantSeq]) <;>
    (try split) <;> (try simp [count_repeatSeq]) <;> omega

/-- C26. Fixed gate sequence, for any backend: an instruction with a known opcode
and width at least 1, run from the same backend state on any two wire-memory
contents `m1` and `m2`, completes in both runs and emits the same sequence of
gate kinds, namely `gateSequence phys`, which is a function of the instruction
alone; the number of `op_and` calls in it is `andCount phys`: `width - 1` for
IntAdd, IntSub and Equal, `max (width - 2) 0` for IntIncrement and IntDecrement,
`width` for IntLess, IsZero, NonZero, BitAND, BitOR and ValueSelect, and 0 for
BitNOT, BitXOR and PublicConstant. -/
theorem fixed_gate_sequence (P : Protocol Wire State) (phys : PackedPhysInstruction)
    (s : State) (log : List GateKind) (m1 m2 : Nat → Wire)
    (hop : phys.header.operation.isKnown = true) (hw : 1 ≤ widthOf phys) :
    ∃ e1 e2,
      execute (traced P) phys { protocol := (s, log), memory := m1 } =
        ExecResult.completed e1 ∧
      execute (traced P) phys { protocol := (s, log), memory := m2 } =
        ExecResult.completed e2 ∧
      e1.protocol.2 = log ++ gateSequence phys ∧
      e2.protocol.2 = e1.protocol.2 ∧
      (gateSequence phys).count GateKind.op_and = andCount phys := by
  obtain ⟨e1, h1, h1l⟩ := execute_log P phys { protocol := (s, log), memory := m1 } hop
  obtain ⟨e2, h2, h2l⟩ := execute_log P phys { protocol := (s, log), memory := m2 } hop
  exact ⟨e1, e2, h1, h2, h1l, h2l.trans h1l.symm, count_gateSequence phys hw⟩

end GateSequence

/-- IntLess at width 4 on the plaintext backend, run on the operands `(5, 3)` and
on the operands `(0, 15)`: both runs emit the same 15 gate calls, 4 of them
`op_and`. -/
theorem fixed_gate_sequence_witness :
    (mkTwoArgs OpCode.IntLess 8 0 4 4).header.operation.isKnown = true ∧
    1 ≤ widthOf (mkTwoArgs OpCode.IntLess 8 0 4 4) ∧
    ∃ e1 e2,
      execute (traced Plaintext) (mkTwoArgs OpCode.IntLess 8 0 4 4)
          { protocol := ((), []), memory := memoryOf 4 0 5 4 3 } = ExecResult.completed e1 ∧
      execute (traced Plaintext) (mkTwoArgs OpCode.IntLess 8 0 4 4)
          { protocol := ((), []), memory := memoryOf 4 0 0 4 15 } = ExecResult.completed e2 ∧
      e2.protocol.2 = e1.protocol.2 ∧ e1.protocol.2.length = 15 ∧
      e1.protocol.2.count GateKind.op_and = 4 := by
  obtain ⟨e1, e2, h1, h2, h3, h4, h5⟩ := fixed_gate_sequence Plaintext
    (mkTwoArgs OpCode.IntLess 8 0 4 4) () [] (memoryOf 4 0 5 4 3) (memoryOf 4 0 0 4 15)
    (by decide) (by decide)
  refine ⟨by decide, by decide, e1, e2, h1, h2, h4, ?_, ?_⟩
  · rw [h3]; decide
  · rw [h3]; decide

/-! ## The width slot of ValueSelect -/

/-- With the tails of section 3 overlaid at the same offset and integers stored
least significant byte first, the `two_args` view of a `three_args` tail has the
low 16 bits of `input3` as its width. -/
theorem two_args_width_of_three_args (t : ThreeArgs) (output : Nat) :
    (decodeInstruction ByteOrder.little OpCode.ValueSelect output
      (encodeThreeArgs ByteOrder.little t)).two_args.width = t.input3 % 65536 := by
  simp only [decodeInstruction, encodeThreeArgs, writeUInt, writeLittle, tailField, readUInt,
    List.cons_append, List.nil_append, List.drop_succ_cons, List.drop_zero, List.take_succ_cons,
    List.take_zero, readLittle]
  omega

/-- C27. The width slot of ValueSelect under the tail layouts of section 3: for
the 16-bit instruction `selectTail` (operands at wires 0, 16, 32, output at wire
64) the `three_args` view gives the tail back with width 16 in either byte order,
but the width `execute_value_select` reads through `two_args.width` is 32 when
integers are stored least significant byte first and 0 when most significant byte
first.  On the plaintext backend with `b = 1` and the selector set, the first run
writes wire 80, outside the 16 output wires 64..79, and the second writes no
wire at all, leaving `out[0]` at 0 where `b[0]` is 1. -/
theorem value_select_width_slot :
    (selectInstruction ByteOrder.little).three_args = selectTail ∧
    (selectInstruction ByteOrder.little).two_args.width = 32 ∧
    (selectInstruction ByteOrder.big).three_args = selectTail ∧
    (selectInstruction ByteOrder.big).two_args.width = 0 ∧
    selectMemory 80 = false ∧
    (execute_value_select Plaintext (selectInstruction ByteOrder.little)
      (plainEngine selectMemory)).memory 80 = true ∧
    selectMemory 16 = true ∧ selectMemory 32 = true ∧
    (execute_value_select Plaintext (selectInstruction ByteOrder.big)
      (plainEngine selectMemory)).memory 64 = false := by
  refine ⟨by decide, by decide, by decide, by decide, by decide, by decide, by decide,
    by decide, by decide⟩

/-! ## Cluster network: validation -/

theorem validate_workers_ne_empty :
    ∀ (workers : List Worker) (i : Nat) (message : String),
      validate_workers workers i = some message → message ≠ "" := by
  intro workers
  induction workers with
  | nil => intro i message h; simp [validate_workers] at h
  | cons w rest ih =>
    intro i message h
    simp only [validate_workers] at h
    split at h
    · injection h with h
      subst h
      intro hempty
      have h2 := congrArg String.length hempty
      simp [String.length_append] at h2
      exact absurd h2.1 (by decide)
    · exact ih (i + 1) message h

theorem validate_workers_eq_none :
    ∀ (workers : List Worker) (i : Nat),
      validate_workers workers i = none ↔ ∀ w, w ∈ workers → w.incomplete = false := by
  intro workers
  induction workers with
  | nil => intro i; simp [validate_workers]
  | cons w rest ih =>
    intro i
    simp only [validate_workers]
    split
    · rename_i hw
      simp [hw]
    · rename_i hw
      rw [ih (i + 1)]
      simp [hw]

theorem validate_ne_empty (self_id : Nat) (workers : List Worker) (message : String)
    (h : validate self_id workers = some message) : message ≠ "" := by
  unfold validate at h
  split at h
  · injection h with h
    subst h
    intro hempty
    have h2 := congrArg String.length hempty
    simp [String.length_append] at h2
    exact absurd h2.1.1.1 (by decide)
  · exact validate_workers_ne_empty workers 0 message h

theorem validate_eq_none (self_id : Nat) (workers : List Worker) :
    validate self_id workers = none ↔
      self_id < workers.length ∧ ∀ w, w ∈ workers → w.incomplete = false := by
  unfold validate
  split
  · rename_i h
    constructor
    · intro h2
      exact absurd h2 (by simp)
    · intro h2
      omega
  · rename_i h
    rw [validate_workers_eq_none]
    constructor
    · intro h2; exact ⟨by omega, h2⟩
    · intro h2; exact h2.2

/-- C21. Cluster validation: if `self_id ≥ |workers|`, or some `workers[i]` lacks
`internal_host` or `internal_port`, `establish` returns a non-empty message with
no platform call made (no connect, no accept) and the channel table, like the
rest of the object, unchanged; if neither holds, the validation step returns
nothing and `establish` goes on. -/
theorem establish_validation (env : NetworkEnv) (workers : List Worker) (net : ClusterNetwork) :
    ((net.self_id ≥ workers.length ∨
        ∃ (i : Nat) (w : Worker), workers[i]? = some w ∧
          (w.internal_host = none ∨ w.internal_port = none)) →
      ∃ message, message ≠ "" ∧
        net.establish env workers = Outcome.returned message net []) ∧
    (¬ (net.self_id ≥ workers.length ∨
        ∃ (i : Nat) (w : Worker), workers[i]? = some w ∧
          (w.internal_host = none ∨ w.internal_port = none)) →
      validate net.self_id workers = none) := by
  have hinc : ∀ w : Worker, w.incomplete = true ↔
      (w.internal_host = none ∨ w.internal_port = none) := by
    intro w
    unfold Worker.incomplete
    cases w.internal_host <;> cases w.internal_port <;> simp
  constructor
  · intro h
    cases hv : validate net.self_id workers with
    | none =>
      exfalso
      obtain ⟨h1, h2⟩ := (validate_eq_none _ _).mp hv
      rcases h with h | ⟨i, w, hw, hlack⟩
      · omega
      · have hmem : w ∈ workers := List.mem_iff_getElem?.mpr ⟨i, hw⟩
        have := h2 w hmem
        rw [(hinc w).mpr hlack] at this
        exact absurd this (by decide)
    | some message =>
      refine ⟨message, validate_ne_empty _ _ _ hv, ?_⟩
      unfold ClusterNetwork.establish
      simp only [hv]
  · intro h
    rw [validate_eq_none]
    constructor
    · by_contra hlt
      exact h (Or.inl (by omega))
    · intro w hmem
      obtain ⟨i, hi⟩ := List.mem_iff_getElem?.mp hmem
      cases hw : w.incomplete with
      | false => rfl
      | true => exact absurd (Or.inr ⟨i, w, hi, (hinc w).mp hw⟩) h

/-- Two workers, the second without a port, and `self_id = 0`: `establish` returns
a non-empty message, no platform call is made and the object is unchanged. -/
theorem establish_validation_witness :
    (∃ (i : Nat) (w : Worker), [toyWorker, { internal_host := some "10.0.0.2", internal_port := none }][i]? =
        some w ∧ (w.internal_host = none ∨ w.internal_port = none)) ∧
    ∃ message, message ≠ "" ∧
      ClusterNetwork.establish toyNetworkEnv
        [toyWorker, { internal_host := some "10.0.0.2", internal_port := none }]
        { channels := [3], self_id := 0 } =
      Outcome.returned message { channels := [3], self_id := 0 } [] :=
  ⟨⟨1, _, rfl, Or.inr rfl⟩,
    (establish_validation toyNetworkEnv
      [toyWorker, { internal_host := some "10.0.0.2", internal_port := none }]
      { channels := [3], self_id := 0 }).1 (Or.inr ⟨1, _, rfl, Or.inr rfl⟩)⟩

/-! ## Cluster network: the inbound peer id -/

/-- C22. The inbound peer-id check of the accept loop, at `|workers| = 3` and
`self_id = 1` with socket 5 recorded for worker 0: an inbound connection (socket
9) reporting the peer id 0, which is not above `self_id`, is not discarded, the
assignment `fds[from] = accept_fds[i]` replaces the socket recorded for worker 0;
one reporting the peer id 3 makes that assignment fall outside `fds`.  At
`|workers| = 2` and `self_id = 0` the whole of `establish` fails the same way on
an inbound connection reporting the peer id 2, and on one reporting the peer id 0
it records socket 9 in its own slot. -/
theorem accept_peer_id_check :
    accept_body (strayNetworkEnv 0) 3 1 0
        (Except.ok { fds := [5, -1, -1], success := [true, true, false], events := [] }) =
      Except.ok { fds := [9, -1, -1], success := [true, true, false],
                  events := [NetEvent.read_id 0] } ∧
    accept_body (strayNetworkEnv 3) 3 1 0
        (Except.ok { fds := [5, -1, -1], success := [true, true, false], events := [] }) =
      Except.error Fault.outOfBounds ∧
    ClusterNetwork.establish (strayNetworkEnv 2) [toyWorker, toyWorker]
        { channels := [], self_id := 0 } = Outcome.failed Fault.outOfBounds ∧
    establish_tables (strayNetworkEnv 0) 2 0 =
      Except.ok { fds := [9, -1], success := [true, false],
                  events := [NetEvent.network_accept 1, NetEvent.read_id 0] } := by
  refine ⟨rfl, rfl, by decide, rfl⟩

/-! ## Cluster network: the failure report -/

theorem joinIds_snoc : ∀ (ids : List Nat) (i : Nat), ids ≠ [] →
    joinIds (ids ++ [i]) = joinIds ids ++ (", " ++ toString i) := by
  intro ids
  induction ids with
  | nil => intro i h; exact absurd rfl h
  | cons a rest ih =>
    intro i _
    cases rest with
    | nil => rfl
    | cons b rest2 =>
      have h := ih i (by simp)
      simp only [List.cons_append] at h ⊢
      simp only [joinIds, h, String.append_assoc]

theorem missingIds_succ (success : List Bool) (n : Nat) :
    missingIds success (n + 1) =
      missingIds success n ++ (if success.getD n true then [] else [n]) := by
  unfold missingIds
  rw [List.range_succ, List.filter_append]
  simp only [List.filter_cons, List.filter_nil]
  generalize success.getD n true = b
  cases b <;> simp

theorem mem_missingIds (success : List Bool) (n i : Nat) :
    i ∈ missingIds success n ↔ i < n ∧ success.getD i true = false := by
  unfold missingIds
  simp [List.mem_filter]

theorem report_head_ne_empty (ids : String) :
    "Could not connect to worker(s) " ++ ids ≠ "" := by
  intro hempty
  have h2 := congrArg String.length hempty
  simp [String.length_append] at h2
  exact absurd h2.1 (by decide)

/-- The loop that composes the return value: `overall_success` says that no id is
missing, and `rv` is empty in that case and the list of the missing ids after the
fixed prefix otherwise. -/
theorem report_loop (success : List Bool) (n : Nat) :
    forLoop (report_body success) n 0 ("", true) =
      (if missingIds success n = [] then ""
        else "Could not connect to worker(s) " ++ joinIds (missingIds success n),
       decide (missingIds success n = [])) := by
  have key := forLoop_induction (report_body success)
    (fun k st => st =
      (if missingIds success k = [] then ""
        else "Could not connect to worker(s) " ++ joinIds (missingIds success k),
       decide (missingIds success k = [])))
    n 0 ("", true) (by simp [missingIds]) ?_
  · simpa using key
  · intro j st _ _ hst
    subst hst
    rw [missingIds_succ]
    unfold report_body
    cases hs : success.getD j true with
    | true => simp
    | false =>
      by_cases hm : missingIds success j = []
      · simp [hm, joinIds]
      · simp [hm, joinIds_snoc _ _ hm, String.append_assoc]

/-- The loop that closes the sockets on failure closes `fds[i]` for each `i` with
`fds[i] != -1`, in index order. -/
theorem close_loop (fds : List Int) :
    ∀ (count start : Nat) (events : List NetEvent),
      forLoop (close_body fds) count start events =
        events ++ (((List.range' start count).map (fun i => fds.getD i (-1))).filter
          (fun fd => fd ≠ -1)).map NetEvent.network_close := by
  intro count
  induction count with
  | zero => intro start events; simp [forLoop]
  | succ n ih =>
    intro start events
    simp only [forLoop, List.range'_succ, List.map_cons, List.filter_cons]
    rw [ih]
    unfold close_body
    split <;> simp_all

/-- C24. Cluster failure report: when validation has passed and the tables `fds`
and `success` have been built, `establish` returns; the message is non-empty if
and only if some worker id below `|workers|` has `success[i]` false (no
established connection); it is then "Could not connect to worker(s) " followed by
exactly those ids, in increasing order, separated by ", ", the object (channel
table included) is unchanged, and the platform calls end with the closing of
`fds[i]` for each `i` with `fds[i] != -1`. -/
theorem establish_failure_report (env : NetworkEnv) (workers : List Worker)
    (net : ClusterNetwork) (t : Tables)
    (hv : validate net.self_id workers = none)
    (ht : establish_tables env workers.length net.self_id = Except.ok t) :
    ∃ rv net1 events, net.establish env workers = Outcome.returned rv net1 events ∧
      (rv ≠ "" ↔ ∃ i, i < workers.length ∧ t.success.getD i true = false) ∧
      (rv ≠ "" →
        rv = "Could not connect to worker(s) " ++
          joinIds (missingIds t.success workers.length) ∧
        (∀ i, i ∈ missingIds t.success workers.length ↔
          i < workers.length ∧ t.success.getD i true = false) ∧
        List.Pairwise (fun i j => i < j) (missingIds t.success workers.length) ∧
        net1 = net ∧
        events = t.events ++
          (((List.range workers.length).map (fun i => t.fds.getD i (-1))).filter
            (fun fd => fd ≠ -1)).map NetEvent.network_close) := by
  have hmiss : missingIds t.success workers.length ≠ [] ↔
      ∃ i, i < workers.length ∧ t.success.getD i true = false := by
    constructor
    · intro h
      obtain ⟨i, hi⟩ := List.exists_mem_of_ne_nil _ h
      exact ⟨i, (mem_missingIds _ _ _).mp hi⟩
    · rintro ⟨i, hi⟩ h
      have := (mem_missingIds _ _ _).mpr hi
      rw [h] at this
      exact absurd this (List.not_mem_nil _)
  unfold ClusterNetwork.establish
  simp only [hv, ht, report_loop]
  by_cases hm : missingIds t.success workers.length = []
  · simp only [hm, if_true, decide_True]
    refine ⟨_, _, _, rfl, ?_, fun h => absurd rfl h⟩
    rw [← hmiss]
    simp [hm]
  · simp only [hm, if_false, decide_False]
    refine ⟨_, _, _, rfl, ?_, fun _ => ⟨rfl, mem_missingIds _ _, ?_, rfl, ?_⟩⟩
    · rw [← hmiss]
      simp [hm, report_head_ne_empty]
    · exact List.Pairwise.filter _ (List.pairwise_lt_range _)
    · rw [close_loop, List.range_eq_range']

/-- Three workers and `self_id = 1`, every connection attempt timing out and the
one inbound connection (socket 9) reporting the peer id 0: the tables are
`fds = [9, -1, -1]`, `success = [false, true, false]`, and `establish` returns
"Could not connect to worker(s) 0, 2" after closing socket 9, the channel table
untouched. -/
theorem establish_failure_report_witness :
    validate 1 [toyWorker, toyWorker, toyWorker] = none ∧
    establish_tables (strayNetworkEnv 0) 3 1 =
      Except.ok { fds := [9, -1, -1], success := [false, true, false],
                  events := [NetEvent.network_connect 0 0, NetEvent.network_accept 1,
                    NetEvent.read_id 0] } ∧
    ClusterNetwork.establish (strayNetworkEnv 0) [toyWorker, toyWorker, toyWorker]
        { channels := [3], self_id := 1 } =
      Outcome.returned "Could not connect to worker(s) 0, 2" { channels := [3], self_id := 1 }
        [NetEvent.network_connect 0 0, NetEvent.network_accept 1, NetEvent.read_id 0,
          NetEvent.network_close 9] := by
  obtain ⟨rv, net1, events, h1, h2, h3⟩ := establish_failure_report (strayNetworkEnv 0)
    [toyWorker, toyWorker, toyWorker] { channels := [3], self_id := 1 }
    { fds := [9, -1, -1], success := [false, true, false],
      events := [NetEvent.network_connect 0 0, NetEvent.network_accept 1, NetEvent.read_id 0] }
    rfl rfl
  refine ⟨rfl, rfl, ?_⟩
  have hne : rv ≠ "" := h2.mpr ⟨0, by decide, rfl⟩
  obtain ⟨hrv, _, _, hnet, hev⟩ := h3 hne
  rw [h1, hrv, hnet, hev]
  rfl

/-! ## Cluster network: the channel table -/

/-- A connector keeps the sockets of the other workers and, when it reports
success, has recorded a socket other than -1 for its own worker, provided a
successful `network_connect` stores such a socket. -/
theorem connector_recorded (env : NetworkEnv) (num_workers self_id i : Nat)
    (hconn : ∀ k fd, env.network_connect i k = (NetworkError.Success, fd) →
      ∃ v, fd = some v ∧ v ≠ -1) :
    ∀ (tries k : Nat) (t t1 : Tables),
      connector env self_id i tries k t = Except.ok t1 →
      t.fds.length = num_workers → t.success.length = num_workers →
      (∀ j, j ≠ i → j ≠ self_id → t.success[j]? = some true →
        ∃ fd, t.fds[j]? = some fd ∧ fd ≠ -1) →
      SocketsRecorded num_workers self_id t1 := by
  intro tries
  induction tries with
  | zero =>
    intro k t t1 h hl1 hl2 hrec
    simp only [connector] at h
    injection h with h
    subst h
    refine ⟨hl1, by simp [hl2], ?_⟩
    intro j hjs hj
    by_cases hji : j = i
    · subst hji
      simp [List.getElem?_set] at hj
    · simp only [List.getElem?_set_ne (Ne.symm hji)] at hj
      exact hrec j hji hjs hj
  | succ n ih =>
    intro k t t1 h hl1 hl2 hrec
    simp only [connector] at h
    rcases hc : env.network_connect i k with ⟨err, ofd⟩
    rw [hc] at h
    have hfl : (match ofd with
        | some fd => t.fds.set i fd
        | none => t.fds).length = num_workers := by
      cases ofd <;> simp [hl1]
    have hfo : ∀ j, j ≠ i → (match ofd with
        | some fd => t.fds.set i fd
        | none => t.fds)[j]? = t.fds[j]? := by
      intro j hji
      cases ofd
      · rfl
      · exact List.getElem?_set_ne (Ne.symm hji)
    cases err with
    | Success =>
      obtain ⟨v, hv, hv1⟩ := hconn k ofd hc
      subst hv
      simp only at h hfl hfo
      injection h with h
      subst h
      refine ⟨hfl, by simp [hl2], ?_⟩
      intro j hjs hj
      by_cases hji : j = i
      · subst hji
        have hlt : j < t.success.length := by
          by_contra hge
          simp [List.getElem?_set, hge] at hj
        refine ⟨v, ?_, hv1⟩
        simp only
        rw [List.getElem?_set_self (by omega)]
      · simp only [List.getElem?_set_ne (Ne.symm hji)] at hj
        simp only
        rw [hfo j hji]
        exact hrec j hji hjs hj
    | ConnectionRefused =>
      simp only at h
      refine ih (k + 1) _ t1 h hfl hl2 ?_
      intro j hji hjs hj
      simp only at hj ⊢
      rw [hfo j hji]
      exact hrec j hji hjs hj
    | TimedOut =>
      simp only at h
      injection h with h
      subst h
      refine ⟨hfl, by simp [hl2], ?_⟩
      intro j hjs hj
      by_cases hji : j = i
      · subst hji
        simp [List.getElem?_set] at hj
      · simp only [List.getElem?_set_ne (Ne.symm hji)] at hj
        simp only
        rw [hfo j hji]
        exact hrec j hji hjs hj
    | Other code =>
      simp only at h
      exact absurd h (by simp)

/-- The accept loop keeps `SocketsRecorded` when the sockets `network_accept`
delivers are not -1. -/
theorem accept_body_recorded (env : NetworkEnv) (num_workers self_id i : Nat)
    (hacc : ∀ i, env.accept_fds i ≠ -1) (t t1 : Tables)
    (h : accept_body env num_workers self_id i (Except.ok t) = Except.ok t1)
    (hrec : SocketsRecorded num_workers self_id t) :
    SocketsRecorded num_workers self_id t1 := by
  obtain ⟨hl1, hl2, hr⟩ := hrec
  simp only [accept_body] at h
  split at h
  · rename_i hlt
    injection h with h
    subst h
    refine ⟨by simp [hl1], ?_, ?_⟩
    · simp only
      split <;> simp [hl2]
    · intro j hjs hj
      simp only at hj ⊢
      by_cases hjp : j = env.accept_from i
      · subst hjp
        exact ⟨env.accept_fds i, List.getElem?_set_self hlt, hacc i⟩
      · rw [List.getElem?_set_ne (Ne.symm hjp)]
        apply hr j hjs
        split at hj
        · rwa [List.getElem?_set_ne (Ne.symm hjp)] at hj
        · exact hj
  · exact absurd h (by simp)

/-- The tables built by `establish` satisfy `SocketsRecorded` when a successful
`network_connect` stores a socket other than -1 and the accepted sockets are not
-1. -/
theorem establish_tables_recorded (env : NetworkEnv) (num_workers self_id : Nat)
    (hconn : ∀ i k fd, env.network_connect i k = (NetworkError.Success, fd) →
      ∃ v, fd = some v ∧ v ≠ -1)
    (hacc : ∀ i, env.accept_fds i ≠ -1) (t : Tables)
    (h : establish_tables env num_workers self_id = Except.ok t) :
    SocketsRecorded num_workers self_id t := by
  unfold establish_tables at h
  have h0 : SocketsRecorded num_workers self_id
      { fds := List.replicate num_workers (-1)
        success := (List.replicate num_workers false).set self_id true
        events := [] } := by
    refine ⟨by simp, by simp, ?_⟩
    intro j hjs hj
    simp only [List.getElem?_set_ne (Ne.symm hjs), List.getElem?_replicate] at hj
    split at hj <;> simp at hj
  have hconnect := forLoop_induction (connect_body env self_id)
    (fun _ st => ∀ t1, st = Except.ok t1 → SocketsRecorded num_workers self_id t1)
    self_id 0 (Except.ok _) (fun t1 ht1 => by injection ht1 with ht1; rw [← ht1]; exact h0) (by
      intro j st _ _ hst t1 ht1
      cases st with
      | error f => simp [connect_body] at ht1
      | ok t0 =>
        simp only [connect_body] at ht1
        obtain ⟨hl1, hl2, hr⟩ := hst t0 rfl
        exact connector_recorded env num_workers self_id j (hconn j) _ _ t0 t1 ht1 hl1 hl2
          (fun j2 _ hjs hj => hr j2 hjs hj))
  simp only at hconnect h
  generalize forLoop (connect_body env self_id) self_id 0 _ = r at hconnect h
  cases r with
  | error f => simp at h
  | ok t1 =>
    simp only at h
    have h1 := hconnect t1 rfl
    split at h
    · have haccept := forLoop_induction (accept_body env num_workers self_id)
        (fun _ st => ∀ t2, st = Except.ok t2 → SocketsRecorded num_workers self_id t2)
        (num_workers - self_id - 1) 0
        (Except.ok { t1 with events := t1.events ++
          [NetEvent.network_accept (num_workers - self_id - 1)] })
        (fun t2 ht2 => by injection ht2 with ht2; rw [← ht2]; exact h1) (by
          intro j st _ _ hst t2 ht2
          cases st with
          | error f => simp [accept_body] at ht2
          | ok t0 =>
            have hrec0 := hst t0 rfl
            exact accept_body_recorded env num_workers self_id j hacc t0 t2 ht2 hrec0)
      exact haccept t h
    · injection h with h
      rw [← h]
      exact h1

/-- The loop that fills `channels`: the sockets of the ids other than `self_id`,
in index order. -/
theorem channel_loop (fds : List Int) (self_id : Nat) :
    ∀ (count start : Nat) (channels : List Int),
      forLoop (channel_body fds self_id) count start channels =
        channels ++ ((List.range' start count).filter (fun i => i ≠ self_id)).map
          (fun i => fds.getD i (-1)) := by
  intro count
  induction count with
  | zero => intro start channels; simp [forLoop]
  | succ n ih =>
    intro start channels
    simp only [forLoop, List.range'_succ, List.filter_cons]
    rw [ih]
    unfold channel_body
    split <;> simp_all

theorem length_filter_ne (self_id : Nat) :
    ∀ n, ((List.range n).filter (fun i => i ≠ self_id)).length =
      if self_id < n then n - 1 else n := by
  intro n
  induction n with
  | zero => simp
  | succ n ih =>
    rw [List.range_succ, List.filter_append, List.length_append, ih]
    simp only [List.filter_cons, List.filter_nil]
    by_cases h : n = self_id
    · subst h
      simp
    · simp only [h, ne_eq, not_false_eq_true, decide_True, if_true, List.length_singleton]
      split <;> split <;> omega

/-- C23. Channel table shape: whenever `establish` returns the empty string for
`|workers| = N`, the tables `fds` and `success` were built, the channel table is
the list of `fds[i]` over the worker ids `i` in increasing order with `self_id`
skipped, it has exactly `N - 1` entries, and none of them is -1, provided a
successful `network_connect` stores a socket other than -1 and the sockets
`network_accept` delivers are not -1. -/
theorem establish_channel_table (env : NetworkEnv) (workers : List Worker)
    (net net1 : ClusterNetwork) (events : List NetEvent)
    (hconn : ∀ i k fd, env.network_connect i k = (NetworkError.Success, fd) →
      ∃ v, fd = some v ∧ v ≠ -1)
    (hacc : ∀ i, env.accept_fds i ≠ -1)
    (h : net.establish env workers = Outcome.returned "" net1 events) :
    ∃ t, establish_tables env workers.length net.self_id = Except.ok t ∧
      net1.channels = ((List.range workers.length).filter (fun i => i ≠ net.self_id)).map
        (fun i => t.fds.getD i (-1)) ∧
      net1.channels.length = workers.length - 1 ∧
      ∀ fd, fd ∈ net1.channels → fd ≠ -1 := by
  unfold ClusterNetwork.establish at h
  cases hv : validate net.self_id workers with
  | some message =>
    simp only [hv] at h
    injection h with h1 h2 h3
    exact absurd h1 (validate_ne_empty _ _ _ hv)
  | none =>
    have hself := ((validate_eq_none _ _).mp hv).1
    simp only [hv] at h
    cases ht : establish_tables env workers.length net.self_id with
    | error f => simp [ht] at h
    | ok t =>
      obtain ⟨hl1, hl2, hr⟩ := establish_tables_recorded env _ _ hconn hacc t ht
      simp only [ht, report_loop] at h
      by_cases hm : missingIds t.success workers.length = []
      · simp only [hm, if_true, decide_True] at h
        injection h with h1 h2 h3
        have hch : net1.channels =
            ((List.range workers.length).filter (fun i => i ≠ net.self_id)).map
              (fun i => t.fds.getD i (-1)) := by
          rw [← h2]
          simp only
          rw [channel_loop, List.range_eq_range', List.nil_append]
        refine ⟨t, rfl, hch, ?_, ?_⟩
        · rw [hch, List.length_map, length_filter_ne, if_pos hself]
        · intro fd hfd
          rw [hch] at hfd
          obtain ⟨i, hi, hfdi⟩ := List.mem_map.mp hfd
          obtain ⟨hi1, hi2⟩ := List.mem_filter.mp hi
          have hilt : i < workers.length := List.mem_range.mp hi1
          have his : i ≠ net.self_id := by simpa using hi2
          have hsucc : t.success[i]? = some true := by
            have hnot : ¬ (i ∈ missingIds t.success workers.length) := by
              rw [hm]; exact List.not_mem_nil _
            rw [mem_missingIds] at hnot
            have hlt2 : i < t.success.length := by omega
            rw [List.getD_eq_getElem?_getD, List.getElem?_eq_getElem hlt2] at hnot
            rw [List.getElem?_eq_getElem hlt2]
            simp only [Option.getD_some, not_and, Bool.not_eq_false] at hnot
            rw [hnot hilt]
          obtain ⟨v, hv1, hv2⟩ := hr i his hsucc
          rw [← hfdi, List.getD_eq_getElem?_getD, hv1]
          exact hv2
      · simp only [hm, if_false, decide_False] at h
        injection h with h1 h2 h3
        exact absurd h1 (report_head_ne_empty _)

/-- Three workers and `self_id = 1`, the connection to worker 0 succeeding with
socket 5 and the inbound connection being socket 6 from worker 2: `establish`
returns the empty string and the channel table is `[5, 6]`. -/
theorem establish_channel_table_witness :
    ClusterNetwork.establish toyNetworkEnv [toyWorker, toyWorker, toyWorker]
        { channels := [], self_id := 1 } =
      Outcome.returned "" { channels := [5, 6], self_id := 1 }
        [NetEvent.network_connect 0 0, NetEvent.write_id 5 1, NetEvent.network_accept 1,
          NetEvent.read_id 0] ∧
    ∃ t, establish_tables toyNetworkEnv 3 1 = Except.ok t ∧ t.fds = [5, -1, 6] ∧
      ([5, 6] : List Int).length = 3 - 1 ∧ ∀ fd, fd ∈ ([5, 6] : List Int) → fd ≠ -1 := by
  obtain ⟨t, h1, h2, h3, h4⟩ := establish_channel_table toyNetworkEnv
    [toyWorker, toyWorker, toyWorker] { channels := [], self_id := 1 }
    { channels := [5, 6], self_id := 1 }
    [NetEvent.network_connect 0 0, NetEvent.write_id 5 1, NetEvent.network_accept 1,
      NetEvent.read_id 0]
    (fun i k fd hfd => ⟨5, by injection hfd with _ h; exact h.symm, by decide⟩)
    (fun i => by simp [toyNetworkEnv]) (by decide)
  refine ⟨by decide, t, h1, ?_, h3, h4⟩
  have ht : establish_tables toyNetworkEnv 3 1 =
      Except.ok { fds := [5, -1, 6], success := [true, true, true],
                  events := [NetEvent.network_connect 0 0, NetEvent.write_id 5 1,
                    NetEvent.network_accept 1, NetEvent.read_id 0] } := rfl
  have h5 := h1.symm.trans ht
  injection h5 with h5
  rw [h5]

end mage
